import Mathlib

/-!
BeRTOS menu engine (`mware/menu.c`) and STM32 PLL set-up (`clock_stm32.c`): shallow
embedding and properties

The embedding follows the build with `CPU_HARVARD = 0`: menu items live in RAM
and `menu_handle` passes `&menu->items[selected]` to `menu_doselect`.

* The item array `menu->items` is a `List MenuItem`; it holds every entry of the
  C array, the sentinel (an entry with neither label nor hook) included.  A read
  or write outside the list is an out-of-bounds access and yields
  `Outcome.fault` (or `none`).
* Pointers and `iptr_t` values are natural numbers, `0` being the null pointer.
* Flag words (`int flags`) are natural numbers: every flag constant lies below
  the sign bit.  `x & ~m` on such words is `clearBits x m`.
* Item indices are `int` in the walkers and are modelled in `Int`; the
  `uint8_t` variables of `menu_handle` are reduced modulo 256.
* The `do ... while` loops of the walkers may run forever, so they take a fuel
  argument: `Outcome.timeout` means that the loop was still running after
  `fuel` iterations.
* The constants of `menu.h` and `kbd.h` are not part of the sources at hand and
  are the fields of `MenuConfig`.
* A hook call is recorded in a trace of `(hook, userdata)` pairs; hooks are
  taken not to touch the menu.
* `menu_handle` reads its key events from a list; drawing the menu changes nothing
  in the state and is left out of an iteration.  The division by the font height at
  its entry is a division by zero for a font of height 0 and then yields
  `Outcome.fault`.  `menu_layout` is embedded on its own,
  for the build without `CONFIG_MENU_SMOOTH`, as the list of its `text_xprintf` calls;
  the style constants of `gfx/text.h` are the fields of `LayoutConfig`.
* The `ASSERT` macro is not part of the sources at hand either: a failed assertion
  ends the call (`Asserted.assert_failed`).
-/

namespace Bertos

/-- Result of running a piece of C code that may loop or access memory out of bounds. -/
inductive Outcome (α : Type) where
  | done : α → Outcome α
  | fault : Outcome α
  | timeout : Outcome α
  deriving DecidableEq, Repr

/-- Constants of `menu.h` (`MIF_*`, `MF_*`) and of the keyboard driver (`K_*`). -/
structure MenuConfig where
  MIF_EXCLUDE_MASK : Nat
  MIF_CHECKED : Nat
  MIF_CHECKIT : Nat
  MIF_TOGGLE : Nat
  MIF_HIDDEN : Nat
  MIF_DISABLED : Nat
  MF_STICKY : Nat
  MF_TOPLEVEL : Nat
  MF_ROMITEMS : Nat
  MF_SAVESEL : Nat
  K_OK : Nat
  K_UP : Nat
  K_DOWN : Nat
  K_CANCEL : Nat
  CONFIG_MENU_MENUBAR : Bool
  deriving DecidableEq, Repr

/-- A concrete assignment of the constants (single bits in the order in which `menu.h`
lists them, an eight-bit exclusion mask), used to run the code on sample menus. -/
def bertosConfig : MenuConfig where
  MIF_EXCLUDE_MASK := 0x00FF
  MIF_CHECKED := 0x0100
  MIF_CHECKIT := 0x0200
  MIF_TOGGLE := 0x0400
  MIF_HIDDEN := 0x0800
  MIF_DISABLED := 0x1000
  MF_STICKY := 0x01
  MF_TOPLEVEL := 0x02
  MF_ROMITEMS := 0x04
  MF_SAVESEL := 0x08
  K_OK := 0x02
  K_UP := 0x01
  K_DOWN := 0x04
  K_CANCEL := 0x08
  CONFIG_MENU_MENUBAR := false

/-- `MIF_CHECKED` is a single bit and none of the other item flag constants contains it. -/
def MenuConfig.CheckedSeparate (cfg : MenuConfig) : Prop :=
  (∃ b : Nat, cfg.MIF_CHECKED = 2 ^ b) ∧
  cfg.MIF_CHECKED &&& cfg.MIF_EXCLUDE_MASK = 0 ∧
  cfg.MIF_CHECKED &&& cfg.MIF_DISABLED = 0 ∧
  cfg.MIF_CHECKED &&& cfg.MIF_TOGGLE = 0 ∧
  cfg.MIF_CHECKED &&& cfg.MIF_CHECKIT = 0

/-- C `struct MenuItem`. -/
structure MenuItem where
  label : Nat
  flags : Nat
  hook : Nat
  userdata : Nat
  deriving DecidableEq, Repr

/-- C `struct Menu`; `bitmap_height` and `font_height` stand for
`menu->bitmap->height` and `menu->bitmap->font->height`. -/
structure Menu where
  items : List MenuItem
  title : Nat
  flags : Nat
  bitmap_height : Nat
  font_height : Nat
  selected : Int
  deriving DecidableEq, Repr

/-- The C expression `x & ~m` on non-negative words. -/
def clearBits (x m : Nat) : Nat := x ^^^ (x &&& m)

/-- Loop of `menu_count`: `cnt` is the index of the entry at the head of `items`. -/
def menu_count_loop : List MenuItem → Nat → Option Nat
  | [], _ => none
  | item :: rest, cnt =>
    if !(item.label != 0 || item.hook != 0) then some cnt
    else menu_count_loop rest (cnt + 1)

/-- C `menu_count`: the index of the first entry with neither label nor hook;
`none` when the loop runs off the array. -/
def menu_count (menu : Menu) : Option Nat :=
  menu_count_loop menu.items 0

/-- The read `menu->items[index].flags`. -/
def item_flags_at (menu : Menu) (index : Int) : Option Nat :=
  if 0 ≤ index then (menu.items[index.toNat]?).map (fun item => item.flags) else none

/-- The `do ... while (item_flags & MIF_HIDDEN)` loop of `menu_next_visible_item`. -/
def next_visible_loop (cfg : MenuConfig) (menu : Menu) (total : Int) : Nat → Int → Outcome Int
  | 0, _ => Outcome.timeout
  | fuel + 1, index =>
    let index := if index + 1 ≥ total then 0 else index + 1
    match item_flags_at menu index with
    | none => Outcome.fault
    | some item_flags =>
      if item_flags &&& cfg.MIF_HIDDEN != 0 then next_visible_loop cfg menu total fuel index
      else Outcome.done index

/-- C `menu_next_visible_item`, run for at most `fuel` iterations of its loop. -/
def menu_next_visible_item (cfg : MenuConfig) (fuel : Nat) (menu : Menu) (index : Int) :
    Outcome Int :=
  match menu_count menu with
  | none => Outcome.fault
  | some total => next_visible_loop cfg menu total fuel index

/-- The `do ... while (item_flags & MIF_HIDDEN)` loop of `menu_prev_visible_item`. -/
def prev_visible_loop (cfg : MenuConfig) (menu : Menu) (total : Int) : Nat → Int → Outcome Int
  | 0, _ => Outcome.timeout
  | fuel + 1, index =>
    let index := if index - 1 < 0 then total - 1 else index - 1
    match item_flags_at menu index with
    | none => Outcome.fault
    | some item_flags =>
      if item_flags &&& cfg.MIF_HIDDEN != 0 then prev_visible_loop cfg menu total fuel index
      else Outcome.done index

/-- C `menu_prev_visible_item`, run for at most `fuel` iterations of its loop. -/
def menu_prev_visible_item (cfg : MenuConfig) (fuel : Nat) (menu : Menu) (index : Int) :
    Outcome Int :=
  match menu_count menu with
  | none => Outcome.fault
  | some total => prev_visible_loop cfg menu total fuel index

/-- Entry `j` of the array exists and has `MIF_HIDDEN` set. -/
def HiddenAt (cfg : MenuConfig) (menu : Menu) (j : Int) : Prop :=
  ∃ f, item_flags_at menu j = some f ∧ f &&& cfg.MIF_HIDDEN ≠ 0

/-- Entry `j` of the array exists and has `MIF_HIDDEN` clear. -/
def VisibleAt (cfg : MenuConfig) (menu : Menu) (j : Int) : Prop :=
  ∃ f, item_flags_at menu j = some f ∧ f &&& cfg.MIF_HIDDEN = 0

/-- Item `r` (one of the `n` items) is the first visible one met when stepping forward
cyclically from `index + 1`: it is visible and every index strictly between `index` and
`r` in that cyclic order is hidden. -/
def FirstVisibleAfter (cfg : MenuConfig) (menu : Menu) (n : Nat) (index : Int) (r : Nat) : Prop :=
  r < n ∧ VisibleAt cfg menu r ∧
  ((index < r ∧ ∀ j : Int, index < j → j < r → HiddenAt cfg menu j) ∨
   ((r : Int) ≤ index ∧ (∀ j : Int, index < j → j < n → HiddenAt cfg menu j) ∧
      ∀ j : Int, 0 ≤ j → j < r → HiddenAt cfg menu j))

/-- Item `r` (one of the `n` items) is the first visible one met when stepping backward
cyclically from `index - 1`: it is visible and every index strictly between `r` and
`index` in that cyclic order is hidden. -/
def FirstVisibleBefore (cfg : MenuConfig) (menu : Menu) (n : Nat) (index : Int) (r : Nat) : Prop :=
  r < n ∧ VisibleAt cfg menu r ∧
  (((r : Int) < index ∧ ∀ j : Int, (r : Int) < j → j < index → HiddenAt cfg menu j) ∨
   (index ≤ r ∧ (∀ j : Int, 0 ≤ j → j < index → HiddenAt cfg menu j) ∧
      ∀ j : Int, (r : Int) < j → j < n → HiddenAt cfg menu j))

/-- The flags of entry `j` of the item array. -/
def item_flags (menu : Menu) (j : Nat) : Option Nat :=
  (menu.items[j]?).map (fun item => item.flags)

/-- Entry `j` of the array exists and has `MIF_CHECKED` set. -/
def CheckedAt (cfg : MenuConfig) (menu : Menu) (j : Nat) : Prop :=
  ∃ f, item_flags menu j = some f ∧ f &&& cfg.MIF_CHECKED ≠ 0

/-- Entry `j` of the array exists and has `MIF_CHECKED` clear. -/
def UncheckedAt (cfg : MenuConfig) (menu : Menu) (j : Nat) : Prop :=
  ∃ f, item_flags menu j = some f ∧ f &&& cfg.MIF_CHECKED = 0

/-- The exclusion mask `item->flags & MIF_EXCLUDE_MASK` of entry `i` (`0` off the array). -/
def exclude_mask (cfg : MenuConfig) (menu : Menu) (i : Nat) : Nat :=
  match item_flags menu i with
  | some f => f &&& cfg.MIF_EXCLUDE_MASK
  | none => 0

/-- The write `menu->items[i].flags &= ~MIF_CHECKED`; `none` off the array. -/
def clear_checked (cfg : MenuConfig) (items : List MenuItem) (i : Nat) :
    Option (List MenuItem) :=
  match items[i]? with
  | none => none
  | some item => some (items.set i { item with flags := clearBits item.flags cfg.MIF_CHECKED })

/-- The loop `for (mask = ..., i = 0; mask; mask >>= 1, ++i)` of `menu_doselect`. -/
def exclude_loop (cfg : MenuConfig) : Nat → Nat → Nat → List MenuItem → Outcome (List MenuItem)
  | 0, mask, _, items => if mask = 0 then Outcome.done items else Outcome.timeout
  | fuel + 1, mask, i, items =>
    if mask = 0 then Outcome.done items
    else if mask &&& 1 != 0 then
      match clear_checked cfg items i with
      | none => Outcome.fault
      | some items1 => exclude_loop cfg fuel (mask >>> 1) (i + 1) items1
    else exclude_loop cfg fuel (mask >>> 1) (i + 1) items

/-- The update of `item->flags` for checkable items in `menu_doselect`. -/
def select_flags (cfg : MenuConfig) (flags : Nat) : Nat :=
  if flags &&& cfg.MIF_TOGGLE != 0 then flags ^^^ cfg.MIF_CHECKED
  else if flags &&& cfg.MIF_CHECKIT != 0 then flags ||| cfg.MIF_CHECKED
  else flags

/-- C `menu_doselect(menu, &menu->items[idx])`.  The state is the menu together with the
trace of hook calls made so far.  The exclusion loop is given `mask` iterations, more than
the number of bits of `mask`. -/
def menu_doselect (cfg : MenuConfig) (menu : Menu) (idx : Nat) (calls : List (Nat × Nat)) :
    Outcome (Menu × List (Nat × Nat)) :=
  match menu.items[idx]? with
  | none => Outcome.fault
  | some item0 =>
    let mask := item0.flags &&& cfg.MIF_EXCLUDE_MASK
    match exclude_loop cfg mask mask 0 menu.items with
    | Outcome.fault => Outcome.fault
    | Outcome.timeout => Outcome.timeout
    | Outcome.done items1 =>
      match items1[idx]? with
      | none => Outcome.fault
      | some item =>
        if item.flags &&& cfg.MIF_DISABLED != 0 then
          Outcome.done ({ menu with items := items1 }, calls)
        else
          let items2 := items1.set idx { item with flags := select_flags cfg item.flags }
          let calls2 := if item.hook != 0 then calls ++ [(item.hook, item.userdata)] else calls
          Outcome.done ({ menu with items := items2 }, calls2)

/-- Local variables of `menu_handle` together with the menu and the trace of hook calls. -/
structure LoopState where
  menu : Menu
  first_item : Nat
  selected : Nat
  calls : List (Nat × Nat)
  deriving DecidableEq, Repr

/-- Where `menu_handle` stands after a key event: still in its loop, or returned. -/
inductive Control where
  | running : LoopState → Control
  | exiting : Nat → Menu → List (Nat × Nat) → Control
  deriving DecidableEq, Repr

/-- The store `menu->selected = selected`, done when `MF_SAVESEL` is set. -/
def save_selection (cfg : MenuConfig) (menu : Menu) (selected : Nat) : Menu :=
  if menu.flags &&& cfg.MF_SAVESEL != 0 then { menu with selected := (selected : Int) } else menu

/-- The C expression `!menu->flags & MF_STICKY`, which parses as `(!menu->flags) & MF_STICKY`. -/
def not_flags_and_sticky (cfg : MenuConfig) (menu : Menu) : Nat :=
  (if menu.flags = 0 then 1 else 0) &&& cfg.MF_STICKY

/-- Conversion of an `int` to `uint8_t`. -/
def to_uint8 (x : Int) : Nat := (x % 256).toNat

/-- The key dispatch of one iteration of `menu_handle` (the `if (key & K_OK) ... else if ...`
chain); `fuel` bounds the walker loops. -/
def menu_handle_key (cfg : MenuConfig) (fuel : Nat) (s : LoopState) (key : Nat) :
    Outcome Control :=
  if key &&& cfg.K_OK != 0 then
    match menu_doselect cfg s.menu s.selected s.calls with
    | Outcome.fault => Outcome.fault
    | Outcome.timeout => Outcome.timeout
    | Outcome.done (menu1, calls1) =>
      if not_flags_and_sticky cfg menu1 != 0 then
        let menu2 := save_selection cfg menu1 s.selected
        match menu2.items[s.selected]? with
        | none => Outcome.fault
        | some item => Outcome.done (Control.exiting item.userdata menu2 calls1)
      else Outcome.done (Control.running { s with menu := menu1, calls := calls1 })
  else if key &&& cfg.K_UP != 0 then
    match menu_prev_visible_item cfg fuel s.menu (s.selected : Int) with
    | Outcome.fault => Outcome.fault
    | Outcome.timeout => Outcome.timeout
    | Outcome.done r => Outcome.done (Control.running { s with selected := to_uint8 r })
  else if key &&& cfg.K_DOWN != 0 then
    match menu_next_visible_item cfg fuel s.menu (s.selected : Int) with
    | Outcome.fault => Outcome.fault
    | Outcome.timeout => Outcome.timeout
    | Outcome.done r => Outcome.done (Control.running { s with selected := to_uint8 r })
  else if key &&& cfg.K_CANCEL != 0 && !(s.menu.flags &&& cfg.MF_TOPLEVEL != 0) then
    Outcome.done (Control.exiting 0 (save_selection cfg s.menu s.selected) s.calls)
  else Outcome.done (Control.running s)

/-- The value of `items_per_page` in `menu_handle`: the number of text rows of the bitmap,
`menu->bitmap->height / menu->bitmap->font->height`, less one for the menu bar when there
is one and one for the title when there is one, stored in a `uint8_t`.  With a font of
height 0 the division is a division by zero, which is undefined in C: `Outcome.fault`. -/
def items_per_page (cfg : MenuConfig) (menu : Menu) : Outcome Nat :=
  if menu.font_height = 0 then Outcome.fault
  else Outcome.done (to_uint8 (((menu.bitmap_height / menu.font_height : Nat) : Int)
    - (if cfg.CONFIG_MENU_MENUBAR then 1 else 0) - (if menu.title != 0 then 1 else 0)))

/-- Entry of `menu_handle`: `first_item = selected = menu_next_visible_item(menu,
menu->selected - 1)`. -/
def menu_handle_init (cfg : MenuConfig) (fuel : Nat) (menu : Menu) (calls : List (Nat × Nat)) :
    Outcome LoopState :=
  match menu_next_visible_item cfg fuel menu (menu.selected - 1) with
  | Outcome.fault => Outcome.fault
  | Outcome.timeout => Outcome.timeout
  | Outcome.done r => Outcome.done ⟨menu, to_uint8 r, to_uint8 r, calls⟩

/-- The loop `while (selected < first_item) first_item = menu_prev_visible_item(menu,
first_item)`; the first `Nat` argument bounds the number of passes through the loop body,
`wfuel` bounds the loop of the walker. -/
def frame_up_loop (cfg : MenuConfig) (wfuel : Nat) (menu : Menu) (selected : Nat) :
    Nat → Nat → Outcome Nat
  | 0, first_item => if selected < first_item then Outcome.timeout else Outcome.done first_item
  | fuel + 1, first_item =>
    if selected < first_item then
      match menu_prev_visible_item cfg wfuel menu (first_item : Int) with
      | Outcome.fault => Outcome.fault
      | Outcome.timeout => Outcome.timeout
      | Outcome.done r => frame_up_loop cfg wfuel menu selected fuel (to_uint8 r)
    else Outcome.done first_item

/-- The loop `while (selected >= first_item + items_per_page) first_item =
menu_next_visible_item(menu, first_item)`; the sum is computed in `int`. -/
def frame_down_loop (cfg : MenuConfig) (wfuel : Nat) (menu : Menu) (page selected : Nat) :
    Nat → Nat → Outcome Nat
  | 0, first_item =>
    if selected ≥ first_item + page then Outcome.timeout else Outcome.done first_item
  | fuel + 1, first_item =>
    if selected ≥ first_item + page then
      match menu_next_visible_item cfg wfuel menu (first_item : Int) with
      | Outcome.fault => Outcome.fault
      | Outcome.timeout => Outcome.timeout
      | Outcome.done r => frame_down_loop cfg wfuel menu page selected fuel (to_uint8 r)
    else Outcome.done first_item

/-- The two "keep selected item visible" loops at the top of an iteration of `menu_handle`;
the result is the new value of `first_item`.  Each loop is given `fuel` passes. -/
def menu_handle_frame (cfg : MenuConfig) (fuel : Nat) (menu : Menu) (page first_item
    selected : Nat) : Outcome Nat :=
  match frame_up_loop cfg fuel menu selected fuel first_item with
  | Outcome.fault => Outcome.fault
  | Outcome.timeout => Outcome.timeout
  | Outcome.done first1 => frame_down_loop cfg fuel menu page selected fuel first1

/-- One iteration of the `for (;;)` loop of `menu_handle` on the key event `key`, `page`
being the value of the local variable `items_per_page`: the window is adjusted, the menu is
drawn (which changes nothing in the state) and the key is dispatched. -/
def menu_handle_step (cfg : MenuConfig) (fuel page : Nat) (s : LoopState) (key : Nat) :
    Outcome Control :=
  match menu_handle_frame cfg fuel s.menu page s.first_item s.selected with
  | Outcome.fault => Outcome.fault
  | Outcome.timeout => Outcome.timeout
  | Outcome.done first1 => menu_handle_key cfg fuel { s with first_item := first1 } key

/-- The loop of `menu_handle` run on a sequence of key events, from the state `s` and with
`items_per_page = page`; once the function has returned the remaining key events are not
read. -/
def menu_handle_run (cfg : MenuConfig) (fuel page : Nat) :
    LoopState → List Nat → Outcome Control
  | s, [] => Outcome.done (Control.running s)
  | s, key :: keys =>
    match menu_handle_step cfg fuel page s key with
    | Outcome.fault => Outcome.fault
    | Outcome.timeout => Outcome.timeout
    | Outcome.done (Control.exiting result menu calls) =>
      Outcome.done (Control.exiting result menu calls)
    | Outcome.done (Control.running s1) => menu_handle_run cfg fuel page s1 keys

/-- C `menu_handle` run on a sequence of key events: `items_per_page` is computed, then
`selected` and `first_item` are seeded, then the loop is entered. -/
def menu_handle (cfg : MenuConfig) (fuel : Nat) (menu : Menu) (calls : List (Nat × Nat))
    (keys : List Nat) : Outcome Control :=
  match items_per_page cfg menu with
  | Outcome.fault => Outcome.fault
  | Outcome.timeout => Outcome.timeout
  | Outcome.done page =>
    match menu_handle_init cfg fuel menu calls with
    | Outcome.fault => Outcome.fault
    | Outcome.timeout => Outcome.timeout
    | Outcome.done s => menu_handle_run cfg fuel page s keys

/-- Result of a function that starts with assertions. -/
inductive Asserted (α : Type) where
  | ok : α → Asserted α
  | assert_failed : Asserted α
  | fault : Asserted α
  deriving DecidableEq, Repr

/-- Modelled from the spec: the `ASSERT` macro of `cfg/debug.h`, which is not among the
sources; a failed assertion is a contract violation that is fatal (debug build), so that
nothing after it is executed.  The two assertions of `menu_setFlags` and `menu_clearFlags`:
`ASSERT(idx < menu_count(menu))` and `ASSERT(!(menu->flags & MF_ROMITEMS))`. -/
def flags_asserts (cfg : MenuConfig) (menu : Menu) (idx : Int) : Asserted Unit :=
  match menu_count menu with
  | none => Asserted.fault
  | some total =>
    if !(decide (idx < (total : Int))) then Asserted.assert_failed
    else if !(!(menu.flags &&& cfg.MF_ROMITEMS != 0)) then Asserted.assert_failed
    else Asserted.ok ()

/-- The statements `int old = menu->items[idx].flags; menu->items[idx].flags = f(old);
return old;` shared by `menu_setFlags` and `menu_clearFlags`. -/
def update_flags (menu : Menu) (idx : Int) (f : Nat → Nat) : Asserted (Menu × Nat) :=
  if idx < 0 then Asserted.fault
  else
    match menu.items[idx.toNat]? with
    | none => Asserted.fault
    | some item =>
      Asserted.ok ({ menu with items := menu.items.set idx.toNat { item with flags := f item.flags } },
        item.flags)

/-- C `menu_setFlags`; the result is the menu after the call and the value returned. -/
def menu_setFlags (cfg : MenuConfig) (menu : Menu) (idx : Int) (flags : Nat) :
    Asserted (Menu × Nat) :=
  match flags_asserts cfg menu idx with
  | Asserted.fault => Asserted.fault
  | Asserted.assert_failed => Asserted.assert_failed
  | Asserted.ok _ => update_flags menu idx (fun old => old ||| flags)

/-- C `menu_clearFlags`; the result is the menu after the call and the value returned. -/
def menu_clearFlags (cfg : MenuConfig) (menu : Menu) (idx : Int) (flags : Nat) :
    Asserted (Menu × Nat) :=
  match flags_asserts cfg menu idx with
  | Asserted.fault => Asserted.fault
  | Asserted.assert_failed => Asserted.assert_failed
  | Asserted.ok _ => update_flags menu idx (fun old => clearBits old flags)

/-- Two entries differ in their flags at most. -/
def SameButFlags (a b : MenuItem) : Prop :=
  b.label = a.label ∧ b.hook = a.hook ∧ b.userdata = a.userdata

/-- Two entries differ in the `MIF_CHECKED` bit of their flags at most. -/
def SameButChecked (cfg : MenuConfig) (a b : MenuItem) : Prop :=
  SameButFlags a b ∧ clearBits b.flags cfg.MIF_CHECKED = clearBits a.flags cfg.MIF_CHECKED

/-- The arrays have the same length and entries at the same index are related by `R`. -/
def ItemsRelated (R : MenuItem → MenuItem → Prop) (items items2 : List MenuItem) : Prop :=
  items2.length = items.length ∧
  ∀ (j : Nat) (a b : MenuItem), items[j]? = some a → items2[j]? = some b → R a b

/-- The menu as it is when `menu_handle` is in the given control state. -/
def Control.menu : Control → Menu
  | Control.running s => s.menu
  | Control.exiting _ menu _ => menu

/-- What the exclusion loop, started at index `i` with `mask`, makes of entry `j`. -/
def excluded_item (cfg : MenuConfig) (mask i j : Nat) (item : MenuItem) : MenuItem :=
  if i ≤ j ∧ mask.testBit (j - i) = true then
    { item with flags := clearBits item.flags cfg.MIF_CHECKED }
  else item

/-- The entry `item0` at index `idx` after `menu_doselect` on it, `mask` being its exclusion
mask: the exclusion loop may have cleared its own `MIF_CHECKED`, and unless it is disabled
its flags are updated. -/
def selected_item (cfg : MenuConfig) (mask idx : Nat) (item0 : MenuItem) : MenuItem :=
  let item := excluded_item cfg mask 0 idx item0
  if item.flags &&& cfg.MIF_DISABLED != 0 then item
  else { item with flags := select_flags cfg item.flags }

/-- The trace of hook calls after `menu_doselect` on `item0` at index `idx`. -/
def selected_calls (cfg : MenuConfig) (mask idx : Nat) (item0 : MenuItem)
    (calls : List (Nat × Nat)) : List (Nat × Nat) :=
  let item := excluded_item cfg mask 0 idx item0
  if item.flags &&& cfg.MIF_DISABLED != 0 then calls
  else if item.hook != 0 then calls ++ [(item.hook, item.userdata)] else calls

/-- The menu of the scenario `[A (plain), B (toggle, unchecked), C (hidden)]`, followed by the
sentinel entry. -/
def sampleMenu : Menu where
  items := [⟨1, 0, 0, 10⟩, ⟨2, 0x400, 0, 20⟩, ⟨3, 0x800, 0, 30⟩, ⟨0, 0, 0, 0⟩]
  title := 0
  flags := 0
  bitmap_height := 24
  font_height := 8
  selected := 0

/-- A menu whose two items are both hidden. -/
def hiddenMenu : Menu where
  items := [⟨1, 0x800, 0, 10⟩, ⟨2, 0x800, 0, 20⟩, ⟨0, 0, 0, 0⟩]
  title := 0
  flags := 0
  bitmap_height := 24
  font_height := 8
  selected := 0

/-- A menu whose only item is disabled, checked and lists itself in its exclusion mask. -/
def disabledSelfMenu : Menu where
  items := [⟨1, 0x1101, 5, 10⟩, ⟨0, 0, 0, 0⟩]
  title := 0
  flags := 0
  bitmap_height := 24
  font_height := 8
  selected := 0

/-- A menu whose only item is an unchecked toggle that lists itself in its exclusion mask. -/
def toggleSelfMenu : Menu where
  items := [⟨1, 0x401, 0, 10⟩, ⟨0, 0, 0, 0⟩]
  title := 0
  flags := 0
  bitmap_height := 24
  font_height := 8
  selected := 0

/-- A menu with a group of three mutually exclusive check items (the second one checked),
a disabled item excluding the first two, and a toggle item with a hook. -/
def radioMenu : Menu where
  items := [⟨1, 0x206, 0, 10⟩, ⟨2, 0x305, 0, 20⟩, ⟨3, 0x203, 7, 30⟩, ⟨4, 0x1003, 8, 40⟩,
    ⟨5, 0x400, 9, 50⟩, ⟨0, 0, 0, 0⟩]
  title := 0
  flags := 0
  bitmap_height := 24
  font_height := 8
  selected := 0

/-- The scenario menu as a top-level menu: `MF_TOPLEVEL` set, `MF_STICKY` clear. -/
def topLevelMenu : Menu := { sampleMenu with flags := 0x02 }

/-- The scenario menu with `MF_SAVESEL` set and `MF_STICKY` clear. -/
def saveSelMenu : Menu := { sampleMenu with flags := 0x08 }

/-- A menu without items: the array holds the sentinel entry only. -/
def emptyMenu : Menu where
  items := [⟨0, 0, 0, 0⟩]
  title := 0
  flags := 0
  bitmap_height := 24
  font_height := 8
  selected := 0

/-- A menu of five visible plain items on a bitmap with room for two rows. -/
def fiveMenu : Menu where
  items := [⟨1, 0, 0, 10⟩, ⟨2, 0, 0, 20⟩, ⟨3, 0, 0, 30⟩, ⟨4, 0, 0, 40⟩, ⟨5, 0, 0, 50⟩,
    ⟨0, 0, 0, 0⟩]
  title := 0
  flags := 0
  bitmap_height := 16
  font_height := 8
  selected := 0

/-- A menu of 257 items with `MF_SAVESEL` set: the items 1 and 256 are visible, all others
are hidden; `menu->selected` is 1. -/
def bigMenu : Menu where
  items := [⟨1, 0x800, 0, 0⟩, ⟨1, 0, 0, 1⟩] ++ List.replicate 254 ⟨1, 0x800, 0, 0⟩
    ++ [⟨1, 0, 0, 256⟩, ⟨0, 0, 0, 0⟩]
  title := 0
  flags := 0x08
  bitmap_height := 24
  font_height := 8
  selected := 1

/-- The scenario menu entered with a saved selection of 1. -/
def resumeMenu : Menu := { sampleMenu with selected := 1 }

/-- What holds of the selection all along a run of `menu_handle` on a menu of `n` items with
menu flags `flags`: `selected` is a visible entry of the array, an item of the menu or
index 0. -/
def SelectionValid (cfg : MenuConfig) (n flags : Nat) (s : LoopState) : Prop :=
  menu_count s.menu = some n ∧ s.menu.flags = flags ∧
  VisibleAt cfg s.menu (s.selected : Int) ∧ (s.selected < n ∨ s.selected = 0)

/-- What holds of the two indices of `menu_handle` all along a run on a menu of `n` items:
`selected` and `first_item` are indices of visible items of the menu. -/
def LoopValid (cfg : MenuConfig) (n : Nat) (s : LoopState) : Prop :=
  menu_count s.menu = some n ∧
  (s.selected < n ∧ VisibleAt cfg s.menu (s.selected : Int)) ∧
  (s.first_item < n ∧ VisibleAt cfg s.menu (s.first_item : Int))

/-! ### Drawing the menu (`menu_layout`, build without `CONFIG_MENU_SMOOTH`)

`PTRMSG` is taken to be the plain conversion to a string pointer (no message table), so a
title or a label is the number stored in the menu.  The row given to `text_xprintf` is the
value of the `int` expression `ypos++`. -/

/-- Constants that `menu_layout` takes from headers that are not part of the sources: the
text styles of `gfx/text.h` and the item flag `MIF_RAMLABEL` of `menu.h`. -/
structure LayoutConfig where
  STYLEF_UNDERLINE : Nat
  STYLEF_BOLD : Nat
  STYLEF_INVERT : Nat
  TEXT_CENTER : Nat
  TEXT_FILL : Nat
  MIF_RAMLABEL : Nat
  deriving DecidableEq, Repr

/-- The values of the BeRTOS headers. -/
def bertosLayout : LayoutConfig where
  STYLEF_UNDERLINE := 0x04
  STYLEF_BOLD := 0x01
  STYLEF_INVERT := 0x08
  TEXT_CENTER := 0x4000
  TEXT_FILL := 0x2000
  MIF_RAMLABEL := 0x2000

/-- The style `STYLEF_INVERT` is a flag of its own: it is not zero and it is part neither of
`TEXT_FILL` nor of the style of the title row. -/
def LayoutConfig.InvertSeparate (lcfg : LayoutConfig) : Prop :=
  lcfg.STYLEF_INVERT ≠ 0 ∧ lcfg.TEXT_FILL &&& lcfg.STYLEF_INVERT = 0 ∧
  (lcfg.STYLEF_UNDERLINE ||| lcfg.STYLEF_BOLD ||| lcfg.TEXT_CENTER ||| lcfg.TEXT_FILL)
    &&& lcfg.STYLEF_INVERT = 0

/-- The format string of an item row: `ram` is `"%s%S"`, `rom` is `"%S%S"`. -/
inductive LabelFormat where
  | ram : LabelFormat
  | rom : LabelFormat
  deriving DecidableEq, Repr

/-- The string printed after the label of an item: `on` is `":ON"`, `off` is `":OFF"`,
`mark` is `"\04"` and `blank` is `""`. -/
inductive CheckMark where
  | on : CheckMark
  | off : CheckMark
  | mark : CheckMark
  | blank : CheckMark
  deriving DecidableEq, Repr

/-- What a call of `text_xprintf` prints: the title, or the label of an item in the given
format followed by its mark. -/
inductive DrawText where
  | title : Nat → DrawText
  | item : LabelFormat → Nat → CheckMark → DrawText
  deriving DecidableEq, Repr

/-- One call `text_xprintf(menu->bitmap, row, col, style, ...)`. -/
structure DrawCall where
  row : Nat
  col : Nat
  style : Nat
  text : DrawText
  deriving DecidableEq, Repr

/-- The last argument of the call that draws an item. -/
def item_mark (cfg : MenuConfig) (flags : Nat) : CheckMark :=
  if flags &&& cfg.MIF_TOGGLE != 0 then
    (if flags &&& cfg.MIF_CHECKED != 0 then CheckMark.on else CheckMark.off)
  else (if flags &&& cfg.MIF_CHECKED != 0 then CheckMark.mark else CheckMark.blank)

/-- The call of `text_xprintf` in the loop of `menu_layout`, for the entry `item` at
`index = first_item + cnt`, on row `ypos`. -/
def layout_item_call (cfg : MenuConfig) (lcfg : LayoutConfig) (ypos : Nat)
    (index selected : Int) (item : MenuItem) : DrawCall :=
  ⟨ypos, 0,
    if index = selected then lcfg.STYLEF_INVERT ||| lcfg.TEXT_FILL else lcfg.TEXT_FILL,
    DrawText.item
      (if item.flags &&& lcfg.MIF_RAMLABEL != 0 then LabelFormat.ram else LabelFormat.rom)
      item.label (item_mark cfg item.flags)⟩

/-- The loop `for (cnt = 0; cnt < items_per_page; ++cnt)` of `menu_layout`; the first `Nat`
argument is the number of passes left, `items_per_page - cnt`.  The result is the list of
the calls of `text_xprintf`, in the order in which they are made. -/
def layout_loop (cfg : MenuConfig) (lcfg : LayoutConfig) (menu : Menu)
    (first_item selected : Int) : Nat → Int → Nat → Outcome (List DrawCall)
  | 0, _, _ => Outcome.done []
  | passes + 1, cnt, ypos =>
    match (if 0 ≤ first_item + cnt then menu.items[(first_item + cnt).toNat]? else none) with
    | none => Outcome.fault
    | some item =>
      if !(item.label != 0 || item.hook != 0) then Outcome.done []
      else if !(item.flags &&& cfg.MIF_HIDDEN != 0) then
        match layout_loop cfg lcfg menu first_item selected passes (cnt + 1) (ypos + 1) with
        | Outcome.fault => Outcome.fault
        | Outcome.timeout => Outcome.timeout
        | Outcome.done calls =>
          Outcome.done (layout_item_call cfg lcfg ypos (first_item + cnt) selected item :: calls)
      else layout_loop cfg lcfg menu first_item selected passes (cnt + 1) ypos

/-- The call that draws the title, when there is one. -/
def layout_title (lcfg : LayoutConfig) (menu : Menu) : List DrawCall :=
  if menu.title != 0 then
    [⟨0, 0,
      lcfg.STYLEF_UNDERLINE ||| lcfg.STYLEF_BOLD ||| lcfg.TEXT_CENTER ||| lcfg.TEXT_FILL,
      DrawText.title menu.title⟩]
  else []

/-- C `menu_layout` without `CONFIG_MENU_SMOOTH`: the calls of `text_xprintf` it makes, in
order. -/
def menu_layout (cfg : MenuConfig) (lcfg : LayoutConfig) (menu : Menu)
    (first_item items_per_page selected : Int) : Outcome (List DrawCall) :=
  match layout_loop cfg lcfg menu first_item selected items_per_page.toNat 0
      (if menu.title != 0 then 1 else 0) with
  | Outcome.fault => Outcome.fault
  | Outcome.timeout => Outcome.timeout
  | Outcome.done calls => Outcome.done (layout_title lcfg menu ++ calls)

/-- Entry `i` of the array exists and has `MIF_HIDDEN` clear, as a test. -/
def visible_entry (cfg : MenuConfig) (menu : Menu) (i : Nat) : Bool :=
  match menu.items[i]? with
  | some item => item.flags &&& cfg.MIF_HIDDEN == 0
  | none => false

/-- The indices of the items that the window shows, in increasing order: the visible items
among the `len` entries from `start` on. -/
def window_indices (cfg : MenuConfig) (menu : Menu) (start len : Nat) : List Nat :=
  (List.range' start len).filter (visible_entry cfg menu)

/-- The rows of the items with the given indices, drawn one below the other from `row` on. -/
def draw_rows (cfg : MenuConfig) (lcfg : LayoutConfig) (menu : Menu) (selected : Int) :
    List Nat → Nat → List DrawCall
  | [], _ => []
  | i :: rest, row =>
    match menu.items[i]? with
    | some item =>
      layout_item_call cfg lcfg row (i : Int) selected item
        :: draw_rows cfg lcfg menu selected rest (row + 1)
    | none => draw_rows cfg lcfg menu selected rest row

/-- A menu with a title, a hidden item and a checked toggle item, on a bitmap of four rows. -/
def titledMenu : Menu where
  items := [⟨1, 0, 0, 10⟩, ⟨2, 0x800, 0, 20⟩, ⟨3, 0x500, 0, 30⟩, ⟨4, 0x2100, 0, 40⟩,
    ⟨5, 0, 0, 50⟩, ⟨0, 0, 0, 0⟩]
  title := 9
  flags := 0
  bitmap_height := 32
  font_height := 8
  selected := 0

/-! ### STM32 clock driver (`cpu/cortex-m3/drv/clock_stm32.c`)

The constants `CPU_FREQ` and `PLL_VCO` are not part of the sources at hand and are
arguments.  `div` and `mul` are `unsigned int`, so `PLL_VCO / div * mul` is evaluated in an
unsigned type of at least 32 bits, of which the width `w` is an argument as well (32 when
the constants are `int` or `unsigned long` on this CPU). -/

/-- The loop `for (mul = ...; mul <= 16; mul++) if (CPU_FREQ <= (PLL_VCO / div * mul))
break;` of `pll_clock`, entered with the given value of `mul`: the value of `mul` on exit.
The loop body is passed through at most 15 times. -/
def pll_mul_loop (w CPU_FREQ PLL_VCO div : Nat) : Nat → Nat → Nat
  | 0, mul => mul
  | fuel + 1, mul =>
    if mul ≤ 16 then
      if CPU_FREQ ≤ (PLL_VCO / div * mul) % 2 ^ w then mul
      else pll_mul_loop w CPU_FREQ PLL_VCO div fuel (mul + 1)
    else mul

/-- The loop `for (div = ...; div; div--)` of `pll_clock`, entered with the given values of
`div` and `mul`: the values of `div` and `mul` on exit.  The loop body is passed through
twice. -/
def pll_div_loop (w CPU_FREQ PLL_VCO : Nat) : Nat → Nat → Nat → Nat × Nat
  | 0, div, mul => (div, mul)
  | fuel + 1, div, mul =>
    if div != 0 then
      pll_div_loop w CPU_FREQ PLL_VCO fuel (div - 1) (pll_mul_loop w CPU_FREQ PLL_VCO div 16 2)
    else (div, mul)

/-- C `pll_clock`: `mul << 8 | div` after the two loops, as a `uint16_t`. -/
def pll_clock (w CPU_FREQ PLL_VCO : Nat) : Nat :=
  let r := pll_div_loop w CPU_FREQ PLL_VCO 3 2 0
  ((r.2 <<< 8) ||| r.1) % 2 ^ 16

/-- The value `pll_div` of `rcc_pll_config`: `((clock & 0xff) << 1 | 1) << 16` as a
`uint32_t`. -/
def rcc_pll_div (clock : Nat) : Nat :=
  ((((clock &&& 0xff) <<< 1) ||| 1) <<< 16) % 2 ^ 32

/-- The value `pll_mul` of `rcc_pll_config`: `((clock >> 8) - 2) << 18` as a `uint32_t`. -/
def rcc_pll_mul (clock : Nat) : Nat :=
  (((((clock >>> 8 : Nat) : Int) - 2) * 2 ^ 18) % 2 ^ 32).toNat

/-- C `rcc_pll_config`: the value stored into `RCC->CFGR`, given the value `cfgr` read
from it. -/
def rcc_pll_config (CFGR_PLL_MASK cfgr w CPU_FREQ PLL_VCO : Nat) : Nat :=
  let clock := pll_clock w CPU_FREQ PLL_VCO
  (cfgr &&& CFGR_PLL_MASK) ||| (rcc_pll_div clock ||| rcc_pll_mul clock)

/-! ## Item store and visibility walker -/

theorem menu_count_loop_bound (items : List MenuItem) (c m : Nat)
    (h : menu_count_loop items c = some m) : c ≤ m ∧ m - c < items.length := by
  induction items generalizing c with
  | nil => simp [menu_count_loop] at h
  | cons item rest ih =>
    simp only [menu_count_loop] at h
    split at h
    · simp only [Option.some.injEq] at h
      subst h
      simp
    · have h2 := ih (c + 1) h
      simp only [List.length_cons]
      omega

theorem menu_count_lt_length (menu : Menu) (n : Nat) (h : menu_count menu = some n) :
    n < menu.items.length := by
  have h2 := menu_count_loop_bound menu.items 0 n h
  omega

theorem item_flags_at_some (menu : Menu) (j : Int) (h0 : 0 ≤ j)
    (hl : j < menu.items.length) : ∃ f, item_flags_at menu j = some f := by
  have hj : j.toNat < menu.items.length := by omega
  refine ⟨(menu.items[j.toNat]).flags, ?_⟩
  simp [item_flags_at, h0, List.getElem?_eq_getElem hj]

theorem hidden_or_visible (cfg : MenuConfig) (menu : Menu) (j : Int) (h0 : 0 ≤ j)
    (hl : j < menu.items.length) : HiddenAt cfg menu j ∨ VisibleAt cfg menu j := by
  obtain ⟨f, hf⟩ := item_flags_at_some menu j h0 hl
  by_cases hh : f &&& cfg.MIF_HIDDEN = 0
  · exact Or.inr ⟨f, hf, hh⟩
  · exact Or.inl ⟨f, hf, hh⟩

theorem not_hidden_of_visible (cfg : MenuConfig) (menu : Menu) (j : Int)
    (hv : VisibleAt cfg menu j) : ¬ HiddenAt cfg menu j := by
  rintro ⟨f, hf, hh⟩
  obtain ⟨g, hg, hz⟩ := hv
  rw [hf] at hg
  simp only [Option.some.injEq] at hg
  subst hg
  exact hh hz

/-- One iteration of the forward loop that lands on a hidden entry. -/
theorem next_visible_loop_hidden (cfg : MenuConfig) (menu : Menu) (total : Int) (fuel : Nat)
    (index : Int) (hlt : index + 1 < total) (hh : HiddenAt cfg menu (index + 1)) :
    next_visible_loop cfg menu total (fuel + 1) index
      = next_visible_loop cfg menu total fuel (index + 1) := by
  obtain ⟨f, hf, hne⟩ := hh
  have hc : ¬ (index + 1 ≥ total) := by omega
  simp [next_visible_loop, hc, hf, hne]

/-- One iteration of the forward loop that lands on a visible entry. -/
theorem next_visible_loop_visible (cfg : MenuConfig) (menu : Menu) (total : Int) (fuel : Nat)
    (index : Int) (hlt : index + 1 < total) (hv : VisibleAt cfg menu (index + 1)) :
    next_visible_loop cfg menu total (fuel + 1) index = Outcome.done (index + 1) := by
  obtain ⟨f, hf, hz⟩ := hv
  have hc : ¬ (index + 1 ≥ total) := by omega
  simp [next_visible_loop, hc, hf, hz]

/-- From the last index the forward loop continues as from `-1`. -/
theorem next_visible_loop_wrap (cfg : MenuConfig) (menu : Menu) (total : Int) (fuel : Nat)
    (index : Int) (hge : total ≤ index + 1) (ht : 1 ≤ total) :
    next_visible_loop cfg menu total fuel index = next_visible_loop cfg menu total fuel (-1) := by
  cases fuel with
  | zero => rfl
  | succ k =>
    have hc : index + 1 ≥ total := hge
    have hc2 : ¬ ((-1 : Int) + 1 ≥ total) := by omega
    simp only [next_visible_loop, hc, hc2, if_true, if_false]
    simp

/-- Walking forward over hidden entries up to the visible entry `r`. -/
theorem next_visible_loop_up (cfg : MenuConfig) (menu : Menu) (total : Int) (d : Nat) :
    ∀ (fuel : Nat) (index r : Int), r = index + d → 0 < d → d ≤ fuel → r < total →
      (∀ j : Int, index < j → j < r → HiddenAt cfg menu j) → VisibleAt cfg menu r →
      next_visible_loop cfg menu total fuel index = Outcome.done r := by
  induction d with
  | zero => intro fuel index r _ h0; omega
  | succ d ih =>
    intro fuel index r hr _ hfuel hrt hhid hvis
    obtain ⟨k, rfl⟩ : ∃ k, fuel = k + 1 := ⟨fuel - 1, by omega⟩
    by_cases hd : d = 0
    · subst hd
      have hr1 : r = index + 1 := by omega
      subst hr1
      exact next_visible_loop_visible cfg menu total k index hrt hvis
    · rw [next_visible_loop_hidden cfg menu total k index (by omega) (hhid _ (by omega) (by omega))]
      exact ih k (index + 1) r (by omega) (by omega) (by omega) hrt
        (fun j h1 h2 => hhid j (by omega) h2) hvis

/-- Walking forward over hidden entries only, up to the last index. -/
theorem next_visible_loop_skip (cfg : MenuConfig) (menu : Menu) (total : Int) (d : Nat) :
    ∀ (fuel : Nat) (index : Int), total - 1 = index + d →
      (∀ j : Int, index < j → j < total → HiddenAt cfg menu j) →
      next_visible_loop cfg menu total (fuel + d) index
        = next_visible_loop cfg menu total fuel (total - 1) := by
  induction d with
  | zero =>
    intro fuel index h _
    have : index = total - 1 := by omega
    subst this
    rfl
  | succ d ih =>
    intro fuel index h hhid
    rw [← Nat.add_assoc,
      next_visible_loop_hidden cfg menu total (fuel + d) index (by omega)
        (hhid _ (by omega) (by omega))]
    exact ih fuel (index + 1) (by omega) (fun j h1 h2 => hhid j (by omega) h2)

/-- More fuel does not change a result already reached. -/
theorem next_visible_loop_mono (cfg : MenuConfig) (menu : Menu) (total : Int) (fuel : Nat) :
    ∀ (index r : Int) (k : Nat), next_visible_loop cfg menu total fuel index = Outcome.done r →
      next_visible_loop cfg menu total (fuel + k) index = Outcome.done r := by
  induction fuel with
  | zero => intro index r k h; simp [next_visible_loop] at h
  | succ fuel ih =>
    intro index r k h
    rw [Nat.add_right_comm]
    simp only [next_visible_loop] at h ⊢
    split at h
    · exact h
    · split at h
      · rw [if_pos (by assumption)]
        exact ih _ r k h
      · rw [if_neg (by assumption)]
        exact h

/-- Among the entries `a ≤ k` satisfying `P` there is a least one. -/
theorem exists_least_from (P : Nat → Prop) (a : Nat) (h : ∃ k, a ≤ k ∧ P k) :
    ∃ r, a ≤ r ∧ P r ∧ ∀ j, a ≤ j → j < r → ¬ P j := by
  classical
  refine ⟨Nat.find h, (Nat.find_spec h).1, (Nat.find_spec h).2, ?_⟩
  intro j haj hjr hP
  exact Nat.find_min h hjr ⟨haj, hP⟩

/-- The forward loop, started inside the menu with enough fuel, returns the first visible
item in cyclic order. -/
theorem next_visible_loop_first (cfg : MenuConfig) (menu : Menu) (n : Nat) (index : Int)
    (fuel : Nat) (hlen : n < menu.items.length)
    (hvis : ∃ v : Nat, v < n ∧ VisibleAt cfg menu v)
    (hlo : -1 ≤ index) (hhi : index < n) (hfuel : n ≤ fuel) :
    ∃ r : Nat, next_visible_loop cfg menu n fuel index = Outcome.done (r : Int) ∧
      FirstVisibleAfter cfg menu n index r := by
  have hhid : ∀ m : Nat, m < n → ¬ VisibleAt cfg menu m → HiddenAt cfg menu m := by
    intro m hm hnv
    rcases hidden_or_visible cfg menu m (by omega) (by omega) with h | h
    · exact h
    · exact absurd h hnv
  by_cases hex : ∃ k : Nat, (index + 1).toNat ≤ k ∧ (k < n ∧ VisibleAt cfg menu k)
  · obtain ⟨r, har, ⟨hrn, hrv⟩, hmin⟩ := exists_least_from _ _ hex
    have hbetween : ∀ j : Int, index < j → j < r → HiddenAt cfg menu j := by
      intro j h1 h2
      obtain ⟨m, rfl⟩ := Int.eq_ofNat_of_zero_le (show (0 : Int) ≤ j by omega)
      exact hhid m (by omega) (fun hv => hmin m (by omega) (by omega) ⟨by omega, hv⟩)
    refine ⟨r, ?_, hrn, hrv, Or.inl ⟨by omega, hbetween⟩⟩
    exact next_visible_loop_up cfg menu n ((r : Int) - index).toNat fuel index r
      (by omega) (by omega) (by omega) (by omega) hbetween hrv
  · have htail : ∀ j : Int, index < j → j < n → HiddenAt cfg menu j := by
      intro j h1 h2
      obtain ⟨m, rfl⟩ := Int.eq_ofNat_of_zero_le (show (0 : Int) ≤ j by omega)
      exact hhid m (by omega) (fun hv => hex ⟨m, by omega, by omega, hv⟩)
    obtain ⟨v, hvn, hvv⟩ := hvis
    obtain ⟨r, _, ⟨hrn, hrv⟩, hmin⟩ :=
      exists_least_from (fun k => k < n ∧ VisibleAt cfg menu k) 0 ⟨v, Nat.zero_le v, hvn, hvv⟩
    have hri : (r : Int) ≤ index := by
      by_contra hcon
      exact hex ⟨r, by omega, hrn, hrv⟩
    have hhead : ∀ j : Int, 0 ≤ j → j < r → HiddenAt cfg menu j := by
      intro j h1 h2
      obtain ⟨m, rfl⟩ := Int.eq_ofNat_of_zero_le h1
      exact hhid m (by omega) (fun hv => hmin m (Nat.zero_le m) (by omega) ⟨by omega, hv⟩)
    refine ⟨r, ?_, hrn, hrv, Or.inr ⟨hri, htail, hhead⟩⟩
    obtain ⟨fuel2, hf2⟩ : ∃ fuel2, fuel = fuel2 + ((n : Int) - 1 - index).toNat :=
      ⟨fuel - ((n : Int) - 1 - index).toNat, by omega⟩
    rw [hf2, next_visible_loop_skip cfg menu n _ fuel2 index (by omega) htail,
      next_visible_loop_wrap cfg menu n fuel2 ((n : Int) - 1) (by omega) (by omega)]
    exact next_visible_loop_up cfg menu n (r + 1) fuel2 (-1) r (by omega) (by omega)
      (by omega) (by omega) (fun j h1 h2 => hhead j (by omega) h2) hrv

/-- One iteration of the backward loop that lands on a hidden entry. -/
theorem prev_visible_loop_hidden (cfg : MenuConfig) (menu : Menu) (total : Int) (fuel : Nat)
    (index : Int) (hge : 0 ≤ index - 1) (hh : HiddenAt cfg menu (index - 1)) :
    prev_visible_loop cfg menu total (fuel + 1) index
      = prev_visible_loop cfg menu total fuel (index - 1) := by
  obtain ⟨f, hf, hne⟩ := hh
  have hc : ¬ (index - 1 < 0) := by omega
  simp [prev_visible_loop, hc, hf, hne]

/-- One iteration of the backward loop that lands on a visible entry. -/
theorem prev_visible_loop_visible (cfg : MenuConfig) (menu : Menu) (total : Int) (fuel : Nat)
    (index : Int) (hge : 0 ≤ index - 1) (hv : VisibleAt cfg menu (index - 1)) :
    prev_visible_loop cfg menu total (fuel + 1) index = Outcome.done (index - 1) := by
  obtain ⟨f, hf, hz⟩ := hv
  have hc : ¬ (index - 1 < 0) := by omega
  simp [prev_visible_loop, hc, hf, hz]

/-- From index `0` the backward loop continues as from `total`. -/
theorem prev_visible_loop_wrap (cfg : MenuConfig) (menu : Menu) (total : Int) (fuel : Nat)
    (index : Int) (hle : index ≤ 0) (ht : 1 ≤ total) :
    prev_visible_loop cfg menu total fuel index
      = prev_visible_loop cfg menu total fuel total := by
  cases fuel with
  | zero => rfl
  | succ k =>
    have hc : index - 1 < 0 := by omega
    have hc2 : ¬ (total - 1 < 0) := by omega
    simp only [prev_visible_loop, hc, hc2, if_true, if_false]

/-- Walking backward over hidden entries down to the visible entry `r`. -/
theorem prev_visible_loop_down (cfg : MenuConfig) (menu : Menu) (total : Int) (d : Nat) :
    ∀ (fuel : Nat) (index r : Int), index = r + d → 0 < d → d ≤ fuel → 0 ≤ r →
      (∀ j : Int, r < j → j < index → HiddenAt cfg menu j) → VisibleAt cfg menu r →
      prev_visible_loop cfg menu total fuel index = Outcome.done r := by
  induction d with
  | zero => intro fuel index r _ h0; omega
  | succ d ih =>
    intro fuel index r hr _ hfuel hr0 hhid hvis
    obtain ⟨k, rfl⟩ : ∃ k, fuel = k + 1 := ⟨fuel - 1, by omega⟩
    by_cases hd : d = 0
    · subst hd
      have hr1 : r = index - 1 := by omega
      subst hr1
      exact prev_visible_loop_visible cfg menu total k index hr0 hvis
    · rw [prev_visible_loop_hidden cfg menu total k index (by omega) (hhid _ (by omega) (by omega))]
      exact ih k (index - 1) r (by omega) (by omega) (by omega) hr0
        (fun j h1 h2 => hhid j h1 (by omega)) hvis

/-- Walking backward over hidden entries only, down to index `0`. -/
theorem prev_visible_loop_skip (cfg : MenuConfig) (menu : Menu) (total : Int) (d : Nat) :
    ∀ (fuel : Nat) (index : Int), index = d →
      (∀ j : Int, 0 ≤ j → j < index → HiddenAt cfg menu j) →
      prev_visible_loop cfg menu total (fuel + d) index
        = prev_visible_loop cfg menu total fuel 0 := by
  induction d with
  | zero =>
    intro fuel index h _
    have : index = 0 := by omega
    subst this
    rfl
  | succ d ih =>
    intro fuel index h hhid
    rw [← Nat.add_assoc,
      prev_visible_loop_hidden cfg menu total (fuel + d) index (by omega)
        (hhid _ (by omega) (by omega))]
    exact ih fuel (index - 1) (by omega) (fun j h1 h2 => hhid j h1 (by omega))

/-- More fuel does not change a result already reached. -/
theorem prev_visible_loop_mono (cfg : MenuConfig) (menu : Menu) (total : Int) (fuel : Nat) :
    ∀ (index r : Int) (k : Nat), prev_visible_loop cfg menu total fuel index = Outcome.done r →
      prev_visible_loop cfg menu total (fuel + k) index = Outcome.done r := by
  induction fuel with
  | zero => intro index r k h; simp [prev_visible_loop] at h
  | succ fuel ih =>
    intro index r k h
    rw [Nat.add_right_comm]
    simp only [prev_visible_loop] at h ⊢
    split at h
    · exact h
    · split at h
      · rw [if_pos (by assumption)]
        exact ih _ r k h
      · rw [if_neg (by assumption)]
        exact h

/-- Among the entries `k < b` satisfying `P` there is a greatest one. -/
theorem exists_greatest_below (P : Nat → Prop) (b : Nat) (h : ∃ k, k < b ∧ P k) :
    ∃ r, r < b ∧ P r ∧ ∀ j, r < j → j < b → ¬ P j := by
  obtain ⟨k, hkb, hk⟩ := h
  have hq : ∃ m, 0 ≤ m ∧ (m < b ∧ P (b - 1 - m)) := by
    refine ⟨b - 1 - k, Nat.zero_le _, by omega, ?_⟩
    have : b - 1 - (b - 1 - k) = k := by omega
    rw [this]
    exact hk
  obtain ⟨m, _, ⟨hmb, hm⟩, hmin⟩ := exists_least_from _ 0 hq
  refine ⟨b - 1 - m, by omega, hm, ?_⟩
  intro j h1 h2 hj
  refine hmin (b - 1 - j) (Nat.zero_le _) (by omega) ⟨by omega, ?_⟩
  have : b - 1 - (b - 1 - j) = j := by omega
  rw [this]
  exact hj

/-- The backward loop, started inside the menu with enough fuel, returns the first visible
item in reverse cyclic order. -/
theorem prev_visible_loop_first (cfg : MenuConfig) (menu : Menu) (n : Nat) (index : Int)
    (fuel : Nat) (hlen : n < menu.items.length)
    (hvis : ∃ v : Nat, v < n ∧ VisibleAt cfg menu v)
    (hlo : 0 ≤ index) (hhi : index ≤ n) (hfuel : n ≤ fuel) :
    ∃ r : Nat, prev_visible_loop cfg menu n fuel index = Outcome.done (r : Int) ∧
      FirstVisibleBefore cfg menu n index r := by
  have hhid : ∀ m : Nat, m < n → ¬ VisibleAt cfg menu m → HiddenAt cfg menu m := by
    intro m hm hnv
    rcases hidden_or_visible cfg menu m (by omega) (by omega) with h | h
    · exact h
    · exact absurd h hnv
  by_cases hex : ∃ k : Nat, k < index.toNat ∧ VisibleAt cfg menu k
  · obtain ⟨r, hrb, hrv, hmax⟩ := exists_greatest_below _ _ hex
    have hbetween : ∀ j : Int, (r : Int) < j → j < index → HiddenAt cfg menu j := by
      intro j h1 h2
      obtain ⟨m, rfl⟩ := Int.eq_ofNat_of_zero_le (show (0 : Int) ≤ j by omega)
      exact hhid m (by omega) (fun hv => hmax m (by omega) (by omega) hv)
    refine ⟨r, ?_, by omega, hrv, Or.inl ⟨by omega, hbetween⟩⟩
    exact prev_visible_loop_down cfg menu n (index - (r : Int)).toNat fuel index r
      (by omega) (by omega) (by omega) (by omega) hbetween hrv
  · have hhead : ∀ j : Int, 0 ≤ j → j < index → HiddenAt cfg menu j := by
      intro j h1 h2
      obtain ⟨m, rfl⟩ := Int.eq_ofNat_of_zero_le h1
      exact hhid m (by omega) (fun hv => hex ⟨m, by omega, hv⟩)
    obtain ⟨r, hrn, hrv, hmax⟩ := exists_greatest_below _ n hvis
    have hri : index ≤ (r : Int) := by
      by_contra hcon
      exact hex ⟨r, by omega, hrv⟩
    have htail : ∀ j : Int, (r : Int) < j → j < n → HiddenAt cfg menu j := by
      intro j h1 h2
      obtain ⟨m, rfl⟩ := Int.eq_ofNat_of_zero_le (show (0 : Int) ≤ j by omega)
      exact hhid m (by omega) (fun hv => hmax m (by omega) (by omega) hv)
    refine ⟨r, ?_, hrn, hrv, Or.inr ⟨hri, hhead, htail⟩⟩
    obtain ⟨fuel2, hf2⟩ : ∃ fuel2, fuel = fuel2 + index.toNat :=
      ⟨fuel - index.toNat, by omega⟩
    rw [hf2, prev_visible_loop_skip cfg menu n _ fuel2 index (by omega) hhead,
      prev_visible_loop_wrap cfg menu n fuel2 0 (le_refl 0) (by omega)]
    exact prev_visible_loop_down cfg menu n (n - r) fuel2 n r (by omega) (by omega)
      (by omega) (by omega) htail hrv

/-- What the forward loop returns was read as a visible entry. -/
theorem next_visible_loop_visible_result (cfg : MenuConfig) (menu : Menu) (total : Int)
    (fuel : Nat) : ∀ (index r : Int),
      next_visible_loop cfg menu total fuel index = Outcome.done r → VisibleAt cfg menu r := by
  induction fuel with
  | zero => intro index r h; simp [next_visible_loop] at h
  | succ fuel ih =>
    intro index r h
    simp only [next_visible_loop] at h
    split at h
    · simp at h
    · rename_i f hf
      split at h
      · exact ih _ r h
      · rename_i hz
        simp only [Outcome.done.injEq] at h
        subst h
        exact ⟨f, hf, by simpa using hz⟩

/-- What the backward loop returns was read as a visible entry. -/
theorem prev_visible_loop_visible_result (cfg : MenuConfig) (menu : Menu) (total : Int)
    (fuel : Nat) : ∀ (index r : Int),
      prev_visible_loop cfg menu total fuel index = Outcome.done r → VisibleAt cfg menu r := by
  induction fuel with
  | zero => intro index r h; simp [prev_visible_loop] at h
  | succ fuel ih =>
    intro index r h
    simp only [prev_visible_loop] at h
    split at h
    · simp at h
    · rename_i f hf
      split at h
      · exact ih _ r h
      · rename_i hz
        simp only [Outcome.done.injEq] at h
        subst h
        exact ⟨f, hf, by simpa using hz⟩

/-- Stepping back from the first visible item after a visible item `i` leads to `i`. -/
theorem first_before_of_first_after (cfg : MenuConfig) (menu : Menu) (n i r p : Nat)
    (hi : i < n) (hvi : VisibleAt cfg menu i)
    (ha : FirstVisibleAfter cfg menu n i r) (hb : FirstVisibleBefore cfg menu n r p) :
    p = i := by
  obtain ⟨_, _, ha⟩ := ha
  obtain ⟨hpn, hvp, hb⟩ := hb
  have hni := not_hidden_of_visible cfg menu i hvi
  have hnp := not_hidden_of_visible cfg menu p hvp
  rcases Nat.lt_trichotomy p i with hlt | heq | hgt
  · exfalso
    rcases ha with ⟨h1, _⟩ | ⟨h1, _, h3⟩ <;> rcases hb with ⟨h4, h5⟩ | ⟨h4, h5, h6⟩
    · exact hni (h5 i (by omega) (by omega))
    · exact hni (h5 i (by omega) (by omega))
    · exact hnp (h3 p (by omega) (by omega))
    · exact hni (h6 i (by omega) (by omega))
  · exact heq
  · exfalso
    rcases ha with ⟨h1, h2⟩ | ⟨h1, h2, h3⟩ <;> rcases hb with ⟨h4, h5⟩ | ⟨h4, h5, h6⟩
    · exact hnp (h2 p (by omega) (by omega))
    · exact hni (h5 i (by omega) (by omega))
    · exact hnp (h3 p (by omega) (by omega))
    · exact hnp (h2 p (by omega) (by omega))

/-- Stepping forward from the first visible item before a visible item `i` leads to `i`. -/
theorem first_after_of_first_before (cfg : MenuConfig) (menu : Menu) (n i p r : Nat)
    (hi : i < n) (hvi : VisibleAt cfg menu i)
    (hb : FirstVisibleBefore cfg menu n i p) (ha : FirstVisibleAfter cfg menu n p r) :
    r = i := by
  obtain ⟨_, _, hb⟩ := hb
  obtain ⟨hrn, hvr, ha⟩ := ha
  have hni := not_hidden_of_visible cfg menu i hvi
  have hnr := not_hidden_of_visible cfg menu r hvr
  rcases Nat.lt_trichotomy r i with hlt | heq | hgt
  · exfalso
    rcases hb with ⟨h1, h2⟩ | ⟨h1, h2, h3⟩ <;> rcases ha with ⟨h4, h5⟩ | ⟨h4, h5, h6⟩
    · exact hnr (h2 r (by omega) (by omega))
    · exact hni (h5 i (by omega) (by omega))
    · exact hnr (h2 r (by omega) (by omega))
    · exact hnr (h2 r (by omega) (by omega))
  · exact heq
  · exfalso
    rcases hb with ⟨h1, _⟩ | ⟨h1, _, h3⟩ <;> rcases ha with ⟨h4, h5⟩ | ⟨h4, h5, h6⟩
    · exact hni (h5 i (by omega) (by omega))
    · exact hni (h6 i (by omega) (by omega))
    · exact hnr (h3 r (by omega) (by omega))
    · exact hni (h6 i (by omega) (by omega))

/-- When all of the `n ≥ 1` items are hidden the forward loop uses up any fuel. -/
theorem next_visible_loop_all_hidden (cfg : MenuConfig) (menu : Menu) (n : Nat) (hn : 0 < n)
    (hall : ∀ j : Nat, j < n → HiddenAt cfg menu j) (fuel : Nat) :
    ∀ index : Int, -1 ≤ index →
      next_visible_loop cfg menu n fuel index = Outcome.timeout := by
  induction fuel with
  | zero => intro index _; rfl
  | succ fuel ih =>
    intro index hlo
    by_cases hc : index + 1 ≥ (n : Int)
    · obtain ⟨f, hf, hne⟩ := hall 0 hn
      have hf0 : item_flags_at menu 0 = some f := hf
      simp only [next_visible_loop, hc, if_true, hf0]
      simpa [hne] using ih 0 (by omega)
    · obtain ⟨m, hm⟩ := Int.eq_ofNat_of_zero_le (show (0 : Int) ≤ index + 1 by omega)
      obtain ⟨f, hf, hne⟩ := hall m (by omega)
      rw [← hm] at hf
      simp only [next_visible_loop, hc, if_false, hf]
      simpa [hne] using ih (index + 1) (by omega)

/-- When all of the `n ≥ 1` items are hidden the backward loop uses up any fuel. -/
theorem prev_visible_loop_all_hidden (cfg : MenuConfig) (menu : Menu) (n : Nat) (hn : 0 < n)
    (hall : ∀ j : Nat, j < n → HiddenAt cfg menu j) (fuel : Nat) :
    ∀ index : Int, index ≤ n →
      prev_visible_loop cfg menu n fuel index = Outcome.timeout := by
  induction fuel with
  | zero => intro index _; rfl
  | succ fuel ih =>
    intro index hhi
    by_cases hc : index - 1 < 0
    · obtain ⟨f, hf, hne⟩ := hall (n - 1) (by omega)
      have hcast : ((n - 1 : Nat) : Int) = (n : Int) - 1 := by omega
      rw [hcast] at hf
      simp only [prev_visible_loop, hc, if_true, hf]
      simpa [hne] using ih ((n : Int) - 1) (by omega)
    · obtain ⟨m, hm⟩ := Int.eq_ofNat_of_zero_le (show (0 : Int) ≤ index - 1 by omega)
      obtain ⟨f, hf, hne⟩ := hall m (by omega)
      rw [← hm] at hf
      simp only [prev_visible_loop, hc, if_false, hf]
      simpa [hne] using ih (index - 1) (by omega)

/-- C1: for a menu with `n` items before the sentinel, at least one of them not hidden, and
every `index` with `-1 ≤ index < n`, `menu_next_visible_item(menu, index)` (its loop given
room for `n` iterations) returns an `r` with `0 ≤ r < n` such that item `r` is not hidden and
is the first non-hidden index met when stepping forward cyclically from `index + 1`: every
index strictly between `index` and `r` in that cyclic order is hidden. -/
theorem menu_next_visible_item_first (cfg : MenuConfig) (menu : Menu) (n : Nat) (index : Int)
    (fuel : Nat) (hcount : menu_count menu = some n)
    (hvis : ∃ v : Nat, v < n ∧ VisibleAt cfg menu v)
    (hlo : -1 ≤ index) (hhi : index < n) (hfuel : n ≤ fuel) :
    ∃ r : Nat, menu_next_visible_item cfg fuel menu index = Outcome.done (r : Int) ∧
      r < n ∧ ¬ HiddenAt cfg menu r ∧ FirstVisibleAfter cfg menu n index r := by
  obtain ⟨r, hr, hfirst⟩ := next_visible_loop_first cfg menu n index fuel
    (menu_count_lt_length menu n hcount) hvis hlo hhi hfuel
  refine ⟨r, ?_, hfirst.1, not_hidden_of_visible cfg menu r hfirst.2.1, hfirst⟩
  simp only [menu_next_visible_item, hcount]
  exact hr

/-- Instance of `menu_next_visible_item_first` on a sample menu. -/
theorem menu_next_visible_item_first_witness :
    menu_next_visible_item bertosConfig 3 sampleMenu 1 = Outcome.done 0 ∧
    ∃ r : Nat, menu_next_visible_item bertosConfig 3 sampleMenu 1 = Outcome.done (r : Int) ∧
      r < 3 ∧ ¬ HiddenAt bertosConfig sampleMenu r ∧
      FirstVisibleAfter bertosConfig sampleMenu 3 1 r :=
  ⟨by decide,
    menu_next_visible_item_first bertosConfig sampleMenu 3 1 3 (by decide)
      ⟨0, by decide, 0, by decide, by decide⟩ (by decide) (by decide) (by decide)⟩

/-- C2: for a menu with `n` items before the sentinel, at least one of them not hidden, and
every `index` with `0 ≤ index ≤ n`, `menu_prev_visible_item(menu, index)` (its loop given
room for `n` iterations) returns an `r` with `0 ≤ r < n` such that item `r` is not hidden and
is the first non-hidden index met when stepping backward cyclically from `index - 1`: every
index strictly between `r` and `index` in that cyclic order is hidden. -/
theorem menu_prev_visible_item_first (cfg : MenuConfig) (menu : Menu) (n : Nat) (index : Int)
    (fuel : Nat) (hcount : menu_count menu = some n)
    (hvis : ∃ v : Nat, v < n ∧ VisibleAt cfg menu v)
    (hlo : 0 ≤ index) (hhi : index ≤ n) (hfuel : n ≤ fuel) :
    ∃ r : Nat, menu_prev_visible_item cfg fuel menu index = Outcome.done (r : Int) ∧
      r < n ∧ ¬ HiddenAt cfg menu r ∧ FirstVisibleBefore cfg menu n index r := by
  obtain ⟨r, hr, hfirst⟩ := prev_visible_loop_first cfg menu n index fuel
    (menu_count_lt_length menu n hcount) hvis hlo hhi hfuel
  refine ⟨r, ?_, hfirst.1, not_hidden_of_visible cfg menu r hfirst.2.1, hfirst⟩
  simp only [menu_prev_visible_item, hcount]
  exact hr

/-- Instance of `menu_prev_visible_item_first` on a sample menu. -/
theorem menu_prev_visible_item_first_witness :
    menu_prev_visible_item bertosConfig 3 sampleMenu 0 = Outcome.done 1 ∧
    ∃ r : Nat, menu_prev_visible_item bertosConfig 3 sampleMenu 0 = Outcome.done (r : Int) ∧
      r < 3 ∧ ¬ HiddenAt bertosConfig sampleMenu r ∧
      FirstVisibleBefore bertosConfig sampleMenu 3 0 r :=
  ⟨by decide,
    menu_prev_visible_item_first bertosConfig sampleMenu 3 0 3 (by decide)
      ⟨0, by decide, 0, by decide, by decide⟩ (by decide) (by decide) (by decide)⟩

/-- C3: for a menu with `n` items before the sentinel and every non-hidden index `i < n`
(so the sequence is non-empty and has a non-hidden entry),
`menu_prev_visible_item(menu, menu_next_visible_item(menu, i)) = i` and
`menu_next_visible_item(menu, menu_prev_visible_item(menu, i)) = i`; and whatever the start
index, neither function returns the index of a hidden item. -/
theorem walkers_mutually_inverse (cfg : MenuConfig) (menu : Menu) (n i fuel : Nat)
    (hcount : menu_count menu = some n) (hi : i < n) (hvi : VisibleAt cfg menu i)
    (hfuel : n ≤ fuel) :
    (∃ r : Nat, menu_next_visible_item cfg fuel menu i = Outcome.done (r : Int) ∧
      menu_prev_visible_item cfg fuel menu r = Outcome.done (i : Int)) ∧
    (∃ p : Nat, menu_prev_visible_item cfg fuel menu i = Outcome.done (p : Int) ∧
      menu_next_visible_item cfg fuel menu p = Outcome.done (i : Int)) ∧
    (∀ (k : Nat) (index r : Int),
      menu_next_visible_item cfg k menu index = Outcome.done r → ¬ HiddenAt cfg menu r) ∧
    (∀ (k : Nat) (index r : Int),
      menu_prev_visible_item cfg k menu index = Outcome.done r → ¬ HiddenAt cfg menu r) := by
  have hlen := menu_count_lt_length menu n hcount
  have hvis : ∃ v : Nat, v < n ∧ VisibleAt cfg menu v := ⟨i, hi, hvi⟩
  simp only [menu_next_visible_item, menu_prev_visible_item, hcount]
  refine ⟨?_, ?_, ?_, ?_⟩
  · obtain ⟨r, hr, ha⟩ := next_visible_loop_first cfg menu n i fuel hlen hvis
      (by omega) (by omega) hfuel
    obtain ⟨p, hp, hb⟩ := prev_visible_loop_first cfg menu n r fuel hlen hvis
      (by omega) (by have := ha.1; omega) hfuel
    have hpi := first_before_of_first_after cfg menu n i r p hi hvi ha hb
    subst hpi
    exact ⟨r, hr, hp⟩
  · obtain ⟨p, hp, hb⟩ := prev_visible_loop_first cfg menu n i fuel hlen hvis
      (by omega) (by omega) hfuel
    obtain ⟨r, hr, ha⟩ := next_visible_loop_first cfg menu n p fuel hlen hvis
      (by omega) (by have := hb.1; omega) hfuel
    have hri := first_after_of_first_before cfg menu n i p r hi hvi hb ha
    subst hri
    exact ⟨p, hp, hr⟩
  · intro k index r h
    exact not_hidden_of_visible cfg menu r
      (next_visible_loop_visible_result cfg menu n k index r h)
  · intro k index r h
    exact not_hidden_of_visible cfg menu r
      (prev_visible_loop_visible_result cfg menu n k index r h)

/-- Instance of `walkers_mutually_inverse` on a sample menu. -/
theorem walkers_mutually_inverse_witness :
    (menu_next_visible_item bertosConfig 3 sampleMenu 1 = Outcome.done 0 ∧
      menu_prev_visible_item bertosConfig 3 sampleMenu 0 = Outcome.done 1) ∧
    (∃ r : Nat, menu_next_visible_item bertosConfig 3 sampleMenu (1 : Nat)
        = Outcome.done (r : Int) ∧
      menu_prev_visible_item bertosConfig 3 sampleMenu r = Outcome.done ((1 : Nat) : Int)) :=
  ⟨by decide,
    (walkers_mutually_inverse bertosConfig sampleMenu 3 1 3 (by decide) (by decide)
      ⟨0x400, by decide, by decide⟩ (by decide)).1⟩

/-- C4, as amended: if the menu has `n` items before the sentinel, at least one of them not
hidden, the loops of `menu_next_visible_item` and `menu_prev_visible_item` terminate after
at most `n` iterations for every start index with `-1 ≤ index ≤ n`; if the menu has at least
one item and every item is hidden, neither loop terminates, however many iterations it is
given. -/
theorem walker_loops_termination (cfg : MenuConfig) (menu : Menu) (n : Nat)
    (hcount : menu_count menu = some n) :
    ((∃ v : Nat, v < n ∧ VisibleAt cfg menu v) →
      ∀ index : Int, -1 ≤ index → index ≤ n →
        (∃ r : Int, menu_next_visible_item cfg n menu index = Outcome.done r) ∧
        (∃ r : Int, menu_prev_visible_item cfg n menu index = Outcome.done r)) ∧
    (0 < n → (∀ j : Nat, j < n → HiddenAt cfg menu j) →
      ∀ (index : Int) (fuel : Nat), -1 ≤ index → index ≤ n →
        menu_next_visible_item cfg fuel menu index = Outcome.timeout ∧
        menu_prev_visible_item cfg fuel menu index = Outcome.timeout) := by
  have hlen := menu_count_lt_length menu n hcount
  simp only [menu_next_visible_item, menu_prev_visible_item, hcount]
  constructor
  · intro hvis index hlo hhi
    have hn : 0 < n := by
      obtain ⟨v, hv, _⟩ := hvis
      omega
    constructor
    · by_cases hlast : index < n
      · obtain ⟨r, hr, _⟩ := next_visible_loop_first cfg menu n index n hlen hvis hlo hlast
          (le_refl n)
        exact ⟨r, hr⟩
      · rw [next_visible_loop_wrap cfg menu n n index (by omega) (by omega)]
        obtain ⟨r, hr, _⟩ := next_visible_loop_first cfg menu n (-1) n hlen hvis (le_refl _)
          (by omega) (le_refl n)
        exact ⟨r, hr⟩
    · by_cases hfirst : 0 ≤ index
      · obtain ⟨r, hr, _⟩ := prev_visible_loop_first cfg menu n index n hlen hvis hfirst hhi
          (le_refl n)
        exact ⟨r, hr⟩
      · rw [prev_visible_loop_wrap cfg menu n n index (by omega) (by omega)]
        obtain ⟨r, hr, _⟩ := prev_visible_loop_first cfg menu n n n hlen hvis (by omega)
          (le_refl _) (le_refl n)
        exact ⟨r, hr⟩
  · intro hn hall index fuel hlo hhi
    exact ⟨next_visible_loop_all_hidden cfg menu n hn hall fuel index hlo,
      prev_visible_loop_all_hidden cfg menu n hn hall fuel index hhi⟩

/-- Instance of `walker_loops_termination` on a sample menu. -/
theorem walker_loops_termination_witness :
    ((∃ r : Int, menu_next_visible_item bertosConfig 3 sampleMenu 2 = Outcome.done r) ∧
      (∃ r : Int, menu_prev_visible_item bertosConfig 3 sampleMenu 2 = Outcome.done r)) ∧
    (menu_next_visible_item bertosConfig 1000 hiddenMenu 0 = Outcome.timeout ∧
      menu_prev_visible_item bertosConfig 1000 hiddenMenu 0 = Outcome.timeout) :=
  ⟨(walker_loops_termination bertosConfig sampleMenu 3 (by decide)).1
      ⟨0, by decide, 0, by decide, by decide⟩ 2 (by decide) (by decide),
    (walker_loops_termination bertosConfig hiddenMenu 2 (by decide)).2 (by decide)
      (fun j hj => ⟨0x800, by interval_cases j <;> decide, by decide⟩)
      0 1000 (by decide) (by decide)⟩

/-- C4, counterexample: in a menu without items every item is hidden, yet the loop of
`menu_next_visible_item` started at `-1` ends in its first iteration, at the sentinel. -/
theorem walker_terminates_on_empty_menu :
    menu_count emptyMenu = some 0 ∧
    (∀ j : Nat, j < 0 → HiddenAt bertosConfig emptyMenu j) ∧
    menu_next_visible_item bertosConfig 1 emptyMenu (-1) = Outcome.done 0 :=
  ⟨by decide, fun j h => absurd h (Nat.not_lt_zero j), by decide⟩

/-! ## Counting the items -/

/-- The counting loop stops at the first entry with neither label nor hook. -/
theorem menu_count_loop_at (items : List MenuItem) :
    ∀ (c n : Nat), (∃ s, items[n]? = some s ∧ s.label = 0 ∧ s.hook = 0) →
      (∀ (i : Nat) (item : MenuItem), i < n → items[i]? = some item →
        item.label ≠ 0 ∨ item.hook ≠ 0) →
      menu_count_loop items c = some (c + n) := by
  induction items with
  | nil =>
    intro c n hs _
    obtain ⟨s, hs, _⟩ := hs
    simp at hs
  | cons item rest ih =>
    intro c n hs hb
    cases n with
    | zero =>
      obtain ⟨s, hs, hl, hh⟩ := hs
      simp only [List.getElem?_cons_zero, Option.some.injEq] at hs
      subst hs
      simp [menu_count_loop, hl, hh]
    | succ n =>
      have h0 := hb 0 item (Nat.succ_pos n) (by simp)
      have hrec := ih (c + 1) n (by simpa using hs)
        (fun i it hi hit => hb (i + 1) it (by omega) (by simpa using hit))
      have hne : (item.label != 0 || item.hook != 0) = true := by
        rcases h0 with h | h <;> simp [h]
      simp only [menu_count_loop, hne, Bool.not_true, Bool.false_eq_true, if_false]
      rw [hrec, Nat.add_assoc, Nat.add_comm 1 n]

/-- The counting loop looks at labels and hooks only. -/
theorem menu_count_loop_congr (items : List MenuItem) :
    ∀ (items2 : List MenuItem) (c : Nat),
      items2.map (fun item => (item.label, item.hook))
        = items.map (fun item => (item.label, item.hook)) →
      menu_count_loop items2 c = menu_count_loop items c := by
  induction items with
  | nil =>
    intro items2 c h
    cases items2 with
    | nil => rfl
    | cons a l => simp at h
  | cons item rest ih =>
    intro items2 c h
    cases items2 with
    | nil => simp at h
    | cons a l =>
      simp only [List.map_cons, List.cons.injEq, Prod.mk.injEq] at h
      obtain ⟨⟨hl, hh⟩, hrest⟩ := h
      simp only [menu_count_loop, hl, hh, ih l (c + 1) hrest]

/-- C5: if entry `n` of the item array is the first one that has neither a label nor a hook
(the sentinel), `menu_count` returns `n`, the number of entries before the sentinel; and it
returns the same for every menu whose entries have the same labels and hooks, whatever
their flags (hidden or not) and user data. -/
theorem menu_count_first_sentinel (menu : Menu) (n : Nat)
    (hsent : ∃ s, menu.items[n]? = some s ∧ s.label = 0 ∧ s.hook = 0)
    (hbefore : ∀ (i : Nat) (item : MenuItem), i < n → menu.items[i]? = some item →
      item.label ≠ 0 ∨ item.hook ≠ 0) :
    menu_count menu = some n ∧
    ∀ menu2 : Menu,
      menu2.items.map (fun item => (item.label, item.hook))
        = menu.items.map (fun item => (item.label, item.hook)) →
      menu_count menu2 = some n := by
  have h := menu_count_loop_at menu.items 0 n hsent hbefore
  rw [Nat.zero_add] at h
  refine ⟨h, ?_⟩
  intro menu2 hmap
  unfold menu_count
  rw [menu_count_loop_congr menu.items menu2.items 0 hmap]
  exact h

/-- Instance of `menu_count_first_sentinel` on a sample menu. -/
theorem menu_count_first_sentinel_witness :
    menu_count sampleMenu = some 3 ∧
    ∀ menu2 : Menu,
      menu2.items.map (fun item => (item.label, item.hook))
        = sampleMenu.items.map (fun item => (item.label, item.hook)) →
      menu_count menu2 = some 3 :=
  menu_count_first_sentinel sampleMenu 3 ⟨⟨0, 0, 0, 0⟩, by decide, by decide, by decide⟩
    (by
      intro i item hi hitem
      have hi3 : i = 0 ∨ i = 1 ∨ i = 2 := by omega
      rcases hi3 with h | h | h <;> subst h <;>
        simp [sampleMenu] at hitem <;> subst hitem <;> simp)

/-! ## Selection handler -/

/-- The exclusion loop ends when every set bit of the mask addresses an entry of the array;
it clears `MIF_CHECKED` on exactly those entries. -/
theorem exclude_loop_spec (cfg : MenuConfig) (fuel : Nat) :
    ∀ (mask i : Nat) (items : List MenuItem), mask ≤ fuel →
      (∀ k, mask.testBit k = true → i + k < items.length) →
      ∃ items2, exclude_loop cfg fuel mask i items = Outcome.done items2 ∧
        items2.length = items.length ∧
        ∀ j, items2[j]? = (items[j]?).map (excluded_item cfg mask i j) := by
  induction fuel with
  | zero =>
    intro mask i items hle _
    have hm : mask = 0 := by omega
    subst hm
    refine ⟨items, by simp [exclude_loop], rfl, ?_⟩
    intro j
    cases items[j]? <;> simp [excluded_item]
  | succ fuel ih =>
    intro mask i items hle hin
    by_cases hm : mask = 0
    · subst hm
      refine ⟨items, by simp [exclude_loop], rfl, ?_⟩
      intro j
      cases items[j]? <;> simp [excluded_item]
    · have hshift : mask >>> 1 = mask / 2 := by
        rw [Nat.shiftRight_eq_div_pow, Nat.pow_one]
      have hle2 : mask >>> 1 ≤ fuel := by omega
      have hbit : ∀ k, (mask >>> 1).testBit k = mask.testBit (k + 1) := by
        intro k
        rw [Nat.testBit_shiftRight, Nat.add_comm]
      have hcond : ∀ j, i < j →
          ((i + 1 ≤ j ∧ (mask >>> 1).testBit (j - (i + 1)) = true) ↔
            (i ≤ j ∧ mask.testBit (j - i) = true)) := by
        intro j hij
        rw [hbit]
        have h1 : j - (i + 1) + 1 = j - i := by omega
        rw [h1]
        constructor
        · rintro ⟨_, h⟩
          exact ⟨by omega, h⟩
        · rintro ⟨_, h⟩
          exact ⟨by omega, h⟩
      by_cases hb : mask % 2 = 1
      · have hbit0 : mask.testBit 0 = true := by simp [Nat.testBit_zero, hb]
        have hi : i < items.length := by simpa using hin 0 hbit0
        obtain ⟨items2, hrun, hlen, hget⟩ := ih (mask >>> 1) (i + 1)
          (items.set i { items[i] with flags := clearBits items[i].flags cfg.MIF_CHECKED })
          hle2 (by
            intro k hk
            rw [hbit] at hk
            have := hin (k + 1) hk
            simp only [List.length_set]
            omega)
        refine ⟨items2, ?_, by simpa using hlen, ?_⟩
        · simp only [exclude_loop, hm, if_false, Nat.and_one_is_mod, hb, clear_checked,
            List.getElem?_eq_getElem hi]
          simpa using hrun
        · intro j
          rw [hget j]
          by_cases hji : j = i
          · subst hji
            rw [List.getElem?_set_self hi]
            simp [excluded_item, List.getElem?_eq_getElem hi, hbit0]
          · rw [List.getElem?_set_ne (Ne.symm hji)]
            cases hj : items[j]? with
            | none => rfl
            | some item =>
              simp only [Option.map_some', Option.some.injEq, excluded_item]
              by_cases hlt : i < j
              · by_cases hc : i ≤ j ∧ mask.testBit (j - i) = true
                · rw [if_pos hc, if_pos ((hcond j hlt).2 hc)]
                · rw [if_neg hc, if_neg (fun h => hc ((hcond j hlt).1 h))]
              · have h1 : ¬ (i + 1 ≤ j ∧ (mask >>> 1).testBit (j - (i + 1)) = true) := by
                  rintro ⟨h, _⟩
                  omega
                have h2 : ¬ (i ≤ j ∧ mask.testBit (j - i) = true) := by
                  rintro ⟨h, _⟩
                  omega
                rw [if_neg h1, if_neg h2]
      · have hb0 : mask % 2 = 0 := by omega
        have hbit0 : mask.testBit 0 = false := by simp [Nat.testBit_zero, hb0]
        obtain ⟨items2, hrun, hlen, hget⟩ := ih (mask >>> 1) (i + 1) items hle2 (by
            intro k hk
            rw [hbit] at hk
            have := hin (k + 1) hk
            omega)
        refine ⟨items2, ?_, hlen, ?_⟩
        · simp only [exclude_loop, hm, if_false, Nat.and_one_is_mod, hb0]
          simpa using hrun
        · intro j
          rw [hget j]
          cases hj : items[j]? with
          | none => rfl
          | some item =>
            simp only [Option.map_some', Option.some.injEq, excluded_item]
            by_cases hlt : i < j
            · by_cases hc : i ≤ j ∧ mask.testBit (j - i) = true
              · rw [if_pos hc, if_pos ((hcond j hlt).2 hc)]
              · rw [if_neg hc, if_neg (fun h => hc ((hcond j hlt).1 h))]
            · have h1 : ¬ (i + 1 ≤ j ∧ (mask >>> 1).testBit (j - (i + 1)) = true) := by
                rintro ⟨h, _⟩
                omega
              have h2 : ¬ (i ≤ j ∧ mask.testBit (j - i) = true) := by
                rintro ⟨h, hbit2⟩
                have hji : j = i := by omega
                subst hji
                simp [hbit0] at hbit2
              rw [if_neg h1, if_neg h2]

/-- What `menu_doselect` does when every set bit of the item's exclusion mask addresses an
entry of the array. -/
theorem menu_doselect_spec (cfg : MenuConfig) (menu : Menu) (idx : Nat)
    (calls : List (Nat × Nat)) (item0 : MenuItem) (hitem : menu.items[idx]? = some item0)
    (hin : ∀ k, (item0.flags &&& cfg.MIF_EXCLUDE_MASK).testBit k = true →
      k < menu.items.length) :
    ∃ items2, menu_doselect cfg menu idx calls
        = Outcome.done ({ menu with items := items2 },
            selected_calls cfg (item0.flags &&& cfg.MIF_EXCLUDE_MASK) idx item0 calls) ∧
      items2.length = menu.items.length ∧
      items2[idx]? = some (selected_item cfg (item0.flags &&& cfg.MIF_EXCLUDE_MASK) idx item0) ∧
      ∀ j, j ≠ idx → items2[j]?
        = (menu.items[j]?).map (excluded_item cfg (item0.flags &&& cfg.MIF_EXCLUDE_MASK) 0 j) := by
  obtain ⟨items1, hrun, hlen, hget⟩ := exclude_loop_spec cfg
    (item0.flags &&& cfg.MIF_EXCLUDE_MASK) (item0.flags &&& cfg.MIF_EXCLUDE_MASK) 0 menu.items
    (le_refl _) (by intro k hk; simpa using hin k hk)
  have hidx : items1[idx]?
      = some (excluded_item cfg (item0.flags &&& cfg.MIF_EXCLUDE_MASK) 0 idx item0) := by
    rw [hget idx, hitem]
    rfl
  have hidxlt : idx < items1.length := by
    by_contra hcon
    rw [List.getElem?_eq_none (by omega)] at hidx
    exact Option.noConfusion hidx
  by_cases hdis : (excluded_item cfg (item0.flags &&& cfg.MIF_EXCLUDE_MASK) 0 idx item0).flags
      &&& cfg.MIF_DISABLED != 0
  · refine ⟨items1, ?_, hlen, ?_, fun j _ => hget j⟩
    · simp only [menu_doselect, hitem, hrun, hidx, selected_calls, hdis, if_true]
    · simp only [selected_item, hdis, if_true, hidx]
  · refine ⟨items1.set idx (selected_item cfg (item0.flags &&& cfg.MIF_EXCLUDE_MASK) idx item0),
      ?_, by simpa using hlen, List.getElem?_set_self hidxlt, ?_⟩
    · simp only [menu_doselect, hitem, hrun, hidx, selected_calls, selected_item, hdis]
      rfl
    · intro j hj
      rw [List.getElem?_set_ne (Ne.symm hj), hget j]

/-! ### Facts on flag words -/

theorem clearBits_and_self (f c : Nat) : clearBits f c &&& c = 0 := by
  unfold clearBits
  rw [Nat.and_xor_distrib_right, Nat.and_assoc, Nat.and_self, Nat.xor_self]

theorem clearBits_and_other (f c m : Nat) (h : c &&& m = 0) :
    clearBits f c &&& m = f &&& m := by
  unfold clearBits
  rw [Nat.and_xor_distrib_right, Nat.and_assoc, h, Nat.and_zero, Nat.xor_zero]

theorem clearBits_of_clear (f c : Nat) (h : f &&& c = 0) : clearBits f c = f := by
  unfold clearBits
  rw [h, Nat.xor_zero]

theorem xor_and_other (f c m : Nat) (h : c &&& m = 0) : (f ^^^ c) &&& m = f &&& m := by
  rw [Nat.and_xor_distrib_right, h, Nat.xor_zero]

theorem or_and_other (f c m : Nat) (h : c &&& m = 0) : (f ||| c) &&& m = f &&& m := by
  rw [Nat.and_comm, Nat.and_or_distrib_left, Nat.and_comm m c, h, Nat.or_zero, Nat.and_comm]

theorem or_and_self (f c : Nat) : (f ||| c) &&& c = c := by
  apply Nat.eq_of_testBit_eq
  intro i
  simp only [Nat.testBit_and, Nat.testBit_or]
  cases f.testBit i <;> cases c.testBit i <;> rfl

theorem and_two_pow_cases (f b : Nat) : f &&& 2 ^ b = 0 ∨ f &&& 2 ^ b = 2 ^ b := by
  cases hb : f.testBit b with
  | false =>
    left
    apply Nat.eq_of_testBit_eq
    intro i
    simp only [Nat.testBit_and, Nat.testBit_two_pow, Nat.zero_testBit]
    by_cases hbi : b = i
    · subst hbi
      simp [hb]
    · simp [hbi]
  | true =>
    right
    apply Nat.eq_of_testBit_eq
    intro i
    simp only [Nat.testBit_and, Nat.testBit_two_pow]
    by_cases hbi : b = i
    · subst hbi
      simp [hb]
    · simp [hbi]

theorem xor_and_self_of_clear (f c : Nat) (h : f &&& c = 0) : (f ^^^ c) &&& c = c := by
  rw [Nat.and_xor_distrib_right, h, Nat.and_self, Nat.zero_xor]

theorem xor_and_self_of_set (f b : Nat) (h : f &&& 2 ^ b ≠ 0) :
    (f ^^^ 2 ^ b) &&& 2 ^ b = 0 := by
  rcases and_two_pow_cases f b with h0 | h1
  · exact absurd h0 h
  · rw [Nat.and_xor_distrib_right, h1, Nat.and_self, Nat.xor_self]

theorem testBit_index_lt (mask b k : Nat) (h : mask < 2 ^ b) (hk : mask.testBit k = true) :
    k < b := by
  by_contra hcon
  have h2 : mask < 2 ^ k := Nat.lt_of_lt_of_le h (Nat.pow_le_pow_right (by decide) (not_lt.mp hcon))
  rw [Nat.testBit_lt_two_pow h2] at hk
  exact Bool.noConfusion hk

theorem excluded_item_of_bit (cfg : MenuConfig) (mask k : Nat) (item : MenuItem)
    (h : mask.testBit k = true) :
    excluded_item cfg mask 0 k item
      = { item with flags := clearBits item.flags cfg.MIF_CHECKED } := by
  simp [excluded_item, h]

theorem excluded_item_of_not_bit (cfg : MenuConfig) (mask k : Nat) (item : MenuItem)
    (h : mask.testBit k = false) : excluded_item cfg mask 0 k item = item := by
  simp [excluded_item, h]

theorem excluded_item_idem (cfg : MenuConfig) (mask k : Nat) (item : MenuItem) :
    excluded_item cfg mask 0 k (excluded_item cfg mask 0 k item)
      = excluded_item cfg mask 0 k item := by
  cases h : mask.testBit k with
  | false => simp [excluded_item, h]
  | true =>
    simp only [excluded_item_of_bit cfg mask k _ h]
    rw [clearBits_of_clear _ _ (clearBits_and_self _ _)]

theorem not_checked_and_unchecked (cfg : MenuConfig) (menu : Menu) (j : Nat)
    (hc : CheckedAt cfg menu j) (hu : UncheckedAt cfg menu j) : False := by
  obtain ⟨f, hf, hne⟩ := hc
  obtain ⟨g, hg, hz⟩ := hu
  rw [hf] at hg
  simp only [Option.some.injEq] at hg
  subst hg
  exact hne hz

/-- After `menu_doselect` on an item every other entry listed in its exclusion mask is
unchecked. -/
theorem excluded_unchecked (cfg : MenuConfig) (menu : Menu) (items2 : List MenuItem)
    (mask idx j : Nat) (hlen : j < menu.items.length) (hbit : mask.testBit j = true)
    (hj : j ≠ idx)
    (hget : ∀ k, k ≠ idx → items2[k]? = (menu.items[k]?).map (excluded_item cfg mask 0 k)) :
    UncheckedAt cfg { menu with items := items2 } j := by
  refine ⟨clearBits (menu.items[j]).flags cfg.MIF_CHECKED, ?_, clearBits_and_self _ _⟩
  simp only [item_flags]
  rw [hget j hj, List.getElem?_eq_getElem hlen]
  simp [excluded_item_of_bit cfg mask j _ hbit]

/-- C6: for every item `i` and every bit position `j` set in `i`'s exclusion mask
(`flags & MIF_EXCLUDE_MASK`), after `menu_doselect(menu, i)` the `MIF_CHECKED` flag of the
sibling item `j` (an item other than `i`) is clear, whether or not `i` is disabled; and
when `i` is disabled nothing but this clearing happens: no hook is called and every entry
is what the exclusion loop made of it. -/
theorem menu_doselect_clears_siblings (cfg : MenuConfig) (hcfg : cfg.CheckedSeparate)
    (menu : Menu) (i j : Nat) (calls : List (Nat × Nat)) (item0 : MenuItem)
    (hitem : menu.items[i]? = some item0)
    (hin : ∀ k, (item0.flags &&& cfg.MIF_EXCLUDE_MASK).testBit k = true →
      k < menu.items.length)
    (hbit : (item0.flags &&& cfg.MIF_EXCLUDE_MASK).testBit j = true) (hji : j ≠ i) :
    ∃ menu2 calls2, menu_doselect cfg menu i calls = Outcome.done (menu2, calls2) ∧
      UncheckedAt cfg menu2 j ∧
      (item0.flags &&& cfg.MIF_DISABLED ≠ 0 →
        calls2 = calls ∧
        ∀ k, menu2.items[k]? = (menu.items[k]?).map
          (excluded_item cfg (item0.flags &&& cfg.MIF_EXCLUDE_MASK) 0 k)) := by
  obtain ⟨items2, hrun, _, hself, hget⟩ := menu_doselect_spec cfg menu i calls item0 hitem hin
  refine ⟨_, _, hrun, excluded_unchecked cfg menu items2 _ i j (hin j hbit) hbit hji hget, ?_⟩
  intro hdis
  have hdis2 : ((excluded_item cfg (item0.flags &&& cfg.MIF_EXCLUDE_MASK) 0 i item0).flags
      &&& cfg.MIF_DISABLED != 0) = true := by
    cases hb : (item0.flags &&& cfg.MIF_EXCLUDE_MASK).testBit i with
    | false =>
      rw [excluded_item_of_not_bit cfg _ i _ hb]
      simpa using hdis
    | true =>
      rw [excluded_item_of_bit cfg _ i _ hb]
      simp only [clearBits_and_other _ _ _ hcfg.2.2.1]
      simpa using hdis
  constructor
  · simp only [selected_calls, hdis2, if_true]
  · intro k
    by_cases hk : k = i
    · subst hk
      rw [hself, hitem]
      simp only [selected_item, hdis2, if_true, Option.map_some']
    · exact hget k hk

/-- Instance of `menu_doselect_clears_siblings` on a sample menu. -/
theorem menu_doselect_clears_siblings_witness :
    menu_doselect bertosConfig radioMenu 3 [(9, 50)]
      = Outcome.done ({ radioMenu with items := [⟨1, 0x206, 0, 10⟩, ⟨2, 0x205, 0, 20⟩,
          ⟨3, 0x203, 7, 30⟩, ⟨4, 0x1003, 8, 40⟩, ⟨5, 0x400, 9, 50⟩, ⟨0, 0, 0, 0⟩] },
          [(9, 50)]) ∧
    ∃ menu2 calls2, menu_doselect bertosConfig radioMenu 3 [(9, 50)]
        = Outcome.done (menu2, calls2) ∧
      UncheckedAt bertosConfig menu2 1 ∧
      calls2 = [(9, 50)] ∧
      ∀ k, menu2.items[k]? = (radioMenu.items[k]?).map
        (excluded_item bertosConfig ((0x1003 : Nat) &&& bertosConfig.MIF_EXCLUDE_MASK) 0 k) :=
  ⟨by decide,
    match menu_doselect_clears_siblings bertosConfig
      ⟨⟨8, by decide⟩, by decide, by decide, by decide, by decide⟩
      radioMenu 3 1 [(9, 50)] ⟨4, 0x1003, 8, 40⟩ (by decide)
      (fun k hk => Nat.lt_trans (testBit_index_lt 3 2 k (by decide) hk) (by decide))
      (by decide) (by decide) with
    | ⟨menu2, calls2, hrun, hclear, hdis⟩ => ⟨menu2, calls2, hrun, hclear, hdis (by decide)⟩⟩

theorem selected_item_of_not_self (cfg : MenuConfig) (mask idx : Nat) (item0 : MenuItem)
    (h : mask.testBit idx = false) :
    selected_item cfg mask idx item0
      = if item0.flags &&& cfg.MIF_DISABLED != 0 then item0
        else { item0 with flags := select_flags cfg item0.flags } := by
  simp only [selected_item, excluded_item_of_not_bit cfg mask idx item0 h]

theorem selected_calls_of_disabled (cfg : MenuConfig) (hcfg : cfg.CheckedSeparate)
    (mask idx : Nat) (item0 : MenuItem) (calls : List (Nat × Nat))
    (hdis : item0.flags &&& cfg.MIF_DISABLED ≠ 0) :
    selected_calls cfg mask idx item0 calls = calls := by
  have hdis2 : ((excluded_item cfg mask 0 idx item0).flags &&& cfg.MIF_DISABLED != 0) = true := by
    cases hb : mask.testBit idx with
    | false =>
      rw [excluded_item_of_not_bit cfg _ idx _ hb]
      simpa using hdis
    | true =>
      rw [excluded_item_of_bit cfg _ idx _ hb]
      simp only [clearBits_and_other _ _ _ hcfg.2.2.1]
      simpa using hdis
  simp only [selected_calls, hdis2, if_true]

/-- C7, as amended: for every item with the disabled flag set, `menu_doselect` never invokes
the item's hook (the trace of hook calls is unchanged), and it leaves the item, its checked
state included, unchanged provided the item's exclusion mask does not contain the item's
own index. -/
theorem menu_doselect_disabled (cfg : MenuConfig) (hcfg : cfg.CheckedSeparate)
    (menu : Menu) (i : Nat) (calls : List (Nat × Nat)) (item0 : MenuItem)
    (hitem : menu.items[i]? = some item0)
    (hin : ∀ k, (item0.flags &&& cfg.MIF_EXCLUDE_MASK).testBit k = true →
      k < menu.items.length)
    (hdis : item0.flags &&& cfg.MIF_DISABLED ≠ 0) :
    ∃ menu2, menu_doselect cfg menu i calls = Outcome.done (menu2, calls) ∧
      ((item0.flags &&& cfg.MIF_EXCLUDE_MASK).testBit i = false →
        menu2.items[i]? = some item0) := by
  obtain ⟨items2, hrun, _, hself, _⟩ := menu_doselect_spec cfg menu i calls item0 hitem hin
  rw [selected_calls_of_disabled cfg hcfg _ i item0 calls hdis] at hrun
  refine ⟨_, hrun, ?_⟩
  intro hnot
  have hd : (item0.flags &&& cfg.MIF_DISABLED != 0) = true := by simpa using hdis
  rw [hself, selected_item_of_not_self cfg _ i item0 hnot, if_pos hd]

/-- Instance of `menu_doselect_disabled` on a sample menu. -/
theorem menu_doselect_disabled_witness :
    ∃ menu2, menu_doselect bertosConfig radioMenu 3 [] = Outcome.done (menu2, []) ∧
      menu2.items[3]? = some ⟨4, 0x1003, 8, 40⟩ :=
  match menu_doselect_disabled bertosConfig
    ⟨⟨8, by decide⟩, by decide, by decide, by decide, by decide⟩
    radioMenu 3 [] ⟨4, 0x1003, 8, 40⟩ (by decide)
    (fun k hk => Nat.lt_trans (testBit_index_lt 3 2 k (by decide) hk) (by decide))
    (by decide) with
  | ⟨menu2, hrun, hsame⟩ => ⟨menu2, hrun, hsame (by decide)⟩

/-- C7, counterexample: a disabled, checked item whose exclusion mask contains its own index
loses its `MIF_CHECKED` flag in `menu_doselect`. -/
theorem menu_doselect_disabled_self_excluded :
    CheckedAt bertosConfig disabledSelfMenu 0 ∧
    (∃ f, item_flags disabledSelfMenu 0 = some f ∧ f &&& bertosConfig.MIF_DISABLED ≠ 0) ∧
    menu_doselect bertosConfig disabledSelfMenu 0 []
      = Outcome.done ({ disabledSelfMenu with items := [⟨1, 0x1001, 5, 10⟩, ⟨0, 0, 0, 0⟩] }, []) ∧
    UncheckedAt bertosConfig
      { disabledSelfMenu with items := [⟨1, 0x1001, 5, 10⟩, ⟨0, 0, 0, 0⟩] } 0 :=
  ⟨⟨0x1101, by decide, by decide⟩, ⟨0x1101, by decide, by decide⟩, by decide,
    ⟨0x1001, by decide, by decide⟩⟩

/-- C8, as amended: for every item with the toggle flag set whose exclusion mask does not
contain the item's own index, applying `menu_doselect` to it twice in succession leaves its
`MIF_CHECKED` bit equal to its original value; and a single activation of such an item, when
it is not disabled, flips the bit. -/
theorem menu_doselect_toggle_twice (cfg : MenuConfig) (hcfg : cfg.CheckedSeparate)
    (menu : Menu) (i : Nat) (calls : List (Nat × Nat)) (item0 : MenuItem)
    (hitem : menu.items[i]? = some item0)
    (hin : ∀ k, (item0.flags &&& cfg.MIF_EXCLUDE_MASK).testBit k = true →
      k < menu.items.length)
    (htog : item0.flags &&& cfg.MIF_TOGGLE ≠ 0)
    (hself : (item0.flags &&& cfg.MIF_EXCLUDE_MASK).testBit i = false) :
    ∃ menu1 calls1 menu2 calls2,
      menu_doselect cfg menu i calls = Outcome.done (menu1, calls1) ∧
      menu_doselect cfg menu1 i calls1 = Outcome.done (menu2, calls2) ∧
      (∃ f2, item_flags menu2 i = some f2 ∧
        f2 &&& cfg.MIF_CHECKED = item0.flags &&& cfg.MIF_CHECKED) ∧
      (item0.flags &&& cfg.MIF_DISABLED = 0 →
        (UncheckedAt cfg menu i → CheckedAt cfg menu1 i) ∧
        (CheckedAt cfg menu i → UncheckedAt cfg menu1 i)) := by
  obtain ⟨⟨b, hb⟩, hex, hd, ht, _⟩ := hcfg
  have hcfg2 : cfg.CheckedSeparate := ⟨⟨b, hb⟩, hex, hd, ht, by assumption⟩
  obtain ⟨items1, hrun1, hlen1, hself1, _⟩ :=
    menu_doselect_spec cfg menu i calls item0 hitem hin
  rw [selected_item_of_not_self cfg _ i item0 hself] at hself1
  have hflags0 : item_flags menu i = some item0.flags := by simp [item_flags, hitem]
  have htogb : (item0.flags &&& cfg.MIF_TOGGLE != 0) = true := by simpa using htog
  by_cases hdis : item0.flags &&& cfg.MIF_DISABLED = 0
  · -- not disabled: the flags become `flags ^ MIF_CHECKED`, then `flags` again
    have hdb : ¬ ((item0.flags &&& cfg.MIF_DISABLED != 0) = true) := by simp [hdis]
    rw [if_neg hdb] at hself1
    have hsel : select_flags cfg item0.flags = item0.flags ^^^ cfg.MIF_CHECKED := by
      simp only [select_flags, htogb, if_true]
    rw [hsel] at hself1
    have hmask : (item0.flags ^^^ cfg.MIF_CHECKED) &&& cfg.MIF_EXCLUDE_MASK
        = item0.flags &&& cfg.MIF_EXCLUDE_MASK := xor_and_other _ _ _ hex
    obtain ⟨items2, hrun2, _, hself2, _⟩ :=
      menu_doselect_spec cfg { menu with items := items1 } i
        (selected_calls cfg (item0.flags &&& cfg.MIF_EXCLUDE_MASK) i item0 calls)
        { item0 with flags := item0.flags ^^^ cfg.MIF_CHECKED } hself1
        (by
          intro k hk
          simp only [hmask] at hk
          simpa [hlen1] using hin k hk)
    simp only [hmask] at hrun2 hself2
    rw [selected_item_of_not_self cfg _ i _ hself] at hself2
    have hdb2 : ¬ (((item0.flags ^^^ cfg.MIF_CHECKED) &&& cfg.MIF_DISABLED != 0) = true) := by
      rw [xor_and_other _ _ _ hd]
      exact hdb
    have htogb2 : ((item0.flags ^^^ cfg.MIF_CHECKED) &&& cfg.MIF_TOGGLE != 0) = true := by
      rw [xor_and_other _ _ _ ht]
      exact htogb
    have hsel2 : select_flags cfg (item0.flags ^^^ cfg.MIF_CHECKED) = item0.flags := by
      simp only [select_flags, htogb2, if_true]
      rw [Nat.xor_assoc, Nat.xor_self, Nat.xor_zero]
    simp only [if_neg hdb2, hsel2] at hself2
    refine ⟨_, _, _, _, hrun1, hrun2, ⟨item0.flags, ?_, rfl⟩, ?_⟩
    · simp [item_flags, hself2]
    · intro _
      have hflags1 : item_flags { menu with items := items1 } i
          = some (item0.flags ^^^ cfg.MIF_CHECKED) := by simp [item_flags, hself1]
      constructor
      · rintro ⟨f, hf, hz⟩
        rw [hflags0] at hf
        simp only [Option.some.injEq] at hf
        subst hf
        refine ⟨_, hflags1, ?_⟩
        rw [xor_and_self_of_clear _ _ hz, hb]
        exact Nat.pos_iff_ne_zero.mp (Nat.two_pow_pos b)
      · rintro ⟨f, hf, hne⟩
        rw [hflags0] at hf
        simp only [Option.some.injEq] at hf
        subst hf
        refine ⟨_, hflags1, ?_⟩
        rw [hb] at hne ⊢
        exact xor_and_self_of_set _ _ hne
  · -- disabled: nothing changes
    have hdb : (item0.flags &&& cfg.MIF_DISABLED != 0) = true := by simpa using hdis
    rw [if_pos hdb] at hself1
    obtain ⟨items2, hrun2, _, hself2, _⟩ :=
      menu_doselect_spec cfg { menu with items := items1 } i
        (selected_calls cfg (item0.flags &&& cfg.MIF_EXCLUDE_MASK) i item0 calls)
        item0 hself1
        (by
          intro k hk
          simpa [hlen1] using hin k hk)
    rw [selected_item_of_not_self cfg _ i _ hself, if_pos hdb] at hself2
    refine ⟨_, _, _, _, hrun1, hrun2, ⟨item0.flags, ?_, rfl⟩, ?_⟩
    · simp [item_flags, hself2]
    · intro h
      exact absurd h hdis

/-- Instance of `menu_doselect_toggle_twice` on a sample menu. -/
theorem menu_doselect_toggle_twice_witness :
    ∃ menu1 calls1 menu2 calls2,
      menu_doselect bertosConfig radioMenu 4 [] = Outcome.done (menu1, calls1) ∧
      menu_doselect bertosConfig menu1 4 calls1 = Outcome.done (menu2, calls2) ∧
      (∃ f2, item_flags menu2 4 = some f2 ∧
        f2 &&& bertosConfig.MIF_CHECKED = (0x400 : Nat) &&& bertosConfig.MIF_CHECKED) ∧
      (UncheckedAt bertosConfig radioMenu 4 → CheckedAt bertosConfig menu1 4) ∧
      (CheckedAt bertosConfig radioMenu 4 → UncheckedAt bertosConfig menu1 4) :=
  match menu_doselect_toggle_twice bertosConfig
    ⟨⟨8, by decide⟩, by decide, by decide, by decide, by decide⟩
    radioMenu 4 [] ⟨5, 0x400, 9, 50⟩ (by decide)
    (fun k hk => absurd (testBit_index_lt 0 0 k (by decide) hk) (Nat.not_lt_zero k))
    (by decide) (by decide) with
  | ⟨menu1, calls1, menu2, calls2, h1, h2, h3, h4⟩ =>
    ⟨menu1, calls1, menu2, calls2, h1, h2, h3, h4 (by decide)⟩

/-- C8, counterexample: an unchecked toggle item whose exclusion mask contains its own index
is checked after one `menu_doselect` and still checked after the second one. -/
theorem menu_doselect_toggle_self_excluded :
    UncheckedAt bertosConfig toggleSelfMenu 0 ∧
    menu_doselect bertosConfig toggleSelfMenu 0 []
      = Outcome.done ({ toggleSelfMenu with items := [⟨1, 0x501, 0, 10⟩, ⟨0, 0, 0, 0⟩] }, []) ∧
    menu_doselect bertosConfig
        { toggleSelfMenu with items := [⟨1, 0x501, 0, 10⟩, ⟨0, 0, 0, 0⟩] } 0 []
      = Outcome.done ({ toggleSelfMenu with items := [⟨1, 0x501, 0, 10⟩, ⟨0, 0, 0, 0⟩] }, []) ∧
    CheckedAt bertosConfig
      { toggleSelfMenu with items := [⟨1, 0x501, 0, 10⟩, ⟨0, 0, 0, 0⟩] } 0 :=
  ⟨⟨0x401, by decide, by decide⟩, by decide, by decide, ⟨0x501, by decide, by decide⟩⟩

/-- C9: for every non-disabled, non-toggle, checkable item `i` whose exclusion mask `M` does
not contain `i` itself: after `menu_doselect(menu, i)` item `i` is checked, every sibling
`j` in `M` is unchecked and every other entry is unchanged; activating `i` a second time
leaves the menu as it is (checked stays true).  Hence in a group of items all of whose
other members are listed in `M`, at most one member is checked after the activation. -/
theorem menu_doselect_checkable (cfg : MenuConfig) (hcfg : cfg.CheckedSeparate)
    (menu : Menu) (i : Nat) (calls : List (Nat × Nat)) (item0 : MenuItem)
    (hitem : menu.items[i]? = some item0)
    (hin : ∀ k, (item0.flags &&& cfg.MIF_EXCLUDE_MASK).testBit k = true →
      k < menu.items.length)
    (hdis : item0.flags &&& cfg.MIF_DISABLED = 0)
    (htog : item0.flags &&& cfg.MIF_TOGGLE = 0)
    (hchk : item0.flags &&& cfg.MIF_CHECKIT ≠ 0)
    (hself : (item0.flags &&& cfg.MIF_EXCLUDE_MASK).testBit i = false) :
    ∃ menu1 calls1, menu_doselect cfg menu i calls = Outcome.done (menu1, calls1) ∧
      CheckedAt cfg menu1 i ∧
      (∀ j, (item0.flags &&& cfg.MIF_EXCLUDE_MASK).testBit j = true →
        UncheckedAt cfg menu1 j) ∧
      (∀ k, k ≠ i → (item0.flags &&& cfg.MIF_EXCLUDE_MASK).testBit k = false →
        menu1.items[k]? = menu.items[k]?) ∧
      (∃ calls2, menu_doselect cfg menu1 i calls1 = Outcome.done (menu1, calls2)) ∧
      (∀ G : Nat → Prop,
        (∀ j, G j → j ≠ i → (item0.flags &&& cfg.MIF_EXCLUDE_MASK).testBit j = true) →
        ∀ j k, G j → G k → CheckedAt cfg menu1 j → CheckedAt cfg menu1 k → j = k) := by
  obtain ⟨⟨b, hb⟩, hex, hd, ht, hc⟩ := hcfg
  obtain ⟨items1, hrun1, hlen1, hself1, hget1⟩ :=
    menu_doselect_spec cfg menu i calls item0 hitem hin
  rw [selected_item_of_not_self cfg _ i item0 hself] at hself1
  have hdb : ¬ ((item0.flags &&& cfg.MIF_DISABLED != 0) = true) := by simp [hdis]
  have htb : ¬ ((item0.flags &&& cfg.MIF_TOGGLE != 0) = true) := by simp [htog]
  have hcb : (item0.flags &&& cfg.MIF_CHECKIT != 0) = true := by simpa using hchk
  have hsel : select_flags cfg item0.flags = item0.flags ||| cfg.MIF_CHECKED := by
    simp only [select_flags, if_neg htb, hcb, if_true]
  rw [if_neg hdb, hsel] at hself1
  have hunchecked : ∀ j, (item0.flags &&& cfg.MIF_EXCLUDE_MASK).testBit j = true →
      UncheckedAt cfg { menu with items := items1 } j := by
    intro j hj
    have hji : j ≠ i := by
      rintro rfl
      rw [hself] at hj
      exact Bool.noConfusion hj
    exact excluded_unchecked cfg menu items1 _ i j (hin j hj) hj hji hget1
  have hmask : (item0.flags ||| cfg.MIF_CHECKED) &&& cfg.MIF_EXCLUDE_MASK
      = item0.flags &&& cfg.MIF_EXCLUDE_MASK := or_and_other _ _ _ hex
  obtain ⟨items2, hrun2, _, hself2, hget2⟩ :=
    menu_doselect_spec cfg { menu with items := items1 } i
      (selected_calls cfg (item0.flags &&& cfg.MIF_EXCLUDE_MASK) i item0 calls)
      { item0 with flags := item0.flags ||| cfg.MIF_CHECKED } hself1
      (by
        intro k hk
        simp only [hmask] at hk
        simpa [hlen1] using hin k hk)
  simp only [hmask] at hrun2 hself2 hget2
  rw [selected_item_of_not_self cfg _ i _ hself] at hself2
  have hdb2 : ¬ (((item0.flags ||| cfg.MIF_CHECKED) &&& cfg.MIF_DISABLED != 0) = true) := by
    rw [or_and_other _ _ _ hd]
    exact hdb
  have htb2 : ¬ (((item0.flags ||| cfg.MIF_CHECKED) &&& cfg.MIF_TOGGLE != 0) = true) := by
    rw [or_and_other _ _ _ ht]
    exact htb
  have hcb2 : ((item0.flags ||| cfg.MIF_CHECKED) &&& cfg.MIF_CHECKIT != 0) = true := by
    rw [or_and_other _ _ _ hc]
    exact hcb
  have hsel2 : select_flags cfg (item0.flags ||| cfg.MIF_CHECKED)
      = item0.flags ||| cfg.MIF_CHECKED := by
    simp only [select_flags, if_neg htb2, hcb2, if_true]
    rw [Nat.or_assoc, Nat.or_self]
  simp only [if_neg hdb2, hsel2] at hself2
  have hsame : items2 = items1 := by
    apply List.ext_getElem?
    intro k
    by_cases hk : k = i
    · subst hk
      rw [hself2, hself1]
    · rw [hget2 k hk]
      simp only [hget1 k hk]
      cases menu.items[k]? with
      | none => rfl
      | some item => simp [excluded_item_idem]
  rw [hsame] at hrun2
  refine ⟨_, _, hrun1, ?_, hunchecked, ?_, ⟨_, hrun2⟩, ?_⟩
  · refine ⟨item0.flags ||| cfg.MIF_CHECKED, by simp [item_flags, hself1], ?_⟩
    rw [or_and_self, hb]
    exact Nat.pos_iff_ne_zero.mp (Nat.two_pow_pos b)
  · intro k hk hbit
    simp only [hget1 k hk]
    cases menu.items[k]? with
    | none => rfl
    | some item => simp [excluded_item_of_not_bit cfg _ k item hbit]
  · intro G hG j k hGj hGk hcj hck
    have hji : j = i := by
      by_contra hne
      exact not_checked_and_unchecked cfg _ j hcj (hunchecked j (hG j hGj hne))
    have hki : k = i := by
      by_contra hne
      exact not_checked_and_unchecked cfg _ k hck (hunchecked k (hG k hGk hne))
    rw [hji, hki]

/-- Instance of `menu_doselect_checkable` on a sample menu. -/
theorem menu_doselect_checkable_witness :
    menu_doselect bertosConfig radioMenu 0 []
      = Outcome.done ({ radioMenu with items := [⟨1, 0x306, 0, 10⟩, ⟨2, 0x205, 0, 20⟩,
          ⟨3, 0x203, 7, 30⟩, ⟨4, 0x1003, 8, 40⟩, ⟨5, 0x400, 9, 50⟩, ⟨0, 0, 0, 0⟩] }, []) ∧
    ∃ menu1 calls1, menu_doselect bertosConfig radioMenu 0 [] = Outcome.done (menu1, calls1) ∧
      CheckedAt bertosConfig menu1 0 ∧
      (∀ j, ((0x206 : Nat) &&& bertosConfig.MIF_EXCLUDE_MASK).testBit j = true →
        UncheckedAt bertosConfig menu1 j) ∧
      (∀ k, k ≠ 0 → ((0x206 : Nat) &&& bertosConfig.MIF_EXCLUDE_MASK).testBit k = false →
        menu1.items[k]? = radioMenu.items[k]?) ∧
      (∃ calls2, menu_doselect bertosConfig menu1 0 calls1 = Outcome.done (menu1, calls2)) ∧
      (∀ G : Nat → Prop,
        (∀ j, G j → j ≠ 0 → ((0x206 : Nat) &&& bertosConfig.MIF_EXCLUDE_MASK).testBit j = true) →
        ∀ j k, G j → G k → CheckedAt bertosConfig menu1 j → CheckedAt bertosConfig menu1 k →
          j = k) :=
  ⟨by decide,
    menu_doselect_checkable bertosConfig
      ⟨⟨8, by decide⟩, by decide, by decide, by decide, by decide⟩
      radioMenu 0 [] ⟨1, 0x206, 0, 10⟩ (by decide)
      (fun k hk => Nat.lt_trans (testBit_index_lt 6 3 k (by decide) hk) (by decide))
      (by decide) (by decide) (by decide) (by decide)⟩

/-! ## Control loop: the activation branch -/

/-- As soon as any menu flag is set, `!menu->flags & MF_STICKY` is zero. -/
theorem not_flags_and_sticky_of_flags (cfg : MenuConfig) (menu : Menu) (h : menu.flags ≠ 0) :
    not_flags_and_sticky cfg menu = 0 := by
  simp [not_flags_and_sticky, h]

/-- With any menu flag set, an `OK` key event runs the selection handler and stays in the
loop. -/
theorem menu_handle_key_ok_stays (cfg : MenuConfig) (fuel : Nat) (s : LoopState) (key : Nat)
    (menu1 : Menu) (calls1 : List (Nat × Nat)) (hkey : key &&& cfg.K_OK ≠ 0)
    (hsel : menu_doselect cfg s.menu s.selected s.calls = Outcome.done (menu1, calls1))
    (hflags : menu1.flags ≠ 0) :
    menu_handle_key cfg fuel s key
      = Outcome.done (Control.running { s with menu := menu1, calls := calls1 }) := by
  have hk : (key &&& cfg.K_OK != 0) = true := by simpa using hkey
  simp [menu_handle_key, hk, hsel, not_flags_and_sticky_of_flags cfg menu1 hflags]

/-- C10, the code at the failing inputs: on a menu whose flags are `MF_TOPLEVEL` only, or
`MF_SAVESEL` only (so `MF_STICKY` is clear), an `OK` key event on item 1 runs the selection
handler, which checks the toggle item, but `menu_handle` stays in its loop and does not
store the selection; it returns the item's user data only when no menu flag is set. -/
theorem menu_handle_ok_not_sticky_stays :
    topLevelMenu.flags &&& bertosConfig.MF_STICKY = 0 ∧
    menu_handle_key bertosConfig 3 ⟨topLevelMenu, 0, 1, []⟩ bertosConfig.K_OK
      = Outcome.done (Control.running
          ⟨{ topLevelMenu with items :=
              [⟨1, 0, 0, 10⟩, ⟨2, 0x500, 0, 20⟩, ⟨3, 0x800, 0, 30⟩, ⟨0, 0, 0, 0⟩] }, 0, 1, []⟩) ∧
    saveSelMenu.flags &&& bertosConfig.MF_STICKY = 0 ∧
    menu_handle_key bertosConfig 3 ⟨saveSelMenu, 0, 1, []⟩ bertosConfig.K_OK
      = Outcome.done (Control.running
          ⟨{ saveSelMenu with items :=
              [⟨1, 0, 0, 10⟩, ⟨2, 0x500, 0, 20⟩, ⟨3, 0x800, 0, 30⟩, ⟨0, 0, 0, 0⟩] }, 0, 1, []⟩) ∧
    menu_handle_key bertosConfig 3 ⟨sampleMenu, 0, 1, []⟩ bertosConfig.K_OK
      = Outcome.done (Control.exiting 20
          { sampleMenu with items :=
              [⟨1, 0, 0, 10⟩, ⟨2, 0x500, 0, 20⟩, ⟨3, 0x800, 0, 30⟩, ⟨0, 0, 0, 0⟩] } []) := by
  refine ⟨by decide, by decide, by decide, by decide, by decide⟩

/-! ## Control loop: cancel and the exit test of the activation branch -/

/-- C11: on a key event carrying `CANCEL` and none of `OK`, `UP`, `DOWN`: if the menu is not
top-level, `menu_handle` returns `0`, with `selected` stored into `menu.selected` when
`MF_SAVESEL` is set and with the menu untouched otherwise; if the menu is top-level, the
loop keeps running in the very same state (`selected`, `first_item`, `menu.selected` and all
item flags unchanged). -/
theorem menu_handle_key_cancel (cfg : MenuConfig) (fuel : Nat) (s : LoopState) (key : Nat)
    (hok : key &&& cfg.K_OK = 0) (hup : key &&& cfg.K_UP = 0) (hdown : key &&& cfg.K_DOWN = 0)
    (hcancel : key &&& cfg.K_CANCEL ≠ 0) :
    (s.menu.flags &&& cfg.MF_TOPLEVEL = 0 → s.menu.flags &&& cfg.MF_SAVESEL ≠ 0 →
      menu_handle_key cfg fuel s key
        = Outcome.done (Control.exiting 0 { s.menu with selected := (s.selected : Int) }
            s.calls)) ∧
    (s.menu.flags &&& cfg.MF_TOPLEVEL = 0 → s.menu.flags &&& cfg.MF_SAVESEL = 0 →
      menu_handle_key cfg fuel s key = Outcome.done (Control.exiting 0 s.menu s.calls)) ∧
    (s.menu.flags &&& cfg.MF_TOPLEVEL ≠ 0 →
      menu_handle_key cfg fuel s key = Outcome.done (Control.running s)) := by
  refine ⟨?_, ?_, ?_⟩
  · intro htop hsave
    simp [menu_handle_key, hok, hup, hdown, hcancel, htop, save_selection, hsave]
  · intro htop hsave
    simp [menu_handle_key, hok, hup, hdown, hcancel, htop, save_selection, hsave]
  · intro htop
    simp [menu_handle_key, hok, hup, hdown, htop]

/-- Instance of `menu_handle_key_cancel` on sample menus. -/
theorem menu_handle_key_cancel_witness :
    menu_handle_key bertosConfig 3 ⟨saveSelMenu, 0, 1, []⟩ 0x08
      = Outcome.done (Control.exiting 0 { saveSelMenu with selected := 1 } []) ∧
    menu_handle_key bertosConfig 3 ⟨sampleMenu, 0, 1, []⟩ 0x08
      = Outcome.done (Control.exiting 0 sampleMenu []) ∧
    menu_handle_key bertosConfig 3 ⟨topLevelMenu, 0, 1, []⟩ 0x08
      = Outcome.done (Control.running ⟨topLevelMenu, 0, 1, []⟩) :=
  ⟨(menu_handle_key_cancel bertosConfig 3 ⟨saveSelMenu, 0, 1, []⟩ 0x08 (by decide) (by decide)
      (by decide) (by decide)).1 (by decide) (by decide),
    (menu_handle_key_cancel bertosConfig 3 ⟨sampleMenu, 0, 1, []⟩ 0x08 (by decide) (by decide)
      (by decide) (by decide)).2.1 (by decide) (by decide),
    (menu_handle_key_cancel bertosConfig 3 ⟨topLevelMenu, 0, 1, []⟩ 0x08 (by decide)
      (by decide) (by decide) (by decide)).2.2 (by decide)⟩

theorem selected_item_userdata (cfg : MenuConfig) (mask idx : Nat) (item0 : MenuItem) :
    (selected_item cfg mask idx item0).userdata = item0.userdata := by
  simp only [selected_item, excluded_item]
  split <;> split <;> rfl

/-- C20: the exit test of the activation branch is `(!menu->flags) & MF_STICKY`.  On an `OK`
key event the selection handler runs; then, with `MF_STICKY` being bit 0 (any odd value),
`menu_handle` returns the item's user data if and only if no menu flag is set at all, and
with an even `MF_STICKY` it never returns.  So a sticky menu never leaves the loop on
activation, and whenever the function returns here `menu.selected` is what it was: the
`MF_SAVESEL` store in the branch is never executed. -/
theorem menu_handle_key_ok_exit_test (cfg : MenuConfig) (fuel : Nat) (s : LoopState)
    (key : Nat) (item0 : MenuItem) (hkey : key &&& cfg.K_OK ≠ 0)
    (hitem : s.menu.items[s.selected]? = some item0)
    (hin : ∀ k, (item0.flags &&& cfg.MIF_EXCLUDE_MASK).testBit k = true →
      k < s.menu.items.length) :
    ∃ menu1 calls1, menu_doselect cfg s.menu s.selected s.calls = Outcome.done (menu1, calls1) ∧
      menu1.flags = s.menu.flags ∧ menu1.selected = s.menu.selected ∧
      (s.menu.flags = 0 → cfg.MF_STICKY % 2 = 1 →
        menu_handle_key cfg fuel s key
          = Outcome.done (Control.exiting item0.userdata menu1 calls1)) ∧
      (s.menu.flags ≠ 0 ∨ cfg.MF_STICKY % 2 = 0 →
        menu_handle_key cfg fuel s key
          = Outcome.done (Control.running { s with menu := menu1, calls := calls1 })) ∧
      (s.menu.flags &&& cfg.MF_STICKY ≠ 0 →
        menu_handle_key cfg fuel s key
          = Outcome.done (Control.running { s with menu := menu1, calls := calls1 })) := by
  obtain ⟨items2, hrun, _, hself, _⟩ :=
    menu_doselect_spec cfg s.menu s.selected s.calls item0 hitem hin
  have hk : (key &&& cfg.K_OK != 0) = true := by simpa using hkey
  have hstay : s.menu.flags ≠ 0 ∨ cfg.MF_STICKY % 2 = 0 →
      menu_handle_key cfg fuel s key = Outcome.done (Control.running
        { s with menu := { s.menu with items := items2 },
                 calls := selected_calls cfg (item0.flags &&& cfg.MIF_EXCLUDE_MASK)
                   s.selected item0 s.calls }) := by
    intro h
    have hz : not_flags_and_sticky cfg { s.menu with items := items2 } = 0 := by
      rcases h with h | h
      · exact not_flags_and_sticky_of_flags cfg _ h
      · simp only [not_flags_and_sticky]
        split
        · rw [Nat.one_and_eq_mod_two, h]
        · exact Nat.zero_and _
    simp [menu_handle_key, hk, hrun, hz]
  refine ⟨_, _, hrun, rfl, rfl, ?_, hstay, ?_⟩
  · intro hflags hodd
    have hnz : not_flags_and_sticky cfg { s.menu with items := items2 } = 1 := by
      simp only [not_flags_and_sticky, hflags, if_true]
      rw [Nat.one_and_eq_mod_two, hodd]
    have hsave : save_selection cfg { s.menu with items := items2 } s.selected
        = { s.menu with items := items2 } := by
      simp [save_selection, hflags]
    simp [menu_handle_key, hk, hrun, hnz, hsave, hself, selected_item_userdata]
  · intro hsticky
    apply hstay
    left
    intro hzero
    rw [hzero, Nat.zero_and] at hsticky
    exact hsticky rfl

/-- Instance of `menu_handle_key_ok_exit_test` on a sample menu. -/
theorem menu_handle_key_ok_exit_test_witness :
    ∃ menu1 calls1, menu_doselect bertosConfig sampleMenu 1 [] = Outcome.done (menu1, calls1) ∧
      menu1.flags = sampleMenu.flags ∧ menu1.selected = sampleMenu.selected ∧
      menu_handle_key bertosConfig 3 ⟨sampleMenu, 0, 1, []⟩ 0x02
        = Outcome.done (Control.exiting 20 menu1 calls1) :=
  match menu_handle_key_ok_exit_test bertosConfig 3 ⟨sampleMenu, 0, 1, []⟩ 0x02
    ⟨2, 0x400, 0, 20⟩ (by decide) (by decide)
    (fun k hk => absurd (testBit_index_lt 0 0 k (by decide) hk) (Nat.not_lt_zero k)) with
  | ⟨menu1, calls1, hrun, hflags, hsel, hexit, _, _⟩ =>
    ⟨menu1, calls1, hrun, hflags, hsel, hexit (by decide) (by decide)⟩

/-! ## Flag accessors -/

theorem testBit_clearBits (x m b : Nat) :
    (clearBits x m).testBit b = (x.testBit b && !m.testBit b) := by
  simp only [clearBits, Nat.testBit_xor, Nat.testBit_and]
  cases x.testBit b <;> cases m.testBit b <;> rfl

theorem flags_asserts_ok (cfg : MenuConfig) (menu : Menu) (n : Nat) (idx : Int)
    (hcount : menu_count menu = some n) (hram : menu.flags &&& cfg.MF_ROMITEMS = 0)
    (hidx : idx < n) : flags_asserts cfg menu idx = Asserted.ok () := by
  simp [flags_asserts, hcount, hidx, hram]

theorem flags_asserts_failed (cfg : MenuConfig) (menu : Menu) (n : Nat) (idx : Int)
    (hcount : menu_count menu = some n)
    (h : menu.flags &&& cfg.MF_ROMITEMS ≠ 0 ∨ (n : Int) ≤ idx) :
    flags_asserts cfg menu idx = Asserted.assert_failed := by
  by_cases hidx : idx < (n : Int)
  · have hrom : menu.flags &&& cfg.MF_ROMITEMS ≠ 0 := by
      rcases h with h | h
      · exact h
      · omega
    simp [flags_asserts, hcount, hidx, hrom]
  · simp [flags_asserts, hcount, hidx]

/-- C17: for every RAM-backed menu and index `0 ≤ idx < count(menu)`, `menu_setFlags(menu,
idx, m)` returns the flags `old` of item `idx` as they were and leaves them equal to
`old | m`; `menu_clearFlags(menu, idx, m)` returns `old` and leaves the flags equal to
`old & ~m` (bit by bit: a bit is set afterwards exactly if it was set in `old` and is not
set in `m`); every other entry and all menu-level fields are unchanged. -/
theorem menu_setFlags_clearFlags_spec (cfg : MenuConfig) (menu : Menu) (n idx m : Nat)
    (hcount : menu_count menu = some n) (hram : menu.flags &&& cfg.MF_ROMITEMS = 0)
    (hidx : idx < n) :
    ∃ item, menu.items[idx]? = some item ∧
      menu_setFlags cfg menu (idx : Int) m
        = Asserted.ok
            ({ menu with
                items := menu.items.set idx { item with flags := item.flags ||| m } },
              item.flags) ∧
      menu_clearFlags cfg menu (idx : Int) m
        = Asserted.ok
            ({ menu with
                items := menu.items.set idx { item with flags := clearBits item.flags m } },
              item.flags) ∧
      (∀ b, (clearBits item.flags m).testBit b = (item.flags.testBit b && !m.testBit b)) ∧
      (∀ (item2 : MenuItem) (j : Nat), j ≠ idx →
        (menu.items.set idx item2)[j]? = menu.items[j]?) := by
  have hlen : idx < menu.items.length :=
    Nat.lt_trans hidx (menu_count_lt_length menu n hcount)
  have hok := flags_asserts_ok cfg menu n (idx : Int) hcount hram (by omega)
  have hneg : ¬ ((idx : Int) < 0) := by omega
  refine ⟨menu.items[idx], List.getElem?_eq_getElem hlen, ?_, ?_, ?_, ?_⟩
  · simp [menu_setFlags, hok, update_flags, hneg, List.getElem?_eq_getElem hlen]
  · simp [menu_clearFlags, hok, update_flags, hneg, List.getElem?_eq_getElem hlen]
  · intro b
    exact testBit_clearBits _ _ b
  · intro item2 j hj
    exact List.getElem?_set_ne (Ne.symm hj)

/-- Instance of `menu_setFlags_clearFlags_spec` on a sample menu. -/
theorem menu_setFlags_clearFlags_spec_witness :
    menu_setFlags bertosConfig sampleMenu 1 0x900
      = Asserted.ok ({ sampleMenu with items :=
          [⟨1, 0, 0, 10⟩, ⟨2, 0xD00, 0, 20⟩, ⟨3, 0x800, 0, 30⟩, ⟨0, 0, 0, 0⟩] }, 0x400) ∧
    menu_clearFlags bertosConfig sampleMenu 2 0x900
      = Asserted.ok ({ sampleMenu with items :=
          [⟨1, 0, 0, 10⟩, ⟨2, 0x400, 0, 20⟩, ⟨3, 0, 0, 30⟩, ⟨0, 0, 0, 0⟩] }, 0x800) ∧
    ∃ item, sampleMenu.items[1]? = some item ∧
      menu_setFlags bertosConfig sampleMenu ((1 : Nat) : Int) 0x900
        = Asserted.ok
            ({ sampleMenu with
                items := sampleMenu.items.set 1 { item with flags := item.flags ||| 0x900 } },
              item.flags) :=
  ⟨by decide, by decide,
    match menu_setFlags_clearFlags_spec bertosConfig sampleMenu 3 1 0x900 (by decide)
      (by decide) (by decide) with
    | ⟨item, hitem, hset, _⟩ => ⟨item, hitem, hset⟩⟩

/-- C18, as amended: `menu_setFlags` and `menu_clearFlags` fail by assertion whenever the
menu is read-only-backed (`MF_ROMITEMS`) or `idx ≥ count(menu)`, and then nothing is
modified; every call they accept is on a RAM-backed menu with `idx < count(menu)`, and an
accepted call with `idx ≥ 0` addresses an existing item, whose flags it returns. -/
theorem menu_flags_assertions (cfg : MenuConfig) (menu : Menu) (n : Nat) (idx : Int) (m : Nat)
    (hcount : menu_count menu = some n) :
    (menu.flags &&& cfg.MF_ROMITEMS ≠ 0 ∨ (n : Int) ≤ idx →
      menu_setFlags cfg menu idx m = Asserted.assert_failed ∧
      menu_clearFlags cfg menu idx m = Asserted.assert_failed) ∧
    (menu_setFlags cfg menu idx m ≠ Asserted.assert_failed ∨
      menu_clearFlags cfg menu idx m ≠ Asserted.assert_failed →
        idx < n ∧ menu.flags &&& cfg.MF_ROMITEMS = 0) ∧
    (0 ≤ idx → menu_setFlags cfg menu idx m ≠ Asserted.assert_failed →
      ∃ item menu2, menu.items[idx.toNat]? = some item ∧ idx.toNat < n ∧
        menu_setFlags cfg menu idx m = Asserted.ok (menu2, item.flags)) ∧
    (0 ≤ idx → menu_clearFlags cfg menu idx m ≠ Asserted.assert_failed →
      ∃ item menu2, menu.items[idx.toNat]? = some item ∧ idx.toNat < n ∧
        menu_clearFlags cfg menu idx m = Asserted.ok (menu2, item.flags)) := by
  have hfail : menu.flags &&& cfg.MF_ROMITEMS ≠ 0 ∨ (n : Int) ≤ idx →
      menu_setFlags cfg menu idx m = Asserted.assert_failed ∧
      menu_clearFlags cfg menu idx m = Asserted.assert_failed := by
    intro h
    have hf := flags_asserts_failed cfg menu n idx hcount h
    simp [menu_setFlags, menu_clearFlags, hf]
  have haccept : menu_setFlags cfg menu idx m ≠ Asserted.assert_failed ∨
      menu_clearFlags cfg menu idx m ≠ Asserted.assert_failed →
        idx < n ∧ menu.flags &&& cfg.MF_ROMITEMS = 0 := by
    intro h
    by_contra hcon
    have hbad : menu.flags &&& cfg.MF_ROMITEMS ≠ 0 ∨ (n : Int) ≤ idx := by
      by_cases hrom : menu.flags &&& cfg.MF_ROMITEMS = 0
      · right
        by_contra hlt
        exact hcon ⟨by omega, hrom⟩
      · exact Or.inl hrom
    obtain ⟨h1, h2⟩ := hfail hbad
    rcases h with h | h
    · exact h h1
    · exact h h2
  refine ⟨hfail, haccept, ?_, ?_⟩
  · intro h0 hacc
    obtain ⟨hidx, hram⟩ := haccept (Or.inl hacc)
    have hlen : idx.toNat < menu.items.length :=
      Nat.lt_trans (by omega) (menu_count_lt_length menu n hcount)
    have hok := flags_asserts_ok cfg menu n idx hcount hram hidx
    have hneg : ¬ (idx < 0) := by omega
    exact ⟨menu.items[idx.toNat],
      { menu with
        items := menu.items.set idx.toNat
          { menu.items[idx.toNat] with flags := menu.items[idx.toNat].flags ||| m } },
      List.getElem?_eq_getElem hlen, by omega,
      by simp [menu_setFlags, hok, update_flags, hneg, List.getElem?_eq_getElem hlen]⟩
  · intro h0 hacc
    obtain ⟨hidx, hram⟩ := haccept (Or.inr hacc)
    have hlen : idx.toNat < menu.items.length :=
      Nat.lt_trans (by omega) (menu_count_lt_length menu n hcount)
    have hok := flags_asserts_ok cfg menu n idx hcount hram hidx
    have hneg : ¬ (idx < 0) := by omega
    exact ⟨menu.items[idx.toNat],
      { menu with
        items := menu.items.set idx.toNat
          { menu.items[idx.toNat] with flags := clearBits menu.items[idx.toNat].flags m } },
      List.getElem?_eq_getElem hlen, by omega,
      by simp [menu_clearFlags, hok, update_flags, hneg, List.getElem?_eq_getElem hlen]⟩

/-- Instance of `menu_flags_assertions` on a sample menu: index 3 is the sentinel's. -/
theorem menu_flags_assertions_witness :
    (menu_setFlags bertosConfig sampleMenu 3 0x100 = Asserted.assert_failed ∧
      menu_clearFlags bertosConfig sampleMenu 3 0x100 = Asserted.assert_failed) ∧
    (menu_setFlags bertosConfig sampleMenu 2 0x100 ≠ Asserted.assert_failed →
      ∃ item menu2, sampleMenu.items[(2 : Int).toNat]? = some item ∧ (2 : Int).toNat < 3 ∧
        menu_setFlags bertosConfig sampleMenu 2 0x100 = Asserted.ok (menu2, item.flags)) :=
  ⟨(menu_flags_assertions bertosConfig sampleMenu 3 3 0x100 (by decide)).1
      (Or.inr (by decide)),
    (menu_flags_assertions bertosConfig sampleMenu 3 2 0x100 (by decide)).2.2.1 (by decide)⟩

/-- C18, counterexample: the call `menu_setFlags(menu, -1, m)` (and likewise
`menu_clearFlags`) passes both assertions although index `-1` addresses no item; the access
`menu->items[-1]` that follows is outside the array. -/
theorem menu_setFlags_accepts_negative_index :
    flags_asserts bertosConfig sampleMenu (-1) = Asserted.ok () ∧
    menu_setFlags bertosConfig sampleMenu (-1) 0x100 ≠ Asserted.assert_failed ∧
    menu_setFlags bertosConfig sampleMenu (-1) 0x100 = Asserted.fault ∧
    menu_clearFlags bertosConfig sampleMenu (-1) 0x100 = Asserted.fault := by
  refine ⟨by decide, by decide, by decide, by decide⟩

/-! ## What the operations leave unchanged -/

theorem items_related_refl (R : MenuItem → MenuItem → Prop) (hR : ∀ a, R a a)
    (items : List MenuItem) : ItemsRelated R items items := by
  refine ⟨rfl, ?_⟩
  intro j a b ha hb
  rw [ha] at hb
  simp only [Option.some.injEq] at hb
  subst hb
  exact hR a

theorem items_related_trans (R : MenuItem → MenuItem → Prop)
    (hR : ∀ a b c, R a b → R b c → R a c) (l1 l2 l3 : List MenuItem)
    (h12 : ItemsRelated R l1 l2) (h23 : ItemsRelated R l2 l3) : ItemsRelated R l1 l3 := by
  refine ⟨h23.1.trans h12.1, ?_⟩
  intro j a c ha hc
  have hj : j < l2.length := by
    have h1 : j < l1.length := by
      by_contra hcon
      rw [List.getElem?_eq_none (by omega)] at ha
      exact Option.noConfusion ha
    have := h12.1
    omega
  exact hR a l2[j] c (h12.2 j a _ ha (List.getElem?_eq_getElem hj))
    (h23.2 j _ c (List.getElem?_eq_getElem hj) hc)

theorem items_related_mono (R S : MenuItem → MenuItem → Prop) (hRS : ∀ a b, R a b → S a b)
    (l1 l2 : List MenuItem) (h : ItemsRelated R l1 l2) : ItemsRelated S l1 l2 :=
  ⟨h.1, fun j a b ha hb => hRS a b (h.2 j a b ha hb)⟩

theorem items_related_set (R : MenuItem → MenuItem → Prop) (hR : ∀ a, R a a)
    (items : List MenuItem) (i : Nat) (item item2 : MenuItem) (hi : items[i]? = some item)
    (h : R item item2) : ItemsRelated R items (items.set i item2) := by
  refine ⟨List.length_set _ _ _, ?_⟩
  intro j a b ha hb
  by_cases hji : j = i
  · subst hji
    have hlt : j < items.length := by
      by_contra hcon
      rw [List.getElem?_eq_none (by omega)] at hi
      exact Option.noConfusion hi
    rw [List.getElem?_set_self hlt] at hb
    rw [hi] at ha
    simp only [Option.some.injEq] at ha hb
    subst ha
    subst hb
    exact h
  · rw [List.getElem?_set_ne (Ne.symm hji), ha] at hb
    simp only [Option.some.injEq] at hb
    subst hb
    exact hR a

theorem same_but_checked_refl (cfg : MenuConfig) (a : MenuItem) : SameButChecked cfg a a :=
  ⟨⟨rfl, rfl, rfl⟩, rfl⟩

theorem same_but_checked_trans (cfg : MenuConfig) (a b c : MenuItem)
    (hab : SameButChecked cfg a b) (hbc : SameButChecked cfg b c) : SameButChecked cfg a c :=
  ⟨⟨hbc.1.1.trans hab.1.1, hbc.1.2.1.trans hab.1.2.1, hbc.1.2.2.trans hab.1.2.2⟩,
    hbc.2.trans hab.2⟩

theorem clearBits_clearBits (f c : Nat) : clearBits (clearBits f c) c = clearBits f c :=
  clearBits_of_clear _ _ (clearBits_and_self f c)

theorem clearBits_xor (f c : Nat) : clearBits (f ^^^ c) c = clearBits f c := by
  apply Nat.eq_of_testBit_eq
  intro b
  simp only [testBit_clearBits, Nat.testBit_xor]
  cases f.testBit b <;> cases c.testBit b <;> rfl

theorem clearBits_or (f c : Nat) : clearBits (f ||| c) c = clearBits f c := by
  apply Nat.eq_of_testBit_eq
  intro b
  simp only [testBit_clearBits, Nat.testBit_or]
  cases f.testBit b <;> cases c.testBit b <;> rfl

theorem clearBits_select_flags (cfg : MenuConfig) (f : Nat) :
    clearBits (select_flags cfg f) cfg.MIF_CHECKED = clearBits f cfg.MIF_CHECKED := by
  unfold select_flags
  split
  · exact clearBits_xor f _
  · split
    · exact clearBits_or f _
    · rfl

/-- Bits outside `MIF_CHECKED` are the same in two entries that differ in `MIF_CHECKED` at
most. -/
theorem same_but_checked_and (cfg : MenuConfig) (a b : MenuItem) (m : Nat)
    (h : SameButChecked cfg a b) (hm : cfg.MIF_CHECKED &&& m = 0) :
    b.flags &&& m = a.flags &&& m := by
  rw [← clearBits_and_other b.flags _ m hm, ← clearBits_and_other a.flags _ m hm, h.2]

/-- The exclusion loop changes `MIF_CHECKED` bits only. -/
theorem exclude_loop_related (cfg : MenuConfig) (fuel : Nat) :
    ∀ (mask i : Nat) (items items2 : List MenuItem),
      exclude_loop cfg fuel mask i items = Outcome.done items2 →
      ItemsRelated (SameButChecked cfg) items items2 := by
  induction fuel with
  | zero =>
    intro mask i items items2 h
    simp only [exclude_loop] at h
    split at h
    · simp only [Outcome.done.injEq] at h
      subst h
      exact items_related_refl _ (same_but_checked_refl cfg) items
    · exact Outcome.noConfusion h
  | succ fuel ih =>
    intro mask i items items2 h
    simp only [exclude_loop] at h
    split at h
    · simp only [Outcome.done.injEq] at h
      subst h
      exact items_related_refl _ (same_but_checked_refl cfg) items
    · split at h
      · simp only [clear_checked] at h
        split at h
        · exact Outcome.noConfusion h
        · rename_i items1 hclear
          split at hclear
          · exact Option.noConfusion hclear
          · rename_i item hitem
            simp only [Option.some.injEq] at hclear
            subst hclear
            exact items_related_trans _ (same_but_checked_trans cfg) _ _ _
              (items_related_set _ (same_but_checked_refl cfg) items i item
                { item with flags := clearBits item.flags cfg.MIF_CHECKED } hitem
                ⟨⟨rfl, rfl, rfl⟩, clearBits_clearBits _ _⟩)
              (ih _ _ _ _ h)
      · exact ih _ _ _ _ h

/-- The selection handler changes `MIF_CHECKED` bits of item flags and nothing else. -/
theorem menu_doselect_related (cfg : MenuConfig) (menu : Menu) (idx : Nat)
    (calls : List (Nat × Nat)) (menu2 : Menu) (calls2 : List (Nat × Nat))
    (h : menu_doselect cfg menu idx calls = Outcome.done (menu2, calls2)) :
    ItemsRelated (SameButChecked cfg) menu.items menu2.items ∧
      { menu2 with items := menu.items } = menu := by
  simp only [menu_doselect] at h
  split at h
  · exact Outcome.noConfusion h
  · split at h
    · exact Outcome.noConfusion h
    · exact Outcome.noConfusion h
    · rename_i items1 hloop
      have hrel := exclude_loop_related cfg _ _ _ _ _ hloop
      split at h
      · exact Outcome.noConfusion h
      · rename_i item hitem
        split at h
        · simp only [Outcome.done.injEq, Prod.mk.injEq] at h
          obtain ⟨h1, _⟩ := h
          subst h1
          exact ⟨hrel, rfl⟩
        · simp only [Outcome.done.injEq, Prod.mk.injEq] at h
          obtain ⟨h1, _⟩ := h
          subst h1
          refine ⟨?_, rfl⟩
          exact items_related_trans _ (same_but_checked_trans cfg) _ _ _ hrel
            (items_related_set _ (same_but_checked_refl cfg) items1 idx item
              { item with flags := select_flags cfg item.flags } hitem
              ⟨⟨rfl, rfl, rfl⟩, clearBits_select_flags cfg item.flags⟩)

/-- Arrays that differ in flags only have the same `menu_count`. -/
theorem menu_count_related (menu menu2 : Menu)
    (h : ItemsRelated SameButFlags menu.items menu2.items) :
    menu_count menu2 = menu_count menu := by
  unfold menu_count
  apply menu_count_loop_congr
  apply List.ext_getElem?
  intro j
  simp only [List.getElem?_map]
  by_cases hj : j < menu.items.length
  · have hj2 : j < menu2.items.length := by
      have := h.1
      omega
    have hr := h.2 j _ _ (List.getElem?_eq_getElem hj) (List.getElem?_eq_getElem hj2)
    rw [List.getElem?_eq_getElem hj, List.getElem?_eq_getElem hj2]
    simp [hr.1, hr.2.1]
  · have hj2 : ¬ j < menu2.items.length := by
      have := h.1
      omega
    rw [List.getElem?_eq_none (by omega), List.getElem?_eq_none (by omega)]

theorem save_selection_items (cfg : MenuConfig) (menu : Menu) (selected : Nat) :
    (save_selection cfg menu selected).items = menu.items := by
  unfold save_selection
  split <;> rfl

/-- A key transition of `menu_handle` changes `MIF_CHECKED` bits of item flags only, as far
as the item array goes. -/
theorem menu_handle_key_related (cfg : MenuConfig) (fuel : Nat) (s : LoopState) (key : Nat)
    (ctl : Control) (h : menu_handle_key cfg fuel s key = Outcome.done ctl) :
    ItemsRelated (SameButChecked cfg) s.menu.items ctl.menu.items := by
  have hrefl := items_related_refl _ (same_but_checked_refl cfg) s.menu.items
  unfold menu_handle_key at h
  split at h
  · split at h
    · exact Outcome.noConfusion h
    · exact Outcome.noConfusion h
    · rename_i menu1 calls1 hsel
      have hrel := (menu_doselect_related cfg _ _ _ _ _ hsel).1
      split at h
      · dsimp only at h
        split at h
        · exact Outcome.noConfusion h
        · simp only [Outcome.done.injEq] at h
          subst h
          simpa [Control.menu, save_selection_items] using hrel
      · simp only [Outcome.done.injEq] at h
        subst h
        exact hrel
  · split at h
    · split at h
      · exact Outcome.noConfusion h
      · exact Outcome.noConfusion h
      · simp only [Outcome.done.injEq] at h
        subst h
        exact hrefl
    · split at h
      · split at h
        · exact Outcome.noConfusion h
        · exact Outcome.noConfusion h
        · simp only [Outcome.done.injEq] at h
          subst h
          exact hrefl
      · split at h
        · simp only [Outcome.done.injEq] at h
          subst h
          simpa [Control.menu, save_selection_items] using hrefl
        · simp only [Outcome.done.injEq] at h
          subst h
          exact hrefl

theorem update_flags_related (menu : Menu) (idx : Int) (f : Nat → Nat) (menu2 : Menu)
    (old : Nat) (h : update_flags menu idx f = Asserted.ok (menu2, old)) :
    ItemsRelated SameButFlags menu.items menu2.items ∧ { menu2 with items := menu.items } = menu := by
  unfold update_flags at h
  split at h
  · exact Asserted.noConfusion h
  · split at h
    · exact Asserted.noConfusion h
    · rename_i item hitem
      simp only [Asserted.ok.injEq, Prod.mk.injEq] at h
      obtain ⟨h1, _⟩ := h
      subst h1
      exact ⟨items_related_set _ (fun a => ⟨rfl, rfl, rfl⟩) _ _ item
        { item with flags := f item.flags } hitem ⟨rfl, rfl, rfl⟩, rfl⟩

/-- C19: whenever `menu_setFlags`, `menu_clearFlags`, `menu_doselect` or a key transition of
`menu_handle` completes (hooks not touching the menu), the item array has the same length,
and every entry has the same label, hook and user data as the entry at the same index
before, so `menu_count` is unchanged: only flags change.  `menu_doselect`, and with it every
key transition, changes no flag bit other than `MIF_CHECKED`: every flag constant that does
not overlap `MIF_CHECKED` (hidden, disabled, toggle, checkable, exclusion mask) reads the
same on every entry. -/
theorem operations_preserve_items (cfg : MenuConfig) (menu : Menu) :
    (∀ (idx : Int) (m : Nat) (menu2 : Menu) (old : Nat),
      menu_setFlags cfg menu idx m = Asserted.ok (menu2, old) →
      ItemsRelated SameButFlags menu.items menu2.items ∧ menu_count menu2 = menu_count menu) ∧
    (∀ (idx : Int) (m : Nat) (menu2 : Menu) (old : Nat),
      menu_clearFlags cfg menu idx m = Asserted.ok (menu2, old) →
      ItemsRelated SameButFlags menu.items menu2.items ∧ menu_count menu2 = menu_count menu) ∧
    (∀ (idx : Nat) (calls : List (Nat × Nat)) (menu2 : Menu) (calls2 : List (Nat × Nat)),
      menu_doselect cfg menu idx calls = Outcome.done (menu2, calls2) →
      ItemsRelated (SameButChecked cfg) menu.items menu2.items ∧
      menu_count menu2 = menu_count menu ∧
      ∀ (m j : Nat) (a b : MenuItem), cfg.MIF_CHECKED &&& m = 0 →
        menu.items[j]? = some a → menu2.items[j]? = some b → b.flags &&& m = a.flags &&& m) ∧
    (∀ (fuel first_item selected : Nat) (calls : List (Nat × Nat)) (key : Nat) (ctl : Control),
      menu_handle_key cfg fuel ⟨menu, first_item, selected, calls⟩ key = Outcome.done ctl →
      ItemsRelated (SameButChecked cfg) menu.items ctl.menu.items ∧
      menu_count ctl.menu = menu_count menu) := by
  have hweak : ∀ l1 l2, ItemsRelated (SameButChecked cfg) l1 l2 →
      ItemsRelated SameButFlags l1 l2 :=
    fun l1 l2 h => items_related_mono _ _ (fun a b hab => hab.1) l1 l2 h
  refine ⟨?_, ?_, ?_, ?_⟩
  · intro idx m menu2 old h
    simp only [menu_setFlags] at h
    split at h
    · exact Asserted.noConfusion h
    · exact Asserted.noConfusion h
    · have hrel := (update_flags_related menu idx _ menu2 old h).1
      exact ⟨hrel, menu_count_related menu menu2 hrel⟩
  · intro idx m menu2 old h
    simp only [menu_clearFlags] at h
    split at h
    · exact Asserted.noConfusion h
    · exact Asserted.noConfusion h
    · have hrel := (update_flags_related menu idx _ menu2 old h).1
      exact ⟨hrel, menu_count_related menu menu2 hrel⟩
  · intro idx calls menu2 calls2 h
    have hrel := (menu_doselect_related cfg menu idx calls menu2 calls2 h).1
    refine ⟨hrel, menu_count_related menu menu2 (hweak _ _ hrel), ?_⟩
    intro m j a b hm ha hb
    exact same_but_checked_and cfg a b m (hrel.2 j a b ha hb) hm
  · intro fuel first_item selected calls key ctl h
    have hrel := menu_handle_key_related cfg fuel _ key ctl h
    exact ⟨hrel, menu_count_related menu ctl.menu (hweak _ _ hrel)⟩

/-- Instance of `operations_preserve_items` on a sample menu: activation of item 0. -/
theorem operations_preserve_items_witness :
    menu_doselect bertosConfig radioMenu 0 []
      = Outcome.done ({ radioMenu with items := [⟨1, 0x306, 0, 10⟩, ⟨2, 0x205, 0, 20⟩,
          ⟨3, 0x203, 7, 30⟩, ⟨4, 0x1003, 8, 40⟩, ⟨5, 0x400, 9, 50⟩, ⟨0, 0, 0, 0⟩] }, []) ∧
    ItemsRelated (SameButChecked bertosConfig) radioMenu.items
      [⟨1, 0x306, 0, 10⟩, ⟨2, 0x205, 0, 20⟩, ⟨3, 0x203, 7, 30⟩, ⟨4, 0x1003, 8, 40⟩,
        ⟨5, 0x400, 9, 50⟩, ⟨0, 0, 0, 0⟩] ∧
    menu_count { radioMenu with items := [⟨1, 0x306, 0, 10⟩, ⟨2, 0x205, 0, 20⟩,
          ⟨3, 0x203, 7, 30⟩, ⟨4, 0x1003, 8, 40⟩, ⟨5, 0x400, 9, 50⟩, ⟨0, 0, 0, 0⟩] }
      = menu_count radioMenu :=
  ⟨by decide,
    ((operations_preserve_items bertosConfig radioMenu).2.2.1 0 []
      { radioMenu with items := [⟨1, 0x306, 0, 10⟩, ⟨2, 0x205, 0, 20⟩,
          ⟨3, 0x203, 7, 30⟩, ⟨4, 0x1003, 8, 40⟩, ⟨5, 0x400, 9, 50⟩, ⟨0, 0, 0, 0⟩] } []
      (by decide)).1,
    ((operations_preserve_items bertosConfig radioMenu).2.2.1 0 []
      { radioMenu with items := [⟨1, 0x306, 0, 10⟩, ⟨2, 0x205, 0, 20⟩,
          ⟨3, 0x203, 7, 30⟩, ⟨4, 0x1003, 8, 40⟩, ⟨5, 0x400, 9, 50⟩, ⟨0, 0, 0, 0⟩] } []
      (by decide)).2.1⟩

/-! ## Paginator: the loops that keep the selected item in the window -/

theorem to_uint8_of_lt (r : Nat) (h : r < 256) : to_uint8 (r : Int) = r := by
  unfold to_uint8
  omega

/-- The forward walker on an index of the menu, in terms of `menu_next_visible_item`. -/
theorem next_item_first (cfg : MenuConfig) (menu : Menu) (n : Nat) (index : Int) (fuel : Nat)
    (hcount : menu_count menu = some n) (hvis : ∃ v : Nat, v < n ∧ VisibleAt cfg menu v)
    (hlo : -1 ≤ index) (hhi : index < n) (hfuel : n ≤ fuel) :
    ∃ r : Nat, menu_next_visible_item cfg fuel menu index = Outcome.done (r : Int) ∧
      FirstVisibleAfter cfg menu n index r := by
  obtain ⟨r, hr, hfirst⟩ := next_visible_loop_first cfg menu n index fuel
    (menu_count_lt_length menu n hcount) hvis hlo hhi hfuel
  exact ⟨r, by simpa only [menu_next_visible_item, hcount] using hr, hfirst⟩

/-- The backward walker on an index of the menu, in terms of `menu_prev_visible_item`. -/
theorem prev_item_first (cfg : MenuConfig) (menu : Menu) (n : Nat) (index : Int) (fuel : Nat)
    (hcount : menu_count menu = some n) (hvis : ∃ v : Nat, v < n ∧ VisibleAt cfg menu v)
    (hlo : 0 ≤ index) (hhi : index ≤ n) (hfuel : n ≤ fuel) :
    ∃ r : Nat, menu_prev_visible_item cfg fuel menu index = Outcome.done (r : Int) ∧
      FirstVisibleBefore cfg menu n index r := by
  obtain ⟨r, hr, hfirst⟩ := prev_visible_loop_first cfg menu n index fuel
    (menu_count_lt_length menu n hcount) hvis hlo hhi hfuel
  exact ⟨r, by simpa only [menu_prev_visible_item, hcount] using hr, hfirst⟩

/-- Stepping back from `first` while a visible item `selected` lies below it lands between
the two. -/
theorem prev_item_towards (cfg : MenuConfig) (menu : Menu) (n first selected : Nat)
    (fuel : Nat) (hcount : menu_count menu = some n) (hfuel : n ≤ fuel)
    (hfirst : first < n) (hsel : selected < first) (hselv : VisibleAt cfg menu selected) :
    ∃ r : Nat, menu_prev_visible_item cfg fuel menu first = Outcome.done (r : Int) ∧
      selected ≤ r ∧ r < first ∧ VisibleAt cfg menu r := by
  obtain ⟨r, hr, hrn, hrv, hcase⟩ := prev_item_first cfg menu n first fuel hcount
    ⟨selected, by omega, hselv⟩ (by omega) (by omega) hfuel
  have hns := not_hidden_of_visible cfg menu selected hselv
  refine ⟨r, hr, ?_, ?_, hrv⟩
  · by_contra hcon
    rcases hcase with ⟨h1, h2⟩ | ⟨h1, h2, _⟩
    · exact hns (h2 selected (by omega) (by omega))
    · exact hns (h2 selected (by omega) (by omega))
  · rcases hcase with ⟨h1, _⟩ | ⟨h1, h2, _⟩
    · omega
    · exact absurd (h2 selected (by omega) (by omega)) hns

/-- Stepping forward from `first` while a visible item `selected` lies above it lands
between the two. -/
theorem next_item_towards (cfg : MenuConfig) (menu : Menu) (n first selected : Nat)
    (fuel : Nat) (hcount : menu_count menu = some n) (hfuel : n ≤ fuel)
    (hseln : selected < n) (hsel : first < selected) (hselv : VisibleAt cfg menu selected) :
    ∃ r : Nat, menu_next_visible_item cfg fuel menu first = Outcome.done (r : Int) ∧
      first < r ∧ r ≤ selected ∧ VisibleAt cfg menu r := by
  obtain ⟨r, hr, hrn, hrv, hcase⟩ := next_item_first cfg menu n first fuel hcount
    ⟨selected, hseln, hselv⟩ (by omega) (by omega) hfuel
  have hns := not_hidden_of_visible cfg menu selected hselv
  refine ⟨r, hr, ?_, ?_, hrv⟩
  · rcases hcase with ⟨h1, _⟩ | ⟨h1, h2, _⟩
    · omega
    · exact absurd (h2 selected (by omega) (by omega)) hns
  · by_contra hcon
    rcases hcase with ⟨h1, h2⟩ | ⟨h1, h2, _⟩
    · exact hns (h2 selected (by omega) (by omega))
    · exact hns (h2 selected (by omega) (by omega))

theorem frame_up_loop_stop (cfg : MenuConfig) (wfuel : Nat) (menu : Menu)
    (selected fuel first : Nat) (h : ¬ selected < first) :
    frame_up_loop cfg wfuel menu selected fuel first = Outcome.done first := by
  cases fuel <;> simp [frame_up_loop, h]

theorem frame_up_loop_step (cfg : MenuConfig) (wfuel : Nat) (menu : Menu)
    (selected fuel first : Nat) (r : Int) (h : selected < first)
    (hr : menu_prev_visible_item cfg wfuel menu first = Outcome.done r) :
    frame_up_loop cfg wfuel menu selected (fuel + 1) first
      = frame_up_loop cfg wfuel menu selected fuel (to_uint8 r) := by
  simp [frame_up_loop, h, hr]

theorem frame_down_loop_stop (cfg : MenuConfig) (wfuel : Nat) (menu : Menu)
    (page selected fuel first : Nat) (h : selected < first + page) :
    frame_down_loop cfg wfuel menu page selected fuel first = Outcome.done first := by
  have h2 : ¬ (selected ≥ first + page) := by omega
  cases fuel <;> simp [frame_down_loop, h2]

theorem frame_down_loop_step (cfg : MenuConfig) (wfuel : Nat) (menu : Menu)
    (page selected fuel first : Nat) (r : Int) (h : first + page ≤ selected)
    (hr : menu_next_visible_item cfg wfuel menu first = Outcome.done r) :
    frame_down_loop cfg wfuel menu page selected (fuel + 1) first
      = frame_down_loop cfg wfuel menu page selected fuel (to_uint8 r) := by
  have h2 : selected ≥ first + page := h
  simp [frame_down_loop, h2, hr]

/-- The first loop ends, with `first_item` unchanged if it was not above `selected` and equal
to `selected` otherwise. -/
theorem frame_up_loop_spec (cfg : MenuConfig) (menu : Menu) (n wfuel selected : Nat)
    (hcount : menu_count menu = some n) (hw : n ≤ wfuel)
    (hselv : VisibleAt cfg menu selected) (d : Nat) :
    ∀ (fuel first : Nat), first < n → first < 256 → first ≤ selected + d → d ≤ fuel →
      frame_up_loop cfg wfuel menu selected fuel first
        = Outcome.done (if selected < first then selected else first) := by
  induction d with
  | zero =>
    intro fuel first _ _ hle _
    have h : ¬ selected < first := by omega
    rw [frame_up_loop_stop cfg wfuel menu selected fuel first h, if_neg h]
  | succ d ih =>
    intro fuel first hfn hf8 hle hfuel
    by_cases h : selected < first
    · obtain ⟨k, rfl⟩ : ∃ k, fuel = k + 1 := ⟨fuel - 1, by omega⟩
      obtain ⟨r, hr, hsr, hrf, _⟩ :=
        prev_item_towards cfg menu n first selected wfuel hcount hw hfn h hselv
      rw [frame_up_loop_step cfg wfuel menu selected k first r h hr,
        to_uint8_of_lt r (by omega), ih k r (by omega) (by omega) (by omega) (by omega), if_pos h]
      by_cases h2 : selected < r
      · rw [if_pos h2]
      · rw [if_neg h2]
        congr 1
        omega
    · rw [frame_up_loop_stop cfg wfuel menu selected fuel first h, if_neg h]

/-- The second loop, started at or below `selected`, ends with `selected` in the window. -/
theorem frame_down_loop_spec (cfg : MenuConfig) (menu : Menu) (n wfuel page selected : Nat)
    (hcount : menu_count menu = some n) (hw : n ≤ wfuel) (hpage : 1 ≤ page)
    (hseln : selected < n) (hsel8 : selected < 256)
    (hselv : VisibleAt cfg menu selected) (d : Nat) :
    ∀ (fuel first : Nat), first ≤ selected → selected ≤ first + d → d ≤ fuel →
      VisibleAt cfg menu first →
      ∃ first2, frame_down_loop cfg wfuel menu page selected fuel first = Outcome.done first2 ∧
        first ≤ first2 ∧ first2 ≤ selected ∧ selected < first2 + page ∧
        VisibleAt cfg menu first2 := by
  induction d with
  | zero =>
    intro fuel first hle hge _ hv
    exact ⟨first, frame_down_loop_stop cfg wfuel menu page selected fuel first (by omega),
      le_refl _, hle, by omega, hv⟩
  | succ d ih =>
    intro fuel first hle hge hfuel hv
    by_cases h : selected < first + page
    · exact ⟨first, frame_down_loop_stop cfg wfuel menu page selected fuel first h,
        le_refl _, hle, h, hv⟩
    · obtain ⟨k, rfl⟩ : ∃ k, fuel = k + 1 := ⟨fuel - 1, by omega⟩
      obtain ⟨r, hr, hfr, hrs, hrv⟩ :=
        next_item_towards cfg menu n first selected wfuel hcount hw hseln (by omega) hselv
      obtain ⟨first2, hrun, h1, h2, h3, h4⟩ := ih k r hrs (by omega) (by omega) hrv
      refine ⟨first2, ?_, by omega, h2, h3, h4⟩
      rw [frame_down_loop_step cfg wfuel menu page selected k first r (by omega) hr,
        to_uint8_of_lt r (by omega)]
      exact hrun

/-- The two loops end with `selected` in the window. -/
theorem menu_handle_frame_spec (cfg : MenuConfig) (menu : Menu)
    (n fuel page first_item selected : Nat)
    (hcount : menu_count menu = some n) (hfuel : n ≤ fuel) (hpage : 1 ≤ page)
    (hseln : selected < n) (hselv : VisibleAt cfg menu selected) (hsel8 : selected < 256)
    (hfirstn : first_item < n) (hfirstv : VisibleAt cfg menu first_item)
    (hfirst8 : first_item < 256) :
    ∃ first2, menu_handle_frame cfg fuel menu page first_item selected = Outcome.done first2 ∧
      first2 ≤ selected ∧ selected < first2 + page ∧ first2 < n ∧
      ¬ HiddenAt cfg menu first2 := by
  have hup := frame_up_loop_spec cfg menu n fuel selected hcount hfuel hselv n fuel first_item
    hfirstn hfirst8 (by omega) hfuel
  have hv1 : VisibleAt cfg menu ((if selected < first_item then selected else first_item : Nat)) := by
    split
    · exact hselv
    · exact hfirstv
  obtain ⟨first2, hdown, _, h2, h3, h4⟩ :=
    frame_down_loop_spec cfg menu n fuel page selected hcount hfuel hpage hseln hsel8 hselv n
      fuel (if selected < first_item then selected else first_item)
      (by split <;> omega) (by omega) hfuel hv1
  refine ⟨first2, ?_, h2, h3, by omega, not_hidden_of_visible cfg menu first2 h4⟩
  simp only [menu_handle_frame, hup]
  exact hdown

/-- C14: for any non-hidden in-range `selected`, any non-hidden in-range previous
`first_item` (both `uint8_t` values) and any page capacity `≥ 1`, the two "keep selected
item visible" loops of `menu_handle` terminate (each within `count(menu)` passes), and on
exit `first_item ≤ selected < first_item + page_capacity`, with `first_item` still the
index of a non-hidden item of the menu. -/
theorem menu_handle_frame_converges (cfg : MenuConfig) (menu : Menu)
    (n fuel page first_item selected : Nat)
    (hcount : menu_count menu = some n) (hfuel : n ≤ fuel) (hpage : 1 ≤ page)
    (hseln : selected < n) (hselv : VisibleAt cfg menu selected) (hsel8 : selected < 256)
    (hfirstn : first_item < n) (hfirstv : VisibleAt cfg menu first_item)
    (hfirst8 : first_item < 256) :
    ∃ first2, menu_handle_frame cfg fuel menu page first_item selected = Outcome.done first2 ∧
      first2 ≤ selected ∧ selected < first2 + page ∧ first2 < n ∧
      ¬ HiddenAt cfg menu first2 :=
  menu_handle_frame_spec cfg menu n fuel page first_item selected hcount hfuel hpage hseln
    hselv hsel8 hfirstn hfirstv hfirst8

/-- Instance of `menu_handle_frame_converges`: five items, two rows, window at 3, selection
wrapped to 0. -/
theorem menu_handle_frame_converges_witness :
    menu_handle_frame bertosConfig 5 fiveMenu 2 3 0 = Outcome.done 0 ∧
    ∃ first2, menu_handle_frame bertosConfig 5 fiveMenu 2 3 0 = Outcome.done first2 ∧
      first2 ≤ 0 ∧ 0 < first2 + 2 ∧ first2 < 5 ∧ ¬ HiddenAt bertosConfig fiveMenu first2 :=
  ⟨by decide,
    menu_handle_frame_converges bertosConfig fiveMenu 5 5 2 3 0 (by decide) (by decide)
      (by decide) (by decide) ⟨0, by decide, by decide⟩ (by decide) (by decide)
      ⟨0, by decide, by decide⟩ (by decide)⟩

/-- C15, as amended: in one pass of the pagination step, `first_item` is moved by repeated
applications of `menu_prev_visible_item` / `menu_next_visible_item` until `selected` lies
in the window again: the pass ends within `count(menu)` passes through each loop, and when
the key event moved `selected` to an adjacent index (`selected ± 1`) of a converged window,
`first_item` changes by at most one application of a walker. -/
theorem menu_handle_frame_steps (cfg : MenuConfig) (menu : Menu)
    (n fuel page first_item old selected : Nat)
    (hcount : menu_count menu = some n) (hfuel : n ≤ fuel) (hpage : 1 ≤ page)
    (hseln : selected < n) (hselv : VisibleAt cfg menu selected) (hsel8 : selected < 256)
    (hfirstn : first_item < n) (hfirstv : VisibleAt cfg menu first_item)
    (hfirst8 : first_item < 256)
    (hold : first_item ≤ old ∧ old < first_item + page) :
    ∃ first2, menu_handle_frame cfg fuel menu page first_item selected = Outcome.done first2 ∧
      (selected = old + 1 ∨ selected + 1 = old →
        first2 = first_item ∨
        menu_prev_visible_item cfg fuel menu first_item = Outcome.done (first2 : Int) ∨
        menu_next_visible_item cfg fuel menu first_item = Outcome.done (first2 : Int)) := by
  obtain ⟨first2, hrun, _⟩ := menu_handle_frame_spec cfg menu n fuel page first_item selected
    hcount hfuel hpage hseln hselv hsel8 hfirstn hfirstv hfirst8
  refine ⟨first2, hrun, ?_⟩
  obtain ⟨k, hk⟩ : ∃ k, fuel = k + 1 := ⟨fuel - 1, by omega⟩
  subst hk
  have hup := frame_up_loop_spec cfg menu n (k + 1) selected hcount hfuel hselv n (k + 1)
    first_item
    hfirstn hfirst8 (by omega) hfuel
  simp only [menu_handle_frame, hup] at hrun
  intro hadj
  by_cases hlt : selected < first_item
  · -- the selection moved up out of the window: one step back
    have hfs : first_item = selected + 1 := by omega
    obtain ⟨r, hr, hsr, hrf, _⟩ :=
      prev_item_towards cfg menu n first_item selected (k + 1) hcount hfuel hfirstn hlt hselv
    have hrs : r = selected := by omega
    subst hrs
    rw [if_pos hlt, frame_down_loop_stop cfg (k + 1) menu page r (k + 1) r (by omega)] at hrun
    simp only [Outcome.done.injEq] at hrun
    subst hrun
    exact Or.inr (Or.inl hr)
  · rw [if_neg hlt] at hrun
    by_cases hin : selected < first_item + page
    · rw [frame_down_loop_stop cfg (k + 1) menu page selected (k + 1) first_item hin] at hrun
      simp only [Outcome.done.injEq] at hrun
      exact Or.inl hrun.symm
    · -- the selection moved down out of the window: one step forward
      obtain ⟨r, hr, hfr, hrs, _⟩ :=
        next_item_towards cfg menu n first_item selected (k + 1) hcount hfuel hseln (by omega)
          hselv
      have hstep := frame_down_loop_step cfg (k + 1) menu page selected k first_item r
        (by omega) hr
      rw [to_uint8_of_lt r (by omega),
        frame_down_loop_stop cfg (k + 1) menu page selected k r (by omega)] at hstep
      rw [hstep] at hrun
      simp only [Outcome.done.injEq] at hrun
      subst hrun
      exact Or.inr (Or.inr hr)

/-- Instance of `menu_handle_frame_steps`: five items, two rows, window at 1, the selection
moved from 2 to 3. -/
theorem menu_handle_frame_steps_witness :
    menu_handle_frame bertosConfig 5 fiveMenu 2 1 3 = Outcome.done 2 ∧
    ∃ first2, menu_handle_frame bertosConfig 5 fiveMenu 2 1 3 = Outcome.done first2 ∧
      (first2 = 1 ∨
        menu_prev_visible_item bertosConfig 5 fiveMenu (1 : Nat) = Outcome.done (first2 : Int) ∨
        menu_next_visible_item bertosConfig 5 fiveMenu (1 : Nat) = Outcome.done (first2 : Int)) :=
  ⟨by decide,
    match menu_handle_frame_steps bertosConfig fiveMenu 5 5 2 1 2 3 (by decide) (by decide)
      (by decide) (by decide) ⟨0, by decide, by decide⟩ (by decide) (by decide)
      ⟨0, by decide, by decide⟩ (by decide) (by decide) with
    | ⟨first2, hrun, hstep⟩ => ⟨first2, hrun, hstep (Or.inl (by decide))⟩⟩

/-- C15, counterexample: five visible items, two rows, converged window `first_item = 3`,
`selected = 4`.  A single `DOWN` wraps `selected` to 0, and the next pass of the pagination
step moves `first_item` from 3 to 0: three applications of `menu_prev_visible_item` (two
passes of the loop are not enough), where one application of a walker leads to 2 or 4. -/
theorem menu_handle_frame_jumps :
    items_per_page bertosConfig fiveMenu = Outcome.done 2 ∧
    menu_handle_key bertosConfig 5 ⟨fiveMenu, 3, 4, []⟩ bertosConfig.K_DOWN
      = Outcome.done (Control.running ⟨fiveMenu, 3, 0, []⟩) ∧
    menu_handle_frame bertosConfig 5 fiveMenu 2 3 0 = Outcome.done 0 ∧
    frame_up_loop bertosConfig 5 fiveMenu 0 2 3 = Outcome.timeout ∧
    frame_up_loop bertosConfig 5 fiveMenu 0 3 3 = Outcome.done 0 ∧
    menu_prev_visible_item bertosConfig 5 fiveMenu 3 = Outcome.done 2 ∧
    menu_next_visible_item bertosConfig 5 fiveMenu 3 = Outcome.done 4 := by
  refine ⟨by decide, by decide, by decide, by decide, by decide, by decide, by decide⟩

/-! ## Control loop: moving the selection, entry -/

/-- C13, as amended: on a key event with `UP` (and not `OK`) the control loop sets `selected`
to `menu_prev_visible_item(menu, selected)` converted to `uint8_t`, and with `DOWN` (and
neither `OK` nor `UP`) to `menu_next_visible_item(menu, selected)` converted to `uint8_t`;
the conversion changes nothing when the menu has at most 256 items.  In both cases the loop
keeps running and nothing else in the state changes (no item flag, not `menu.selected`).
On the items `[A plain, B toggle unchecked, C hidden]` with `selected = 0`, `DOWN` gives 1
and `DOWN` again gives 0. -/
theorem menu_handle_key_move (cfg : MenuConfig) (fuel : Nat) (s : LoopState) (key n : Nat)
    (hcount : menu_count s.menu = some n)
    (hvis : ∃ v : Nat, v < n ∧ VisibleAt cfg s.menu v)
    (hsel : s.selected < n) (hfuel : n ≤ fuel) (hok : key &&& cfg.K_OK = 0) :
    (key &&& cfg.K_UP ≠ 0 →
      ∃ r : Nat, menu_prev_visible_item cfg fuel s.menu (s.selected : Int)
          = Outcome.done (r : Int) ∧
        menu_handle_key cfg fuel s key
          = Outcome.done (Control.running { s with selected := to_uint8 (r : Int) }) ∧
        (n ≤ 256 → to_uint8 (r : Int) = r)) ∧
    (key &&& cfg.K_UP = 0 → key &&& cfg.K_DOWN ≠ 0 →
      ∃ r : Nat, menu_next_visible_item cfg fuel s.menu (s.selected : Int)
          = Outcome.done (r : Int) ∧
        menu_handle_key cfg fuel s key
          = Outcome.done (Control.running { s with selected := to_uint8 (r : Int) }) ∧
        (n ≤ 256 → to_uint8 (r : Int) = r)) ∧
    (menu_handle_key bertosConfig 3 ⟨sampleMenu, 0, 0, []⟩ bertosConfig.K_DOWN
        = Outcome.done (Control.running ⟨sampleMenu, 0, 1, []⟩) ∧
      menu_handle_key bertosConfig 3 ⟨sampleMenu, 0, 1, []⟩ bertosConfig.K_DOWN
        = Outcome.done (Control.running ⟨sampleMenu, 0, 0, []⟩)) := by
  refine ⟨?_, ?_, by decide, by decide⟩
  · intro hup
    obtain ⟨r, hr, hrn, _⟩ := prev_item_first cfg s.menu n s.selected fuel hcount hvis
      (by omega) (by omega) hfuel
    refine ⟨r, hr, ?_, fun h => to_uint8_of_lt r (by omega)⟩
    simp [menu_handle_key, hok, hup, hr]
  · intro hup hdown
    obtain ⟨r, hr, hrn, _⟩ := next_item_first cfg s.menu n s.selected fuel hcount hvis
      (by omega) (by omega) hfuel
    refine ⟨r, hr, ?_, fun h => to_uint8_of_lt r (by omega)⟩
    simp [menu_handle_key, hok, hup, hdown, hr]

/-- Instance of `menu_handle_key_move` on the scenario menu: `UP` from item 0. -/
theorem menu_handle_key_move_witness :
    menu_handle_key bertosConfig 3 ⟨sampleMenu, 0, 0, []⟩ bertosConfig.K_UP
      = Outcome.done (Control.running ⟨sampleMenu, 0, 1, []⟩) ∧
    ∃ r : Nat, menu_prev_visible_item bertosConfig 3 sampleMenu ((0 : Nat) : Int)
        = Outcome.done (r : Int) ∧
      menu_handle_key bertosConfig 3 ⟨sampleMenu, 0, 0, []⟩ bertosConfig.K_UP
        = Outcome.done (Control.running
            { (⟨sampleMenu, 0, 0, []⟩ : LoopState) with selected := to_uint8 (r : Int) }) ∧
      (3 ≤ 256 → to_uint8 (r : Int) = r) :=
  ⟨by decide,
    (menu_handle_key_move bertosConfig 3 ⟨sampleMenu, 0, 0, []⟩ bertosConfig.K_UP 3
      (by decide) ⟨0, by decide, 0, by decide, by decide⟩ (by decide) (by decide)
      (by decide)).1 (by decide)⟩

set_option maxRecDepth 100000 in
/-- C13, counterexample: in a menu of 257 items in which the next visible item after item 1
is item 256, `DOWN` at `selected = 1` sets `selected` to 0, not to 256, the value returned
by `menu_next_visible_item`. -/
theorem menu_handle_key_down_truncates :
    menu_next_visible_item bertosConfig 257 bigMenu 1 = Outcome.done 256 ∧
    menu_handle_key bertosConfig 257 ⟨bigMenu, 1, 1, []⟩ bertosConfig.K_DOWN
      = Outcome.done (Control.running ⟨bigMenu, 1, 0, []⟩) := by
  refine ⟨by decide, by decide⟩

/-- C16, as amended: on entry to `menu_handle`, for a menu of at most 256 items with
`0 ≤ menu.selected ≤ count(menu)`, `selected` and `first_item` are seeded to the first
visible item strictly after index `menu.selected - 1`, that is at or after index
`menu.selected`, in cyclic order. -/
theorem menu_handle_init_seed (cfg : MenuConfig) (menu : Menu) (n fuel : Nat)
    (calls : List (Nat × Nat)) (hcount : menu_count menu = some n)
    (hvis : ∃ v : Nat, v < n ∧ VisibleAt cfg menu v) (h256 : n ≤ 256)
    (hlo : 0 ≤ menu.selected) (hhi : menu.selected ≤ n) (hfuel : n ≤ fuel) :
    ∃ r : Nat, menu_handle_init cfg fuel menu calls = Outcome.done ⟨menu, r, r, calls⟩ ∧
      FirstVisibleAfter cfg menu n (menu.selected - 1) r := by
  obtain ⟨r, hr, hfirst⟩ := next_item_first cfg menu n (menu.selected - 1) fuel hcount hvis
    (by omega) (by omega) hfuel
  refine ⟨r, ?_, hfirst⟩
  have hrn := hfirst.1
  simp only [menu_handle_init, hr, to_uint8_of_lt r (by omega)]

/-- Instance of `menu_handle_init_seed`: the saved selection 2 is a hidden item. -/
theorem menu_handle_init_seed_witness :
    menu_handle_init bertosConfig 3 { sampleMenu with selected := 2 } []
      = Outcome.done ⟨{ sampleMenu with selected := 2 }, 0, 0, []⟩ ∧
    ∃ r : Nat, menu_handle_init bertosConfig 3 { sampleMenu with selected := 2 } []
        = Outcome.done ⟨{ sampleMenu with selected := 2 }, r, r, []⟩ ∧
      FirstVisibleAfter bertosConfig { sampleMenu with selected := 2 } 3 (2 - 1) r :=
  ⟨by decide,
    menu_handle_init_seed bertosConfig { sampleMenu with selected := 2 } 3 3 [] (by decide)
      ⟨0, by decide, 0, by decide, by decide⟩ (by decide) (by decide) (by decide) (by decide)⟩

/-- C16, counterexample: with `menu.selected = 1` on the scenario menu, item 0 (index
`menu.selected - 1`) is visible, yet `selected` and `first_item` are seeded to 1. -/
theorem menu_handle_init_skips_previous :
    resumeMenu.selected - 1 = 0 ∧
    VisibleAt bertosConfig resumeMenu (resumeMenu.selected - 1) ∧
    menu_handle_init bertosConfig 3 resumeMenu [] = Outcome.done ⟨resumeMenu, 1, 1, []⟩ :=
  ⟨by decide, ⟨0, by decide, by decide⟩, by decide⟩

/-! ## Control loop: the selection along a run, and save-selection -/

theorem visible_nonneg (cfg : MenuConfig) (menu : Menu) (r : Int)
    (h : VisibleAt cfg menu r) : 0 ≤ r := by
  obtain ⟨f, hf, _⟩ := h
  by_contra hcon
  simp [item_flags_at, hcon] at hf

/-- The forward loop returns an index below `total`, or 0. -/
theorem next_visible_loop_range (cfg : MenuConfig) (menu : Menu) (total : Int) (fuel : Nat) :
    ∀ (index r : Int), next_visible_loop cfg menu total fuel index = Outcome.done r →
      r < total ∨ r = 0 := by
  induction fuel with
  | zero => intro index r h; simp [next_visible_loop] at h
  | succ fuel ih =>
    intro index r h
    simp only [next_visible_loop] at h
    split at h
    · exact Outcome.noConfusion h
    · split at h
      · exact ih _ r h
      · simp only [Outcome.done.injEq] at h
        subst h
        split
        · exact Or.inr rfl
        · exact Or.inl (by omega)

/-- The backward loop, started at or below `total`, returns an index below `total`. -/
theorem prev_visible_loop_range (cfg : MenuConfig) (menu : Menu) (total : Int) (fuel : Nat) :
    ∀ (index r : Int), index ≤ total →
      prev_visible_loop cfg menu total fuel index = Outcome.done r → r < total := by
  induction fuel with
  | zero => intro index r _ h; simp [prev_visible_loop] at h
  | succ fuel ih =>
    intro index r hle h
    simp only [prev_visible_loop] at h
    split at h
    · exact Outcome.noConfusion h
    · split at h
      · refine ih _ r ?_ h
        split <;> omega
      · simp only [Outcome.done.injEq] at h
        subst h
        split <;> omega

/-- Entries that differ in `MIF_CHECKED` at most are visible together. -/
theorem visible_related (cfg : MenuConfig) (hsep : cfg.MIF_CHECKED &&& cfg.MIF_HIDDEN = 0)
    (menu menu2 : Menu) (h : ItemsRelated (SameButChecked cfg) menu.items menu2.items)
    (j : Int) (hv : VisibleAt cfg menu j) : VisibleAt cfg menu2 j := by
  have h0 := visible_nonneg cfg menu j hv
  obtain ⟨f, hf, hz⟩ := hv
  simp only [item_flags_at, h0, if_true] at hf
  have hlt : j.toNat < menu.items.length := by
    by_contra hcon
    rw [List.getElem?_eq_none (by omega)] at hf
    exact Option.noConfusion hf
  have hlt2 : j.toNat < menu2.items.length := by
    have := h.1
    omega
  rw [List.getElem?_eq_getElem hlt] at hf
  simp only [Option.map_some', Option.some.injEq] at hf
  have hrel := h.2 j.toNat _ _ (List.getElem?_eq_getElem hlt) (List.getElem?_eq_getElem hlt2)
  refine ⟨(menu2.items[j.toNat]).flags, ?_, ?_⟩
  · simp [item_flags_at, h0, List.getElem?_eq_getElem hlt2]
  · rw [same_but_checked_and cfg _ _ _ hrel hsep, hf]
    exact hz

theorem visible_of_same_items (cfg : MenuConfig) (menu menu2 : Menu)
    (h : menu2.items = menu.items) (j : Int) (hv : VisibleAt cfg menu j) :
    VisibleAt cfg menu2 j := by
  obtain ⟨f, hf, hz⟩ := hv
  exact ⟨f, by simpa [item_flags_at, h] using hf, hz⟩

/-- A key transition that stays in the loop keeps the selection valid. -/
theorem menu_handle_key_valid (cfg : MenuConfig)
    (hsep : cfg.MIF_CHECKED &&& cfg.MIF_HIDDEN = 0) (n flags fuel : Nat) (h256 : n ≤ 256)
    (s : LoopState) (key : Nat) (s2 : LoopState) (hs : SelectionValid cfg n flags s)
    (h : menu_handle_key cfg fuel s key = Outcome.done (Control.running s2)) :
    SelectionValid cfg n flags s2 := by
  obtain ⟨hcount, hflags, hv, hrange⟩ := hs
  unfold menu_handle_key at h
  split at h
  · split at h
    · exact Outcome.noConfusion h
    · exact Outcome.noConfusion h
    · rename_i menu1 calls1 hsel
      obtain ⟨hrel, hsame⟩ := menu_doselect_related cfg _ _ _ _ _ hsel
      split at h
      · dsimp only at h
        split at h
        · exact Outcome.noConfusion h
        · simp only [Outcome.done.injEq] at h
          exact Control.noConfusion h
      · simp only [Outcome.done.injEq, Control.running.injEq] at h
        subst h
        refine ⟨?_, ?_, visible_related cfg hsep _ _ hrel _ hv, hrange⟩
        · rw [menu_count_related s.menu menu1
            (items_related_mono _ _ (fun a b hab => hab.1) _ _ hrel)]
          exact hcount
        · have := congrArg Menu.flags hsame
          simp only at this
          rw [this]
          exact hflags
  · split at h
    · split at h
      · exact Outcome.noConfusion h
      · exact Outcome.noConfusion h
      · rename_i r hr
        simp only [Outcome.done.injEq, Control.running.injEq] at h
        subst h
        simp only [menu_prev_visible_item, hcount] at hr
        have hrv := prev_visible_loop_visible_result cfg s.menu n fuel _ r hr
        have hr0 := visible_nonneg cfg s.menu r hrv
        have hrn := prev_visible_loop_range cfg s.menu n fuel _ r (by omega) hr
        obtain ⟨m, rfl⟩ := Int.eq_ofNat_of_zero_le hr0
        rw [to_uint8_of_lt m (by omega)]
        exact ⟨hcount, hflags, hrv, Or.inl (show m < n by omega)⟩
    · split at h
      · split at h
        · exact Outcome.noConfusion h
        · exact Outcome.noConfusion h
        · rename_i r hr
          simp only [Outcome.done.injEq, Control.running.injEq] at h
          subst h
          simp only [menu_next_visible_item, hcount] at hr
          have hrv := next_visible_loop_visible_result cfg s.menu n fuel _ r hr
          have hr0 := visible_nonneg cfg s.menu r hrv
          have hrn := next_visible_loop_range cfg s.menu n fuel _ r hr
          obtain ⟨m, rfl⟩ := Int.eq_ofNat_of_zero_le hr0
          rw [to_uint8_of_lt m (by omega)]
          exact ⟨hcount, hflags, hrv, (show m < n ∨ m = 0 by omega)⟩
      · split at h
        · simp only [Outcome.done.injEq] at h
          exact Control.noConfusion h
        · simp only [Outcome.done.injEq, Control.running.injEq] at h
          subst h
          exact ⟨hcount, hflags, hv, hrange⟩

/-- An iteration that stays in the loop keeps the selection valid. -/
theorem menu_handle_step_valid (cfg : MenuConfig)
    (hsep : cfg.MIF_CHECKED &&& cfg.MIF_HIDDEN = 0) (n flags fuel page : Nat) (h256 : n ≤ 256)
    (s : LoopState) (key : Nat) (s2 : LoopState) (hs : SelectionValid cfg n flags s)
    (h : menu_handle_step cfg fuel page s key = Outcome.done (Control.running s2)) :
    SelectionValid cfg n flags s2 := by
  unfold menu_handle_step at h
  split at h
  · exact Outcome.noConfusion h
  · exact Outcome.noConfusion h
  · rename_i first1 _
    exact menu_handle_key_valid cfg hsep n flags fuel h256 { s with first_item := first1 } key
      s2 ⟨hs.1, hs.2.1, hs.2.2.1, hs.2.2.2⟩ h

/-- The selection stays valid along a run. -/
theorem menu_handle_run_valid (cfg : MenuConfig)
    (hsep : cfg.MIF_CHECKED &&& cfg.MIF_HIDDEN = 0) (n flags fuel page : Nat) (h256 : n ≤ 256)
    (keys : List Nat) : ∀ (s s2 : LoopState), SelectionValid cfg n flags s →
      menu_handle_run cfg fuel page s keys = Outcome.done (Control.running s2) →
      SelectionValid cfg n flags s2 := by
  induction keys with
  | nil =>
    intro s s2 hs h
    simp only [menu_handle_run, Outcome.done.injEq, Control.running.injEq] at h
    subst h
    exact hs
  | cons key keys ih =>
    intro s s2 hs h
    simp only [menu_handle_run] at h
    split at h
    · exact Outcome.noConfusion h
    · exact Outcome.noConfusion h
    · simp only [Outcome.done.injEq] at h
      exact Control.noConfusion h
    · rename_i s1 hstep
      exact ih s1 s2
        (menu_handle_step_valid cfg hsep n flags fuel page h256 s key s1 hs hstep) h

/-- A run that is still in the loop after `keys` continues with the next key event. -/
theorem menu_handle_run_append (cfg : MenuConfig) (fuel page : Nat) (key : Nat)
    (keys : List Nat) :
    ∀ (s s2 : LoopState),
      menu_handle_run cfg fuel page s keys = Outcome.done (Control.running s2) →
      menu_handle_run cfg fuel page s (keys ++ [key])
        = menu_handle_run cfg fuel page s2 [key] := by
  induction keys with
  | nil =>
    intro s s2 h
    simp only [menu_handle_run, Outcome.done.injEq, Control.running.injEq] at h
    subst h
    rfl
  | cons k keys ih =>
    intro s s2 h
    cases hstep : menu_handle_step cfg fuel page s k with
    | fault => simp [menu_handle_run, hstep] at h
    | timeout => simp [menu_handle_run, hstep] at h
    | done ctl =>
      cases ctl with
      | exiting result menu calls => simp [menu_handle_run, hstep] at h
      | running s1 =>
        have h1 : menu_handle_run cfg fuel page s1 keys
            = Outcome.done (Control.running s2) := by
          simpa only [menu_handle_run, hstep] using h
        have h2 : menu_handle_run cfg fuel page s (k :: (keys ++ [key]))
            = menu_handle_run cfg fuel page s1 (keys ++ [key]) := by
          simp only [menu_handle_run, hstep]
        rw [List.cons_append, h2]
        exact ih s1 s2 h1

/-- The selection is valid on entry. -/
theorem menu_handle_init_valid (cfg : MenuConfig) (menu : Menu) (n fuel : Nat)
    (calls : List (Nat × Nat)) (s : LoopState) (hcount : menu_count menu = some n)
    (h256 : n ≤ 256) (h : menu_handle_init cfg fuel menu calls = Outcome.done s) :
    SelectionValid cfg n menu.flags s := by
  unfold menu_handle_init at h
  split at h
  · exact Outcome.noConfusion h
  · exact Outcome.noConfusion h
  · rename_i r hr
    simp only [Outcome.done.injEq] at h
    subst h
    simp only [menu_next_visible_item, hcount] at hr
    have hrv := next_visible_loop_visible_result cfg menu n fuel _ r hr
    have hr0 := visible_nonneg cfg menu r hrv
    have hrn := next_visible_loop_range cfg menu n fuel _ r hr
    obtain ⟨m, rfl⟩ := Int.eq_ofNat_of_zero_le hr0
    rw [to_uint8_of_lt m (by omega)]
    exact ⟨hcount, rfl, hrv, (show m < n ∨ m = 0 by omega)⟩

/-- A key event with `CANCEL` only leaves a menu that is not top-level. -/
theorem cancel_key_leaves_menu (cfg : MenuConfig) (fuel : Nat) (s : LoopState) (key : Nat)
    (hok : key &&& cfg.K_OK = 0) (hup : key &&& cfg.K_UP = 0) (hdown : key &&& cfg.K_DOWN = 0)
    (hcancel : key &&& cfg.K_CANCEL ≠ 0) (htop : s.menu.flags &&& cfg.MF_TOPLEVEL = 0) :
    menu_handle_key cfg fuel s key
      = Outcome.done (Control.exiting 0 (save_selection cfg s.menu s.selected) s.calls) := by
  simp [menu_handle_key, hok, hup, hdown, hcancel, htop]

/-- Started just below a visible entry that is an item of the menu or entry 0, the forward
loop returns that entry in its first iteration. -/
theorem next_visible_loop_at_visible (cfg : MenuConfig) (menu : Menu) (n k sel : Nat)
    (hv : VisibleAt cfg menu (sel : Int)) (hrange : sel < n ∨ sel = 0) :
    next_visible_loop cfg menu n (k + 1) ((sel : Int) - 1) = Outcome.done (sel : Int) := by
  obtain ⟨f, hf, hz⟩ := hv
  have hidx : (if (sel : Int) - 1 + 1 ≥ (n : Int) then (0 : Int) else (sel : Int) - 1 + 1)
      = (sel : Int) := by
    split <;> omega
  simp only [next_visible_loop, hidx, hf]
  simp [hz]

/-- C12, as amended: round trip of save-selection for a menu of at most 256 items that is
not top-level and has `MF_SAVESEL` set: when a run of `menu_handle` is in its loop with
current selection `s` after some key events and leaves on the next key event, a `CANCEL`,
it returns 0 with `menu.selected = s`, and a subsequent `menu_handle` on the menu as it was
left starts with `selected` (and `first_item`) equal to `s`. -/
theorem save_selection_round_trip (cfg : MenuConfig)
    (hsep : cfg.MIF_CHECKED &&& cfg.MIF_HIDDEN = 0) (menu : Menu) (n fuel : Nat)
    (calls : List (Nat × Nat)) (keys : List Nat) (key : Nat) (s : LoopState) (result : Nat)
    (menu2 : Menu) (calls2 : List (Nat × Nat))
    (hcount : menu_count menu = some n) (h256 : n ≤ 256) (hfuel : 1 ≤ fuel)
    (htop : menu.flags &&& cfg.MF_TOPLEVEL = 0) (hsave : menu.flags &&& cfg.MF_SAVESEL ≠ 0)
    (hok : key &&& cfg.K_OK = 0) (hup : key &&& cfg.K_UP = 0) (hdown : key &&& cfg.K_DOWN = 0)
    (hcancel : key &&& cfg.K_CANCEL ≠ 0)
    (hrun : menu_handle cfg fuel menu calls keys = Outcome.done (Control.running s))
    (hexit : menu_handle cfg fuel menu calls (keys ++ [key])
      = Outcome.done (Control.exiting result menu2 calls2)) :
    result = 0 ∧ menu2.selected = (s.selected : Int) ∧
      menu_handle_init cfg fuel menu2 calls2
        = Outcome.done ⟨menu2, s.selected, s.selected, calls2⟩ := by
  unfold menu_handle at hrun hexit
  cases hrows : items_per_page cfg menu with
  | fault => simp [hrows] at hrun
  | timeout => simp [hrows] at hrun
  | done page =>
    simp only [hrows] at hrun hexit
    cases hinit : menu_handle_init cfg fuel menu calls with
    | fault => simp [hinit] at hrun
    | timeout => simp [hinit] at hrun
    | done s0 =>
      simp only [hinit] at hrun hexit
      have hvalid := menu_handle_run_valid cfg hsep n menu.flags fuel page h256 keys s0 s
        (menu_handle_init_valid cfg menu n fuel calls s0 hcount h256 hinit) hrun
      obtain ⟨hcount2, hflags, hv, hrange⟩ := hvalid
      rw [menu_handle_run_append cfg fuel page key keys s0 s hrun] at hexit
      simp only [menu_handle_run, menu_handle_step] at hexit
      cases hframe : menu_handle_frame cfg fuel s.menu page s.first_item s.selected with
      | fault => simp [hframe] at hexit
      | timeout => simp [hframe] at hexit
      | done first1 =>
        have hkey := cancel_key_leaves_menu cfg fuel { s with first_item := first1 } key
          hok hup hdown hcancel (by simpa [hflags] using htop)
        simp only [hframe, hkey, Outcome.done.injEq, Control.exiting.injEq] at hexit
        obtain ⟨h1, h2, h3⟩ := hexit
        have hsaved : save_selection cfg s.menu s.selected
            = { s.menu with selected := (s.selected : Int) } := by
          have hs : (s.menu.flags &&& cfg.MF_SAVESEL != 0) = true := by
            rw [hflags]
            simpa using hsave
          simp only [save_selection, hs, if_true]
        rw [hsaved] at h2
        subst h2
        subst h3
        refine ⟨h1.symm, rfl, ?_⟩
        obtain ⟨k, rfl⟩ : ∃ k, fuel = k + 1 := ⟨fuel - 1, by omega⟩
        have hcount3 : menu_count { s.menu with selected := (s.selected : Int) } = some n :=
          hcount2
        have hloop := next_visible_loop_at_visible cfg
          { s.menu with selected := (s.selected : Int) } n k s.selected
          (visible_of_same_items cfg s.menu _ rfl _ hv) hrange
        simp only [menu_handle_init, menu_next_visible_item, hcount3, hloop,
          to_uint8_of_lt s.selected (by omega)]

/-- Instance of `save_selection_round_trip`: the scenario menu with `MF_SAVESEL`, left by
`CANCEL` after one `DOWN`. -/
theorem save_selection_round_trip_witness :
    menu_handle bertosConfig 3 saveSelMenu [] [0x04, 0x08]
      = Outcome.done (Control.exiting 0 { saveSelMenu with selected := 1 } []) ∧
    (0 = 0 ∧ ({ saveSelMenu with selected := 1 } : Menu).selected = ((1 : Nat) : Int) ∧
      menu_handle_init bertosConfig 3 { saveSelMenu with selected := 1 } []
        = Outcome.done ⟨{ saveSelMenu with selected := 1 }, 1, 1, []⟩) :=
  ⟨by decide,
    save_selection_round_trip bertosConfig (by decide) saveSelMenu 3 3 [] [0x04] 0x08
      ⟨saveSelMenu, 0, 1, []⟩ 0 { saveSelMenu with selected := 1 } [] (by decide) (by decide)
      (by decide) (by decide) (by decide) (by decide) (by decide) (by decide) (by decide)
      (by decide) (by decide)⟩

set_option maxRecDepth 100000 in
/-- C12, counterexample: a menu of 257 items, not top-level, with `MF_SAVESEL`; the items 1
and 256 are the visible ones and `menu.selected` is 1.  After `DOWN` the current selection
is `256` cut to the 8 bits of `selected`, that is 0; `CANCEL` stores `menu.selected = 0`;
but item 0 is hidden and a subsequent `menu_handle` starts with `selected = 1`. -/
theorem truncated_selection_breaks_round_trip :
    menu_count bigMenu = some 257 ∧
    menu_handle bertosConfig 257 bigMenu [] [0x04]
      = Outcome.done (Control.running ⟨bigMenu, 1, 0, []⟩) ∧
    menu_handle bertosConfig 257 bigMenu [] [0x04, 0x08]
      = Outcome.done (Control.exiting 0 { bigMenu with selected := 0 } []) ∧
    menu_handle_init bertosConfig 257 { bigMenu with selected := 0 } []
      = Outcome.done ⟨{ bigMenu with selected := 0 }, 1, 1, []⟩ := by
  refine ⟨by decide, by decide, by decide, by decide⟩

/-! ## STM32 clock driver: `pll_clock` -/

/-- The multiplier loop with divisor 1, when `PLL_VCO * 16` does not overflow: it stops at
the least multiplier from `mul` on that reaches `CPU_FREQ`, or at 17. -/
theorem pll_mul_loop_spec (w CPU_FREQ PLL_VCO : Nat) (hfit : PLL_VCO * 16 < 2 ^ w)
    (fuel : Nat) : ∀ mul : Nat, 17 ≤ mul + fuel → mul ≤ 17 →
      mul ≤ pll_mul_loop w CPU_FREQ PLL_VCO 1 fuel mul ∧
      pll_mul_loop w CPU_FREQ PLL_VCO 1 fuel mul ≤ 17 ∧
      (pll_mul_loop w CPU_FREQ PLL_VCO 1 fuel mul ≤ 16 →
        CPU_FREQ ≤ PLL_VCO * pll_mul_loop w CPU_FREQ PLL_VCO 1 fuel mul) ∧
      ∀ m, mul ≤ m → m < pll_mul_loop w CPU_FREQ PLL_VCO 1 fuel mul →
        PLL_VCO * m < CPU_FREQ := by
  induction fuel with
  | zero =>
    intro mul h1 h2
    have hm : mul = 17 := by omega
    subst hm
    simp only [pll_mul_loop]
    exact ⟨le_refl _, le_refl _, fun h => absurd h (by decide), fun m h3 h4 => by omega⟩
  | succ fuel ih =>
    intro mul h1 h2
    by_cases hle : mul ≤ 16
    · have hprod : (PLL_VCO / 1 * mul) % 2 ^ w = PLL_VCO * mul := by
        rw [Nat.div_one]
        apply Nat.mod_eq_of_lt
        calc PLL_VCO * mul ≤ PLL_VCO * 16 := Nat.mul_le_mul_left _ hle
          _ < 2 ^ w := hfit
      by_cases hc : CPU_FREQ ≤ PLL_VCO * mul
      · simp only [pll_mul_loop, hle, if_true, hprod, hc]
        exact ⟨le_refl _, by omega, fun _ => trivial, fun m h3 h4 => by omega⟩
      · simp only [pll_mul_loop, hle, if_true, hprod, hc, if_false]
        obtain ⟨h3, h4, h5, h6⟩ := ih (mul + 1) (by omega) (by omega)
        refine ⟨by omega, h4, h5, ?_⟩
        intro m hm1 hm2
        by_cases hmm : m = mul
        · subst hmm
          omega
        · exact h6 m (by omega) hm2
    · have hm : mul = 17 := by omega
      subst hm
      simp only [pll_mul_loop, hle, if_false]
      exact ⟨le_refl _, le_refl _, fun h => absurd h (by decide), fun m h3 h4 => by omega⟩

/-- The divisor loop always runs down to `div = 0`, and `mul` is what the multiplier loop
gives for `div = 1`. -/
theorem pll_div_loop_eq (w CPU_FREQ PLL_VCO : Nat) :
    pll_div_loop w CPU_FREQ PLL_VCO 3 2 0 = (0, pll_mul_loop w CPU_FREQ PLL_VCO 1 16 2) := by
  simp [pll_div_loop]

theorem shift8_or_zero_mod (mul : Nat) (h : mul ≤ 17) :
    ((mul <<< 8) ||| 0) % 2 ^ 16 = (mul <<< 8) ||| 0 ∧ ((mul <<< 8) ||| 0) &&& 0xff = 0 := by
  interval_cases mul <;> decide

/-- C24, as amended: for all values of the constants `CPU_FREQ` and `PLL_VCO` such that
`PLL_VCO * 16` does not overflow the unsigned type (of `w` bits) in which `PLL_VCO / div *
mul` is evaluated, `pll_clock()` returns `(mul << 8) | div` with `div = 0` and `mul` the
least `m` in `[2, 16]` with `CPU_FREQ ≤ PLL_VCO * m`, or 17 if there is none; hence the
divider field `((clock & 0xff) << 1 | 1) << 16` of `rcc_pll_config` is `1 << 16`. -/
theorem pll_clock_spec (w CPU_FREQ PLL_VCO : Nat) (hfit : PLL_VCO * 16 < 2 ^ w) :
    ∃ mul : Nat, pll_clock w CPU_FREQ PLL_VCO = (mul <<< 8) ||| 0 ∧
      2 ≤ mul ∧ mul ≤ 17 ∧
      (mul ≤ 16 → CPU_FREQ ≤ PLL_VCO * mul) ∧
      (∀ m, 2 ≤ m → m < mul → PLL_VCO * m < CPU_FREQ) ∧
      rcc_pll_div (pll_clock w CPU_FREQ PLL_VCO) = 1 <<< 16 := by
  obtain ⟨h1, h2, h3, h4⟩ := pll_mul_loop_spec w CPU_FREQ PLL_VCO hfit 16 2 (by decide)
    (by decide)
  have hmod := shift8_or_zero_mod _ h2
  have hclock : pll_clock w CPU_FREQ PLL_VCO
      = (pll_mul_loop w CPU_FREQ PLL_VCO 1 16 2 <<< 8) ||| 0 := by
    simp only [pll_clock, pll_div_loop_eq]
    exact hmod.1
  refine ⟨_, hclock, h1, h2, h3, h4, ?_⟩
  simp only [rcc_pll_div, hclock, hmod.2]
  decide

/-- Instance of `pll_clock_spec`: an 8 MHz input and a 72 MHz CPU clock give `mul = 9`. -/
theorem pll_clock_spec_witness :
    pll_clock 32 72000000 8000000 = (9 <<< 8) ||| 0 ∧
    ∃ mul : Nat, pll_clock 32 72000000 8000000 = (mul <<< 8) ||| 0 ∧
      2 ≤ mul ∧ mul ≤ 17 ∧
      (mul ≤ 16 → 72000000 ≤ 8000000 * mul) ∧
      (∀ m, 2 ≤ m → m < mul → 8000000 * m < 72000000) ∧
      rcc_pll_div (pll_clock 32 72000000 8000000) = 1 <<< 16 :=
  ⟨by decide, pll_clock_spec 32 72000000 8000000 (by decide)⟩

/-- C24, counterexample: with 32-bit arithmetic, `PLL_VCO = 2^30` and `CPU_FREQ = 2^32 - 1`,
the products `PLL_VCO * mul` wrap around from `mul = 4` on and never reach `CPU_FREQ`:
`pll_clock()` returns `17 << 8`, although `CPU_FREQ ≤ PLL_VCO * 4`. -/
theorem pll_clock_overflow :
    pll_clock 32 4294967295 1073741824 = (17 <<< 8) ||| 0 ∧
    4294967295 ≤ 1073741824 * 4 ∧
    (1073741824 / 1 * 4) % 2 ^ 32 = 0 := by
  refine ⟨by decide, by decide, by decide⟩

/-! ## Control loop: priority of the key bits -/

/-- C23: the key mask is dispatched with priority `OK > UP > DOWN > CANCEL`; the branch taken
is the first one whose test succeeds and no other.  A mask with the `OK` bit activates
the selected item, whatever its other bits (so a mask with both `OK` and `CANCEL` does what
`OK` alone does and never cancels); without `OK`, a mask with `UP` moves the selection
back; without `OK` and `UP`, a mask with `DOWN` moves it forward; without these three, a
mask with `CANCEL` on a menu that is not top-level leaves the menu; and in every other
case (none of the four bits, or `CANCEL` on a top-level menu) the loop keeps running in the
very same state. -/
theorem menu_handle_key_priority (cfg : MenuConfig) (fuel : Nat) (s : LoopState) (key : Nat) :
    (key &&& cfg.K_OK ≠ 0 →
      (menu_handle_key cfg fuel s key =
        match menu_doselect cfg s.menu s.selected s.calls with
        | Outcome.fault => Outcome.fault
        | Outcome.timeout => Outcome.timeout
        | Outcome.done (menu1, calls1) =>
          if not_flags_and_sticky cfg menu1 != 0 then
            match (save_selection cfg menu1 s.selected).items[s.selected]? with
            | none => Outcome.fault
            | some item =>
              Outcome.done (Control.exiting item.userdata
                (save_selection cfg menu1 s.selected) calls1)
          else Outcome.done (Control.running { s with menu := menu1, calls := calls1 })) ∧
      ∀ key2, key2 &&& cfg.K_OK ≠ 0 →
        menu_handle_key cfg fuel s key = menu_handle_key cfg fuel s key2) ∧
    (key &&& cfg.K_OK = 0 → key &&& cfg.K_UP ≠ 0 →
      menu_handle_key cfg fuel s key =
        match menu_prev_visible_item cfg fuel s.menu (s.selected : Int) with
        | Outcome.fault => Outcome.fault
        | Outcome.timeout => Outcome.timeout
        | Outcome.done r => Outcome.done (Control.running { s with selected := to_uint8 r })) ∧
    (key &&& cfg.K_OK = 0 → key &&& cfg.K_UP = 0 → key &&& cfg.K_DOWN ≠ 0 →
      menu_handle_key cfg fuel s key =
        match menu_next_visible_item cfg fuel s.menu (s.selected : Int) with
        | Outcome.fault => Outcome.fault
        | Outcome.timeout => Outcome.timeout
        | Outcome.done r => Outcome.done (Control.running { s with selected := to_uint8 r })) ∧
    (key &&& cfg.K_OK = 0 → key &&& cfg.K_UP = 0 → key &&& cfg.K_DOWN = 0 →
      key &&& cfg.K_CANCEL ≠ 0 → s.menu.flags &&& cfg.MF_TOPLEVEL = 0 →
      menu_handle_key cfg fuel s key
        = Outcome.done (Control.exiting 0 (save_selection cfg s.menu s.selected) s.calls)) ∧
    (key &&& cfg.K_OK = 0 → key &&& cfg.K_UP = 0 → key &&& cfg.K_DOWN = 0 →
      key &&& cfg.K_CANCEL = 0 ∨ s.menu.flags &&& cfg.MF_TOPLEVEL ≠ 0 →
      menu_handle_key cfg fuel s key = Outcome.done (Control.running s)) := by
  have hok : ∀ k, k &&& cfg.K_OK ≠ 0 →
      menu_handle_key cfg fuel s k =
        match menu_doselect cfg s.menu s.selected s.calls with
        | Outcome.fault => Outcome.fault
        | Outcome.timeout => Outcome.timeout
        | Outcome.done (menu1, calls1) =>
          if not_flags_and_sticky cfg menu1 != 0 then
            match (save_selection cfg menu1 s.selected).items[s.selected]? with
            | none => Outcome.fault
            | some item =>
              Outcome.done (Control.exiting item.userdata
                (save_selection cfg menu1 s.selected) calls1)
          else Outcome.done (Control.running { s with menu := menu1, calls := calls1 }) := by
    intro k hk
    have hk2 : (k &&& cfg.K_OK != 0) = true := by simpa using hk
    simp only [menu_handle_key, hk2, if_true]
  refine ⟨?_, ?_, ?_, ?_, ?_⟩
  · intro h
    refine ⟨hok key h, ?_⟩
    intro key2 h2
    rw [hok key h, hok key2 h2]
  · intro h1 h2
    simp [menu_handle_key, h1, h2]
  · intro h1 h2 h3
    simp [menu_handle_key, h1, h2, h3]
  · intro h1 h2 h3 h4 h5
    simp [menu_handle_key, h1, h2, h3, h4, h5]
  · intro h1 h2 h3 h4
    rcases h4 with h4 | h4
    · simp [menu_handle_key, h1, h2, h3, h4]
    · simp [menu_handle_key, h1, h2, h3, h4]

/-- Instance of `menu_handle_key_priority`: on the scenario menu with `MF_SAVESEL`, the mask
`OK | CANCEL` does what `OK` does (item 1 gets checked, the loop goes on), whereas
`CANCEL` alone leaves the menu; a mask of other bits only changes nothing. -/
theorem menu_handle_key_priority_witness :
    menu_handle_key bertosConfig 3 ⟨saveSelMenu, 0, 1, []⟩ 0x0A
      = menu_handle_key bertosConfig 3 ⟨saveSelMenu, 0, 1, []⟩ 0x02 ∧
    menu_handle_key bertosConfig 3 ⟨saveSelMenu, 0, 1, []⟩ 0x0A
      = Outcome.done (Control.running
          ⟨{ saveSelMenu with items :=
              [⟨1, 0, 0, 10⟩, ⟨2, 0x500, 0, 20⟩, ⟨3, 0x800, 0, 30⟩, ⟨0, 0, 0, 0⟩] }, 0, 1, []⟩) ∧
    menu_handle_key bertosConfig 3 ⟨saveSelMenu, 0, 1, []⟩ 0x08
      = Outcome.done (Control.exiting 0 { saveSelMenu with selected := 1 } []) ∧
    menu_handle_key bertosConfig 3 ⟨saveSelMenu, 0, 1, []⟩ 0x30
      = Outcome.done (Control.running ⟨saveSelMenu, 0, 1, []⟩) :=
  ⟨((menu_handle_key_priority bertosConfig 3 ⟨saveSelMenu, 0, 1, []⟩ 0x0A).1 (by decide)).2
      0x02 (by decide),
    by decide, by decide,
    (menu_handle_key_priority bertosConfig 3 ⟨saveSelMenu, 0, 1, []⟩ 0x30).2.2.2.2
      (by decide) (by decide) (by decide) (Or.inl (by decide))⟩

/-! ## Control loop: the indices along a run -/

/-- A key transition that stays in the loop leaves `first_item` and every field of the menu
but the item array as they are. -/
theorem menu_handle_key_keeps (cfg : MenuConfig) (fuel : Nat) (s : LoopState) (key : Nat)
    (s2 : LoopState) (h : menu_handle_key cfg fuel s key = Outcome.done (Control.running s2)) :
    s2.first_item = s.first_item ∧ { s2.menu with items := s.menu.items } = s.menu := by
  unfold menu_handle_key at h
  split at h
  · split at h
    · exact Outcome.noConfusion h
    · exact Outcome.noConfusion h
    · rename_i menu1 calls1 hsel
      obtain ⟨_, hsame⟩ := menu_doselect_related cfg _ _ _ _ _ hsel
      split at h
      · dsimp only at h
        split at h
        · exact Outcome.noConfusion h
        · simp only [Outcome.done.injEq] at h
          exact Control.noConfusion h
      · simp only [Outcome.done.injEq, Control.running.injEq] at h
        subst h
        exact ⟨rfl, hsame⟩
  · split at h
    · split at h
      · exact Outcome.noConfusion h
      · exact Outcome.noConfusion h
      · simp only [Outcome.done.injEq, Control.running.injEq] at h
        subst h
        exact ⟨rfl, rfl⟩
    · split at h
      · split at h
        · exact Outcome.noConfusion h
        · exact Outcome.noConfusion h
        · simp only [Outcome.done.injEq, Control.running.injEq] at h
          subst h
          exact ⟨rfl, rfl⟩
      · split at h
        · simp only [Outcome.done.injEq] at h
          exact Control.noConfusion h
        · simp only [Outcome.done.injEq, Control.running.injEq] at h
          subst h
          exact ⟨rfl, rfl⟩

/-- With a font of height 0, `menu_handle` divides by zero at its entry. -/
theorem menu_handle_font_height_zero (cfg : MenuConfig) (fuel : Nat) (menu : Menu)
    (calls : List (Nat × Nat)) (keys : List Nat) (h : menu.font_height = 0) :
    menu_handle cfg fuel menu calls keys = Outcome.fault := by
  simp [menu_handle, items_per_page, h]

/-- The page capacity is computed exactly when the font height is not 0. -/
theorem items_per_page_done (cfg : MenuConfig) (menu : Menu) (page : Nat)
    (h : items_per_page cfg menu = Outcome.done page) : menu.font_height ≠ 0 := by
  intro h0
  simp [items_per_page, h0] at h

/-- The page capacity depends on the fields of the menu other than the item array. -/
theorem items_per_page_of_same (cfg : MenuConfig) (menu menu2 : Menu)
    (h : { menu2 with items := menu.items } = menu) :
    items_per_page cfg menu2 = items_per_page cfg menu := by
  have h1 := congrArg Menu.bitmap_height h
  have h2 := congrArg Menu.font_height h
  have h3 := congrArg Menu.title h
  simp only at h1 h2 h3
  simp only [items_per_page, h1, h2, h3]

/-- The page capacity computed at the entry is the one of the menu all along a run. -/
theorem menu_handle_run_page (cfg : MenuConfig) (fuel page : Nat) (keys : List Nat) :
    ∀ (s s2 : LoopState), items_per_page cfg s.menu = Outcome.done page →
      menu_handle_run cfg fuel page s keys = Outcome.done (Control.running s2) →
      items_per_page cfg s2.menu = Outcome.done page := by
  induction keys with
  | nil =>
    intro s s2 hs h
    simp only [menu_handle_run, Outcome.done.injEq, Control.running.injEq] at h
    subst h
    exact hs
  | cons key keys ih =>
    intro s s2 hs h
    simp only [menu_handle_run] at h
    split at h
    · exact Outcome.noConfusion h
    · exact Outcome.noConfusion h
    · simp only [Outcome.done.injEq] at h
      exact Control.noConfusion h
    · rename_i s1 hstep
      refine ih s1 s2 ?_ h
      unfold menu_handle_step at hstep
      split at hstep
      · exact Outcome.noConfusion hstep
      · exact Outcome.noConfusion hstep
      · rename_i first1 _
        obtain ⟨_, hsame⟩ := menu_handle_key_keeps cfg fuel { s with first_item := first1 }
          key s1 hstep
        rw [items_per_page_of_same cfg s.menu s1.menu hsame]
        exact hs

/-- A key transition that stays in the loop keeps both indices valid. -/
theorem menu_handle_key_loop_valid (cfg : MenuConfig)
    (hsep : cfg.MIF_CHECKED &&& cfg.MIF_HIDDEN = 0) (n fuel : Nat) (h255 : n ≤ 255)
    (s : LoopState) (key : Nat) (s2 : LoopState) (hs : LoopValid cfg n s)
    (h : menu_handle_key cfg fuel s key = Outcome.done (Control.running s2)) :
    LoopValid cfg n s2 := by
  obtain ⟨hcount, ⟨hseln, hselv⟩, hfirstn, hfirstv⟩ := hs
  obtain ⟨hc2, _, hv2, hr2⟩ := menu_handle_key_valid cfg hsep n s.menu.flags fuel (by omega)
    s key s2 ⟨hcount, rfl, hselv, Or.inl hseln⟩ h
  obtain ⟨hfirst, _⟩ := menu_handle_key_keeps cfg fuel s key s2 h
  have hrel := menu_handle_key_related cfg fuel s key _ h
  refine ⟨hc2, ⟨by omega, hv2⟩, by omega, ?_⟩
  rw [hfirst]
  exact visible_related cfg hsep s.menu s2.menu hrel _ hfirstv

/-- An iteration that stays in the loop keeps both indices valid. -/
theorem menu_handle_step_loop_valid (cfg : MenuConfig)
    (hsep : cfg.MIF_CHECKED &&& cfg.MIF_HIDDEN = 0) (n page fuel : Nat) (h255 : n ≤ 255)
    (hpage : 1 ≤ page) (hfuel : n ≤ fuel)
    (s : LoopState) (key : Nat) (s2 : LoopState) (hs : LoopValid cfg n s)
    (h : menu_handle_step cfg fuel page s key = Outcome.done (Control.running s2)) :
    LoopValid cfg n s2 := by
  obtain ⟨hcount, ⟨hseln, hselv⟩, hfirstn, hfirstv⟩ := hs
  obtain ⟨first2, hframe, _, _, hf2n, hf2v⟩ := menu_handle_frame_spec cfg s.menu n fuel page
    s.first_item s.selected hcount hfuel hpage hseln hselv (by omega) hfirstn hfirstv (by omega)
  have hlen := menu_count_lt_length s.menu n hcount
  have hvis2 : VisibleAt cfg s.menu (first2 : Int) := by
    rcases hidden_or_visible cfg s.menu first2 (by omega) (by omega) with hh | hh
    · exact absurd hh hf2v
    · exact hh
  simp only [menu_handle_step, hframe] at h
  exact menu_handle_key_loop_valid cfg hsep n fuel h255 { s with first_item := first2 }
    key s2 ⟨hcount, ⟨hseln, hselv⟩, hf2n, hvis2⟩ h

/-- Both indices stay valid along a run. -/
theorem menu_handle_run_loop_valid (cfg : MenuConfig)
    (hsep : cfg.MIF_CHECKED &&& cfg.MIF_HIDDEN = 0) (n page fuel : Nat) (h255 : n ≤ 255)
    (hpage : 1 ≤ page) (hfuel : n ≤ fuel)
    (keys : List Nat) : ∀ (s s2 : LoopState), LoopValid cfg n s →
      menu_handle_run cfg fuel page s keys = Outcome.done (Control.running s2) →
      LoopValid cfg n s2 := by
  induction keys with
  | nil =>
    intro s s2 hs h
    simp only [menu_handle_run, Outcome.done.injEq, Control.running.injEq] at h
    subst h
    exact hs
  | cons key keys ih =>
    intro s s2 hs h
    simp only [menu_handle_run] at h
    split at h
    · exact Outcome.noConfusion h
    · exact Outcome.noConfusion h
    · simp only [Outcome.done.injEq] at h
      exact Control.noConfusion h
    · rename_i s1 hstep
      exact ih s1 s2
        (menu_handle_step_loop_valid cfg hsep n page fuel h255 hpage hfuel s key s1 hs hstep) h

/-- The forward walker from any index at or above `-1`: it returns an item of the menu. -/
theorem next_item_in_range (cfg : MenuConfig) (menu : Menu) (n : Nat) (index : Int) (fuel : Nat)
    (hcount : menu_count menu = some n) (hvis : ∃ v : Nat, v < n ∧ VisibleAt cfg menu v)
    (hlo : -1 ≤ index) (hfuel : n ≤ fuel) :
    ∃ r : Nat, menu_next_visible_item cfg fuel menu index = Outcome.done (r : Int) ∧
      r < n ∧ VisibleAt cfg menu r := by
  by_cases hhi : index < n
  · obtain ⟨r, hr, hrn, hrv, _⟩ := next_item_first cfg menu n index fuel hcount hvis hlo hhi
      hfuel
    exact ⟨r, hr, hrn, hrv⟩
  · obtain ⟨v, hvn, _⟩ := hvis
    obtain ⟨r, hr, hrn, hrv, _⟩ := next_item_first cfg menu n (-1) fuel hcount
      ⟨v, hvn, by assumption⟩ (le_refl _) (by omega) hfuel
    refine ⟨r, ?_, hrn, hrv⟩
    simp only [menu_next_visible_item, hcount] at hr ⊢
    rw [next_visible_loop_wrap cfg menu n fuel index (by omega) (by omega)]
    exact hr

/-- C22: reachable-state invariant of the control loop.  For a menu of at most 255 items, at
least one of them visible (so the menu has between 1 and 255 items), with
`menu.selected ≥ 0`, for which the entry of `menu_handle` computes a page capacity
`items_per_page = page` of at least 1 (the font height is not 0, so the division is
defined), hook calls being recorded and leaving the menu alone: the entry of `menu_handle`
seeds `selected` and `first_item` with the index of a visible item of the menu and enters
the loop, and in every state the loop reaches, whatever the key events, `selected` and
`first_item` are indices below `count(menu)` of visible items, the two windowing loops end
with such a `first_item` (the one given to the layout) with `selected` in its window, and
every call of a walker from an index of the menu returns an index below `count(menu)`,
which the conversion to 8 bits leaves as it is. -/
theorem menu_handle_indices_valid (cfg : MenuConfig)
    (hsep : cfg.MIF_CHECKED &&& cfg.MIF_HIDDEN = 0) (menu : Menu) (n fuel page : Nat)
    (calls : List (Nat × Nat)) (hcount : menu_count menu = some n) (h255 : n ≤ 255)
    (hvis : ∃ v : Nat, v < n ∧ VisibleAt cfg menu v) (hsel : 0 ≤ menu.selected)
    (hrows : items_per_page cfg menu = Outcome.done page) (hpage : 1 ≤ page)
    (hfuel : n ≤ fuel) :
    menu.font_height ≠ 0 ∧
    (∃ r : Nat, menu_next_visible_item cfg fuel menu (menu.selected - 1)
        = Outcome.done (r : Int) ∧
      r < n ∧ VisibleAt cfg menu r ∧ to_uint8 (r : Int) = r ∧
      menu_handle cfg fuel menu calls []
        = Outcome.done (Control.running ⟨menu, r, r, calls⟩)) ∧
    ∀ (keys : List Nat) (s : LoopState),
      menu_handle cfg fuel menu calls keys = Outcome.done (Control.running s) →
      menu_count s.menu = some n ∧
      items_per_page cfg s.menu = Outcome.done page ∧
      (s.selected < n ∧ VisibleAt cfg s.menu (s.selected : Int)) ∧
      (s.first_item < n ∧ VisibleAt cfg s.menu (s.first_item : Int)) ∧
      (∃ first2 : Nat,
        menu_handle_frame cfg fuel s.menu page s.first_item s.selected
          = Outcome.done first2 ∧
        first2 < n ∧ VisibleAt cfg s.menu (first2 : Int) ∧
        first2 ≤ s.selected ∧ s.selected < first2 + page) ∧
      (∀ index : Nat, index < n →
        (∃ r : Nat, menu_prev_visible_item cfg fuel s.menu (index : Int)
            = Outcome.done (r : Int) ∧ r < n ∧ to_uint8 (r : Int) = r) ∧
        (∃ r : Nat, menu_next_visible_item cfg fuel s.menu (index : Int)
            = Outcome.done (r : Int) ∧ r < n ∧ to_uint8 (r : Int) = r)) := by
  obtain ⟨r, hr, hrn, hrv⟩ := next_item_in_range cfg menu n (menu.selected - 1) fuel hcount
    hvis (by omega) hfuel
  have hinit : menu_handle_init cfg fuel menu calls = Outcome.done ⟨menu, r, r, calls⟩ := by
    simp only [menu_handle_init, hr, to_uint8_of_lt r (by omega)]
  refine ⟨items_per_page_done cfg menu page hrows,
    ⟨r, hr, hrn, hrv, to_uint8_of_lt r (by omega), ?_⟩, ?_⟩
  · simp only [menu_handle, hrows, hinit, menu_handle_run]
  intro keys s hrun
  simp only [menu_handle, hrows, hinit] at hrun
  obtain ⟨hc, ⟨hseln, hselv⟩, hfirstn, hfirstv⟩ :=
    menu_handle_run_loop_valid cfg hsep n page fuel h255 hpage hfuel keys
      ⟨menu, r, r, calls⟩ s ⟨hcount, ⟨hrn, hrv⟩, hrn, hrv⟩ hrun
  refine ⟨hc, ?_, ⟨hseln, hselv⟩, ⟨hfirstn, hfirstv⟩, ?_, ?_⟩
  · exact menu_handle_run_page cfg fuel page keys ⟨menu, r, r, calls⟩ s hrows hrun
  · obtain ⟨first2, hframe, hw1, hw2, hf2n, hf2v⟩ := menu_handle_frame_spec cfg s.menu n fuel
      page s.first_item s.selected hc hfuel hpage hseln hselv
      (by omega) hfirstn hfirstv (by omega)
    have hlen := menu_count_lt_length s.menu n hc
    refine ⟨first2, hframe, hf2n, ?_, hw1, hw2⟩
    rcases hidden_or_visible cfg s.menu first2 (by omega) (by omega) with hh | hh
    · exact absurd hh hf2v
    · exact hh
  · intro index hindex
    constructor
    · obtain ⟨q, hq, hqn, _⟩ := prev_item_first cfg s.menu n index fuel hc
        ⟨s.selected, hseln, hselv⟩ (by omega) (by omega) hfuel
      exact ⟨q, hq, hqn, to_uint8_of_lt q (by omega)⟩
    · obtain ⟨q, hq, hqn, _⟩ := next_item_first cfg s.menu n index fuel hc
        ⟨s.selected, hseln, hselv⟩ (by omega) (by omega) hfuel
      exact ⟨q, hq, hqn, to_uint8_of_lt q (by omega)⟩

/-- Instance of `menu_handle_indices_valid`: the scenario menu with `MF_SAVESEL` (font height
8, three rows), after `DOWN` and `OK`; the loop is in the state with `first_item = 0`,
`selected = 1` and item 1 checked. -/
theorem menu_handle_indices_valid_witness :
    items_per_page bertosConfig saveSelMenu = Outcome.done 3 ∧
    menu_handle bertosConfig 3 saveSelMenu [] [0x04, 0x02]
      = Outcome.done (Control.running
          ⟨{ saveSelMenu with items :=
              [⟨1, 0, 0, 10⟩, ⟨2, 0x500, 0, 20⟩, ⟨3, 0x800, 0, 30⟩, ⟨0, 0, 0, 0⟩] }, 0, 1, []⟩) ∧
    (1 < 3 ∧ VisibleAt bertosConfig { saveSelMenu with items :=
        [⟨1, 0, 0, 10⟩, ⟨2, 0x500, 0, 20⟩, ⟨3, 0x800, 0, 30⟩, ⟨0, 0, 0, 0⟩] } ((1 : Nat) : Int)) ∧
    (0 < 3 ∧ VisibleAt bertosConfig { saveSelMenu with items :=
        [⟨1, 0, 0, 10⟩, ⟨2, 0x500, 0, 20⟩, ⟨3, 0x800, 0, 30⟩, ⟨0, 0, 0, 0⟩] } ((0 : Nat) : Int)) :=
  have h := (menu_handle_indices_valid bertosConfig (by decide) saveSelMenu 3 3 3 []
    (by decide) (by decide) ⟨0, by decide, 0, by decide, by decide⟩ (by decide) (by decide)
    (by decide) (by decide)).2.2 [0x04, 0x02]
    ⟨{ saveSelMenu with items :=
        [⟨1, 0, 0, 10⟩, ⟨2, 0x500, 0, 20⟩, ⟨3, 0x800, 0, 30⟩, ⟨0, 0, 0, 0⟩] }, 0, 1, []⟩
    (by decide)
  ⟨by decide, by decide, h.2.2.1, h.2.2.2.1⟩

/-! ## Drawing the menu -/

/-- What `menu_count` has found: the sentinel at its result, proper items before. -/
theorem menu_count_loop_inv (items : List MenuItem) :
    ∀ (c m : Nat), menu_count_loop items c = some m →
      (∃ s, items[m - c]? = some s ∧ s.label = 0 ∧ s.hook = 0) ∧
      ∀ (i : Nat) (item : MenuItem), i < m - c → items[i]? = some item →
        (item.label != 0 || item.hook != 0) = true := by
  induction items with
  | nil => intro c m h; simp [menu_count_loop] at h
  | cons item rest ih =>
    intro c m h
    simp only [menu_count_loop] at h
    split at h
    · rename_i hs
      simp only [Option.some.injEq] at h
      subst h
      refine ⟨⟨item, by simp, ?_, ?_⟩, fun i it hi => absurd hi (by omega)⟩
      · simpa using (show item.label = 0 ∧ item.hook = 0 by simpa using hs).1
      · simpa using (show item.label = 0 ∧ item.hook = 0 by simpa using hs).2
    · rename_i hs
      have hb := menu_count_loop_bound rest (c + 1) m h
      obtain ⟨⟨s, hs1, hs2, hs3⟩, hbefore⟩ := ih (c + 1) m h
      have hm : m - c = (m - (c + 1)) + 1 := by omega
      refine ⟨⟨s, ?_, hs2, hs3⟩, ?_⟩
      · rw [hm, List.getElem?_cons_succ]
        exact hs1
      · intro i it hi hit
        cases i with
        | zero =>
          simp only [List.getElem?_cons_zero, Option.some.injEq] at hit
          subst hit
          have hs2 : item.label = 0 → ¬ item.hook = 0 := by simpa using hs
          have hor : ¬ item.label = 0 ∨ ¬ item.hook = 0 := by
            by_cases hl : item.label = 0
            · exact Or.inr (hs2 hl)
            · exact Or.inl hl
          simpa using hor
        | succ j =>
          rw [List.getElem?_cons_succ] at hit
          exact hbefore j it (by omega) hit

theorem menu_count_inv (menu : Menu) (n : Nat) (h : menu_count menu = some n) :
    (∃ s, menu.items[n]? = some s ∧ s.label = 0 ∧ s.hook = 0) ∧
    ∀ (i : Nat) (item : MenuItem), i < n → menu.items[i]? = some item →
      (item.label != 0 || item.hook != 0) = true := by
  simpa using menu_count_loop_inv menu.items 0 n h

theorem visible_entry_iff (cfg : MenuConfig) (menu : Menu) (i : Nat) :
    visible_entry cfg menu i = true ↔ VisibleAt cfg menu (i : Int) := by
  unfold visible_entry VisibleAt item_flags_at
  cases h : menu.items[i]? with
  | none => simp [h]
  | some item => simp [h]

/-- The loop of `menu_layout` started inside the menu draws the visible items of the
window. -/
theorem layout_loop_spec (cfg : MenuConfig) (lcfg : LayoutConfig) (menu : Menu)
    (n first_item : Nat) (selected : Int) (hcount : menu_count menu = some n) :
    ∀ (passes c ypos : Nat), first_item + c ≤ n →
      layout_loop cfg lcfg menu first_item selected passes c ypos
        = Outcome.done (draw_rows cfg lcfg menu selected
            (window_indices cfg menu (first_item + c) (min passes (n - (first_item + c))))
            ypos) := by
  obtain ⟨⟨s, hs, hsl, hsh⟩, hbefore⟩ := menu_count_inv menu n hcount
  have hlen := menu_count_lt_length menu n hcount
  intro passes
  induction passes with
  | zero =>
    intro c ypos _
    simp [layout_loop, window_indices, draw_rows]
  | succ passes ih =>
    intro c ypos hle
    have hidx : (0 : Int) ≤ (first_item : Int) + (c : Int) := by omega
    have htn : ((first_item : Int) + (c : Int)).toNat = first_item + c := by omega
    simp only [layout_loop, hidx, if_true, htn]
    by_cases hp : first_item + c = n
    · have hz : min (passes + 1) (n - (first_item + c)) = 0 := by omega
      rw [hz, hp, hs]
      simp [hsl, hsh, window_indices, draw_rows]
    · have hlt : first_item + c < n := by omega
      have hin : first_item + c < menu.items.length := by omega
      have hget : menu.items[first_item + c]? = some (menu.items[first_item + c]) :=
        List.getElem?_eq_getElem hin
      have hitem := hbefore _ _ hlt hget
      have hm : min (passes + 1) (n - (first_item + c))
          = min passes (n - (first_item + (c + 1))) + 1 := by omega
      have hcast : ((c : Int) + 1) = ((c + 1 : Nat) : Int) := by omega
      rw [hget, hm]
      simp only [hitem, Bool.not_true, Bool.false_eq_true, if_false, hcast]
      have hwin : window_indices cfg menu (first_item + c)
            (min passes (n - (first_item + (c + 1))) + 1)
          = if visible_entry cfg menu (first_item + c) = true then
              (first_item + c) :: window_indices cfg menu (first_item + (c + 1))
                (min passes (n - (first_item + (c + 1))))
            else window_indices cfg menu (first_item + (c + 1))
                (min passes (n - (first_item + (c + 1)))) := by
        simp only [window_indices, List.range'_succ, List.filter_cons]
        rfl
      rw [hwin]
      by_cases hv : (menu.items[first_item + c]).flags &&& cfg.MIF_HIDDEN = 0
      · have hve : visible_entry cfg menu (first_item + c) = true := by
          simp [visible_entry, hget, hv]
        rw [if_pos hve]
        simp only [hv, bne_self_eq_false, Bool.not_false, if_true, ih (c + 1) (ypos + 1) (by omega),
          draw_rows, hget]
        simp
      · have hve : ¬ visible_entry cfg menu (first_item + c) = true := by
          simp [visible_entry, hget, hv]
        rw [if_neg hve]
        have hb : (!((menu.items[first_item + c]).flags &&& cfg.MIF_HIDDEN != 0)) = false := by
          simp [hv]
        simp only [hb, Bool.false_eq_true, if_false]
        exact ih (c + 1) ypos (by omega)

theorem window_indices_mem (cfg : MenuConfig) (menu : Menu) (start len i : Nat) :
    i ∈ window_indices cfg menu start len
      ↔ start ≤ i ∧ i < start + len ∧ VisibleAt cfg menu (i : Int) := by
  simp only [window_indices, List.mem_filter, List.mem_range'_1, visible_entry_iff]
  tauto

theorem window_indices_pairwise (cfg : MenuConfig) (menu : Menu) (start len : Nat) :
    (window_indices cfg menu start len).Pairwise (fun a b => a < b) :=
  List.Pairwise.filter _ (List.pairwise_lt_range' start len)

/-- The rows drawn for a list of indices of entries of the array: one call per index, on
consecutive rows. -/
theorem draw_rows_spec (cfg : MenuConfig) (lcfg : LayoutConfig) (menu : Menu)
    (selected : Int) :
    ∀ (idxs : List Nat) (row : Nat), (∀ i ∈ idxs, ∃ item, menu.items[i]? = some item) →
      (draw_rows cfg lcfg menu selected idxs row).length = idxs.length ∧
      ∀ (k i : Nat), idxs[k]? = some i →
        ∃ item, menu.items[i]? = some item ∧
          (draw_rows cfg lcfg menu selected idxs row)[k]?
            = some (layout_item_call cfg lcfg (row + k) (i : Int) selected item) := by
  intro idxs
  induction idxs with
  | nil =>
    intro row _
    exact ⟨rfl, fun k i h => by simp at h⟩
  | cons a rest ih =>
    intro row hall
    obtain ⟨item, hitem⟩ := hall a (List.mem_cons_self a rest)
    obtain ⟨hlen, hrows⟩ := ih (row + 1) (fun i hi => hall i (List.mem_cons_of_mem a hi))
    have hdraw : draw_rows cfg lcfg menu selected (a :: rest) row
        = layout_item_call cfg lcfg row (a : Int) selected item
          :: draw_rows cfg lcfg menu selected rest (row + 1) := by
      simp only [draw_rows, hitem]
    rw [hdraw]
    refine ⟨by simp [hlen], ?_⟩
    intro k i hk
    cases k with
    | zero =>
      simp only [List.getElem?_cons_zero, Option.some.injEq] at hk
      subst hk
      exact ⟨item, hitem, by simp⟩
    | succ k =>
      rw [List.getElem?_cons_succ] at hk
      obtain ⟨item2, hitem2, hcall⟩ := hrows k i hk
      refine ⟨item2, hitem2, ?_⟩
      rw [List.getElem?_cons_succ, hcall, Nat.add_assoc, Nat.add_comm 1 k]

/-- The row of an item has the style `STYLEF_INVERT` exactly when the item is the selected
one. -/
theorem layout_item_call_inverted (cfg : MenuConfig) (lcfg : LayoutConfig)
    (hstyle : lcfg.InvertSeparate) (ypos : Nat) (index selected : Int) (item : MenuItem) :
    (layout_item_call cfg lcfg ypos index selected item).style &&& lcfg.STYLEF_INVERT ≠ 0
      ↔ index = selected := by
  obtain ⟨hne, hfill, _⟩ := hstyle
  unfold layout_item_call
  by_cases h : index = selected
  · simp only [h, if_true, iff_true]
    rw [Nat.and_comm, Nat.and_or_distrib_left, Nat.and_self, Nat.and_comm, hfill, Nat.or_zero]
    exact hne
  · simp only [h, if_false, iff_false, not_not]
    exact hfill

/-- C21: rendering without `CONFIG_MENU_SMOOTH`.  For a menu of `n` items and a converged
window (`first_item ≤ selected < first_item + items_per_page`, `selected` below `n` and
visible), `menu_layout` returns after drawing the title on row 0, if there is one, and then
one row for each index of the list `idxs`, which holds exactly the indices `i` of visible
items with `first_item ≤ i < first_item + items_per_page` and `i < n`, in increasing
order: the item `idxs[k]` is drawn on row `k` (on row `1 + k` if there is a title).  No
other call is made, so no hidden item and no entry at or past the sentinel is drawn.
Exactly one of the calls, the one for the item `selected`, has the style `STYLEF_INVERT`. -/
theorem menu_layout_window (cfg : MenuConfig) (lcfg : LayoutConfig)
    (hstyle : lcfg.InvertSeparate) (menu : Menu) (n first_item page selected : Nat)
    (hcount : menu_count menu = some n) (hle : first_item ≤ selected)
    (hlt : selected < first_item + page) (hseln : selected < n)
    (hselv : VisibleAt cfg menu (selected : Int)) :
    ∃ (idxs : List Nat) (calls : List DrawCall),
      menu_layout cfg lcfg menu (first_item : Int) (page : Int) (selected : Int)
        = Outcome.done (layout_title lcfg menu ++ calls) ∧
      (∀ i : Nat, i ∈ idxs
        ↔ first_item ≤ i ∧ i < first_item + page ∧ i < n ∧ VisibleAt cfg menu (i : Int)) ∧
      idxs.Pairwise (fun a b => a < b) ∧
      calls.length = idxs.length ∧
      (∀ (k i : Nat), idxs[k]? = some i →
        ∃ item, menu.items[i]? = some item ∧
          calls[k]? = some (layout_item_call cfg lcfg ((if menu.title != 0 then 1 else 0) + k)
            (i : Int) (selected : Int) item)) ∧
      ∃ k : Nat, idxs[k]? = some selected ∧
        ∀ (j : Nat) (c : DrawCall), (layout_title lcfg menu ++ calls)[j]? = some c →
          (c.style &&& lcfg.STYLEF_INVERT ≠ 0 ↔ j = (layout_title lcfg menu).length + k) := by
  have hlen := menu_count_lt_length menu n hcount
  have hloop := layout_loop_spec cfg lcfg menu n first_item selected hcount page 0
    (if menu.title != 0 then 1 else 0) (by omega)
  have hmem : ∀ i : Nat, i ∈ window_indices cfg menu first_item (min page (n - first_item))
      ↔ first_item ≤ i ∧ i < first_item + page ∧ i < n ∧ VisibleAt cfg menu (i : Int) := by
    intro i
    rw [window_indices_mem]
    constructor
    · rintro ⟨h1, h2, h3⟩
      exact ⟨h1, by omega, by omega, h3⟩
    · rintro ⟨h1, h2, h3, h4⟩
      exact ⟨h1, by omega, h4⟩
  have hpair := window_indices_pairwise cfg menu first_item (min page (n - first_item))
  have hall : ∀ i ∈ window_indices cfg menu first_item (min page (n - first_item)),
      ∃ item, menu.items[i]? = some item := by
    intro i hi
    have hin := ((hmem i).1 hi).2.2.1
    exact ⟨menu.items[i], List.getElem?_eq_getElem (by omega)⟩
  obtain ⟨hlength, hrows⟩ := draw_rows_spec cfg lcfg menu selected _
    (if menu.title != 0 then 1 else 0) hall
  have hnodup : (window_indices cfg menu first_item (min page (n - first_item))).Nodup :=
    hpair.imp (fun h => Nat.ne_of_lt h)
  obtain ⟨k, hklt, hk⟩ := List.getElem_of_mem ((hmem selected).2 ⟨hle, hlt, hseln, hselv⟩)
  have hk2 : (window_indices cfg menu first_item (min page (n - first_item)))[k]?
      = some selected := by
    rw [List.getElem?_eq_getElem hklt, hk]
  refine ⟨_, _, ?_, hmem, hpair, hlength, hrows, k, hk2, ?_⟩
  · simp only [menu_layout, Int.toNat_ofNat, Nat.cast_zero]
    simp only [Nat.add_zero, Nat.cast_zero] at hloop
    rw [hloop]
  · intro j c hj
    by_cases hjt : j < (layout_title lcfg menu).length
    · rw [List.getElem?_append_left hjt] at hj
      have hc : c.style &&& lcfg.STYLEF_INVERT = 0 := by
        by_cases ht : (menu.title != 0) = true
        · simp only [layout_title, ht, if_true, List.length_singleton] at hj hjt
          have hj0 : j = 0 := by omega
          subst hj0
          simp only [List.getElem?_cons_zero, Option.some.injEq] at hj
          subst hj
          exact hstyle.2.2
        · simp [layout_title, ht] at hjt
      constructor
      · intro h
        exact absurd hc h
      · intro h
        omega
    · rw [List.getElem?_append_right (by omega)] at hj
      have hjk : j - (layout_title lcfg menu).length
          < (window_indices cfg menu first_item (min page (n - first_item))).length := by
        rw [← hlength]
        by_contra hcon
        rw [List.getElem?_eq_none (by omega)] at hj
        exact Option.noConfusion hj
      obtain ⟨item, _, hcall⟩ := hrows (j - (layout_title lcfg menu).length) _
        (List.getElem?_eq_getElem hjk)
      rw [hcall] at hj
      simp only [Option.some.injEq] at hj
      subst hj
      rw [layout_item_call_inverted cfg lcfg hstyle]
      constructor
      · intro h
        have h2 : (window_indices cfg menu first_item (min page (n - first_item)))[
            j - (layout_title lcfg menu).length] = selected := by
          exact_mod_cast h
        have h3 := List.getElem?_inj hjk hnodup
          (show (window_indices cfg menu first_item (min page (n - first_item)))[
              j - (layout_title lcfg menu).length]?
            = (window_indices cfg menu first_item (min page (n - first_item)))[k]? by
            rw [hk2, List.getElem?_eq_getElem hjk, h2])
        omega
      · intro h
        have h2 : j - (layout_title lcfg menu).length = k := by omega
        have h3 : (window_indices cfg menu first_item (min page (n - first_item)))[
            j - (layout_title lcfg menu).length] = selected := by
          have h4 := hk2
          rw [← h2, List.getElem?_eq_getElem hjk] at h4
          exact Option.some.inj h4
        rw [h3]

/-- Instance of `menu_layout_window`: the titled menu with the window at item 2, room for
four items and item 3 selected.  The title is on row 0, the items 2, 3 and 4 are on the rows
1, 2 and 3, the loop stops at the sentinel, and the row of item 3 is the inverted one. -/
theorem menu_layout_window_witness :
    menu_layout bertosConfig bertosLayout titledMenu ((2 : Nat) : Int) ((4 : Nat) : Int)
        ((3 : Nat) : Int)
      = Outcome.done [⟨0, 0, 0x6005, DrawText.title 9⟩,
          ⟨1, 0, 0x2000, DrawText.item LabelFormat.rom 3 CheckMark.on⟩,
          ⟨2, 0, 0x2008, DrawText.item LabelFormat.ram 4 CheckMark.mark⟩,
          ⟨3, 0, 0x2000, DrawText.item LabelFormat.rom 5 CheckMark.blank⟩] ∧
    ∃ (idxs : List Nat) (calls : List DrawCall),
      menu_layout bertosConfig bertosLayout titledMenu ((2 : Nat) : Int) ((4 : Nat) : Int)
          ((3 : Nat) : Int)
        = Outcome.done (layout_title bertosLayout titledMenu ++ calls) ∧
      (∀ i : Nat, i ∈ idxs
        ↔ 2 ≤ i ∧ i < 2 + 4 ∧ i < 5 ∧ VisibleAt bertosConfig titledMenu (i : Int)) ∧
      idxs.Pairwise (fun a b => a < b) ∧
      calls.length = idxs.length ∧
      (∀ (k i : Nat), idxs[k]? = some i →
        ∃ item, titledMenu.items[i]? = some item ∧
          calls[k]? = some (layout_item_call bertosConfig bertosLayout
            ((if titledMenu.title != 0 then 1 else 0) + k) (i : Int) ((3 : Nat) : Int) item)) ∧
      ∃ k : Nat, idxs[k]? = some 3 ∧
        ∀ (j : Nat) (c : DrawCall),
          (layout_title bertosLayout titledMenu ++ calls)[j]? = some c →
          (c.style &&& bertosLayout.STYLEF_INVERT ≠ 0
            ↔ j = (layout_title bertosLayout titledMenu).length + k) :=
  ⟨by decide,
    menu_layout_window bertosConfig bertosLayout ⟨by decide, by decide, by decide⟩
      titledMenu 5 2 4 3 (by decide)
      (by decide) (by decide) (by decide) ⟨0x2100, by decide, by decide⟩⟩

end Bertos
